import Mathlib

/-!
# react-webCrawler: the page analyser of `backend/crawler/crawler.go`

A shallow embedding of the crawler's document traversal (`analyzeHTML`), link
classification (`analyzeLink`, `isAccessibleLink`), version heuristic
(`extractHTMLVersion`), text extraction (`extractTextContent`), login-form
heuristic (`isLoginForm`, `checkInputs`), persistence (`saveResults`,
`updateURLStatus`) and driver (`CrawlURL`), with the properties proved about them.

Modelling conventions.

* A Go `string` is a sequence of bytes: `GoString := List UInt8`. `go "abc"` is the
  UTF-8 encoding of a Lean literal, the way a Go source literal is stored.
* An `*html.Node` is a finite tree. Sibling and child pointers become the list of
  children; the `Parent` pointer becomes an explicit argument of the functions that
  read it.
* The mutable `*CrawlData` accumulator is threaded as a value. The network is threaded
  next to it as a `World`: the state of the remote side plus the list of HEAD requests
  issued so far.
* The database is threaded as a `Store`: the state of the server plus the list of the
  statements sent with `database.DB.Exec`, each with whether it returned without error.
  The fetch, the HTML parser and the database are fields of `Sys`, which extends `Env`.
  `mysqlSys` instantiates the database with a model of the MySQL server behind the one
  driver `database.go` opens: the tables of `createTables`, the effect of the crawler's
  four statements on them, and an arbitrary pattern of statements that fail.
* Go `int` counters are natural numbers: a counter is incremented at most once per tree
  node, and a tree of `2^63` nodes does not fit in memory, so the counters never wrap.
* The Go standard library is not part of the repository. `strings.HasPrefix`,
  `strings.Contains` and `strings.TrimSpace` are modelled directly. `net/url`,
  `strings.ToLower` and the HTTP client are fields of an environment `Env`, so the
  general theorems hold for every implementation of them; `goEnv` instantiates the
  environment with a model of Go's `net/url`.
-/

namespace Crawler

/-! ## Go strings -/

/-- A Go `string`: an immutable sequence of bytes. -/
abbrev GoString := List UInt8

/-- The UTF-8 encoding of one Unicode scalar value. -/
def utf8Encode (c : Char) : List UInt8 :=
  let n := c.toNat
  if n < 0x80 then [n.toUInt8]
  else if n < 0x800 then [(0xC0 + n / 64).toUInt8, (0x80 + n % 64).toUInt8]
  else if n < 0x10000 then
    [(0xE0 + n / 4096).toUInt8, (0x80 + n / 64 % 64).toUInt8, (0x80 + n % 64).toUInt8]
  else
    [(0xF0 + n / 262144).toUInt8, (0x80 + n / 4096 % 64).toUInt8,
     (0x80 + n / 64 % 64).toUInt8, (0x80 + n % 64).toUInt8]

/-- The bytes of a string literal, as the Go compiler stores it. -/
def go (s : String) : GoString :=
  s.data.foldr (fun c acc => utf8Encode c ++ acc) []

/-- The byte of an ASCII character literal such as `'/'`. -/
def byte (c : Char) : UInt8 := c.toNat.toUInt8

/-- Go `strings.HasPrefix`. -/
def HasPrefix (s pre : GoString) : Bool := pre.isPrefixOf s

/-- Go `strings.HasSuffix`. -/
def HasSuffix (s suf : GoString) : Bool := suf.reverse.isPrefixOf s.reverse

/-- Go `strings.Contains`: `substr` occurs in `s` as a contiguous run of bytes. -/
def Contains : GoString → GoString → Bool
  | [], substr => substr.isEmpty
  | c :: cs, substr => substr.isPrefixOf (c :: cs) || Contains cs substr

/-- The UTF-8 encodings of the runes for which Go's `unicode.IsSpace` holds:
`\t \n \v \f \r`, space, U+0085, U+00A0, U+1680, U+2000..U+200A, U+2028, U+2029,
U+202F, U+205F, U+3000. -/
def spaceEncodings : List GoString :=
  [[0x09], [0x0A], [0x0B], [0x0C], [0x0D], [0x20], [0xC2, 0x85], [0xC2, 0xA0],
   [0xE1, 0x9A, 0x80],
   [0xE2, 0x80, 0x80], [0xE2, 0x80, 0x81], [0xE2, 0x80, 0x82], [0xE2, 0x80, 0x83],
   [0xE2, 0x80, 0x84], [0xE2, 0x80, 0x85], [0xE2, 0x80, 0x86], [0xE2, 0x80, 0x87],
   [0xE2, 0x80, 0x88], [0xE2, 0x80, 0x89], [0xE2, 0x80, 0x8A],
   [0xE2, 0x80, 0xA8], [0xE2, 0x80, 0xA9], [0xE2, 0x80, 0xAF], [0xE2, 0x81, 0x9F],
   [0xE3, 0x80, 0x80]]

/-- The length of the white-space rune that `s` starts with, if it starts with one.
A rune decodes from the front of `s` exactly when `s` starts with its encoding. -/
def leadingSpace (encs : List GoString) (s : GoString) : Option Nat :=
  (encs.find? (fun e => e.isPrefixOf s)).map List.length

/-- Go `strings.TrimLeftFunc(s, unicode.IsSpace)`: one white-space rune is removed per
step; `fuel` bounds the number of steps by the length of the string. -/
def trimLeftSpace (encs : List GoString) : Nat → GoString → GoString
  | 0, s => s
  | fuel + 1, s =>
    match leadingSpace encs s with
    | some k => if k = 0 then s else trimLeftSpace encs fuel (s.drop k)
    | none => s

/-- Go `strings.TrimSpace`: all leading and trailing white space removed, as defined by
Unicode. Trailing runes are decoded backwards, so the right end is trimmed on the
reversed string against the reversed encodings. -/
def TrimSpace (s : GoString) : GoString :=
  let l := trimLeftSpace spaceEncodings s.length s
  (trimLeftSpace (spaceEncodings.map List.reverse) l.length l.reverse).reverse

/-! ## The document tree of `golang.org/x/net/html` -/

/-- Go `html.NodeType`. -/
inductive NodeType where
  | ErrorNode
  | TextNode
  | DocumentNode
  | ElementNode
  | CommentNode
  | DoctypeNode
  | RawNode
  deriving DecidableEq, Repr

/-- Go `html.Attribute`. -/
structure Attribute where
  Namespace : GoString
  Key : GoString
  Val : GoString
  deriving DecidableEq

/-- Go `html.Node`: `Typ` is the field `Type`, `children` is the chain
`FirstChild, FirstChild.NextSibling, ...`. -/
inductive Node where
  | mk (Typ : NodeType) (Data : GoString) (Attr : List Attribute) (children : List Node)

/-- Field `Type` of a node. -/
def Node.Typ : Node → NodeType
  | .mk t _ _ _ => t

/-- Field `Data` of a node: the tag name of an element, the text of a text node. -/
def Node.Data : Node → GoString
  | .mk _ d _ _ => d

/-- Field `Attr` of a node. -/
def Node.Attr : Node → List Attribute
  | .mk _ _ a _ => a

/-- The children of a node, first to last. -/
def Node.children : Node → List Node
  | .mk _ _ _ cs => cs

/-! ## The crawler's data -/

/-- Go `models.BrokenLink`, without the `CreatedAt` time stamp, which the crawler
never sets. -/
structure BrokenLink where
  ID : Int
  ResultID : Int
  URL : GoString
  StatusCode : Int
  ErrorMessage : GoString
  deriving DecidableEq

/-- A Go `map[string]int`: `none` for a key that is not in the map. -/
abbrev HeadingMap := GoString → Option Nat

/-- Reading `m[k]`: the zero value for a key that is absent. -/
def HeadingMap.read (m : HeadingMap) (k : GoString) : Nat := (m k).getD 0

/-- The statement `m[k]++`. -/
def HeadingMap.incr (m : HeadingMap) (k : GoString) : HeadingMap :=
  fun k' => if k' = k then some (m.read k + 1) else m k'

/-- Go `crawler.CrawlData`. -/
structure CrawlData where
  Title : GoString
  HTMLVersion : GoString
  HeadingCounts : HeadingMap
  InternalLinks : Nat
  ExternalLinks : Nat
  InaccessibleLinks : Nat
  HasLoginForm : Bool
  BrokenLinks : List BrokenLink

/-- The accumulator `CrawlURL` starts from: an empty map, an empty list, and the zero
value of every other field. -/
def CrawlData.fresh : CrawlData :=
  { Title := [], HTMLVersion := [], HeadingCounts := fun _ => none, InternalLinks := 0,
    ExternalLinks := 0, InaccessibleLinks := 0, HasLoginForm := false, BrokenLinks := [] }

/-- The world outside the process: the state `net` of the remote side, and `heads`, the
URLs of the HEAD requests issued so far, oldest first. -/
structure World (σ : Type) where
  net : σ
  heads : List GoString

/-- The library and network the crawler calls into. `U` is the type `*url.URL`.
`Head` is `client.Head` with a five second timeout: `none` is a transport error,
`some code` a response with that status code; the remote side may change state. -/
structure Env (U σ : Type) where
  Parse : GoString → Option U
  ResolveReference : U → U → U
  Host : U → GoString
  String : U → GoString
  ToLower : GoString → GoString
  Head : σ → GoString → Option Int × σ

/-! ## A model of Go's `net/url` and `strings.ToLower`

The functions below follow `net/url/url.go` of the Go standard library (Go 1.22)
function by function, on bytes. Errors are `none`; the error values themselves are not
modelled, since the crawler only tests them against `nil`. -/

/-- Go `strings.Index`: the position of the first occurrence of `substr`. -/
def Index (substr : GoString) : GoString → Option Nat
  | [] => if substr = [] then some 0 else none
  | c :: cs =>
    if substr.isPrefixOf (c :: cs) then some 0 else (Index substr cs).map (· + 1)

/-- Go `strings.Cut`: the text before and after the first `sep`, and whether it occurs. -/
def Cut (s sep : GoString) : GoString × GoString × Bool :=
  match Index sep s with
  | some i => (s.take i, s.drop (i + sep.length), true)
  | none => (s, [], false)

/-- Go `strings.LastIndexByte`: the position of the last occurrence of `c`. -/
def LastIndexByte (c : UInt8) : GoString → Option Nat
  | [] => none
  | x :: xs =>
    match LastIndexByte c xs with
    | some i => some (i + 1)
    | none => if x = c then some 0 else none

/-- An ASCII upper-case letter is mapped to lower case, every other byte to itself. -/
def asciiLower (c : UInt8) : UInt8 :=
  if byte 'A' ≤ c ∧ c ≤ byte 'Z' then (c.toNat + 32).toUInt8 else c

/-- Go `strings.ToLower`. A string of ASCII bytes takes the fast path of the Go source;
any other string is mapped rune by rune through the Unicode case tables,
`strings.Map(unicode.ToLower, s)`, which is the parameter `mapLower`. -/
def ToLower (mapLower : GoString → GoString) (s : GoString) : GoString :=
  if s.all (fun c => c < 0x80) then s.map asciiLower else mapLower s

namespace url

/-- Go `url.Userinfo`. -/
structure Userinfo where
  username : GoString
  password : GoString
  passwordSet : Bool
  deriving DecidableEq

/-- Go `url.URL`. -/
structure URL where
  Scheme : GoString
  Opaque : GoString
  User : Option Userinfo
  Host : GoString
  Path : GoString
  RawPath : GoString
  OmitHost : Bool
  ForceQuery : Bool
  RawQuery : GoString
  Fragment : GoString
  RawFragment : GoString
  deriving DecidableEq

/-- The zero value `URL{}`. -/
def URL.zero : URL :=
  { Scheme := [], Opaque := [], User := none, Host := [], Path := [], RawPath := [],
    OmitHost := false, ForceQuery := false, RawQuery := [], Fragment := [], RawFragment := [] }

/-- Go `url.encoding`: the part of a URL a string is escaped for. -/
inductive encoding where
  | encodePath
  | encodePathSegment
  | encodeHost
  | encodeZone
  | encodeUserPassword
  | encodeQueryComponent
  | encodeFragment
  deriving DecidableEq

/-- Go `ishex`. -/
def ishex (c : UInt8) : Bool :=
  (byte '0' ≤ c && c ≤ byte '9') || (byte 'a' ≤ c && c ≤ byte 'f') ||
    (byte 'A' ≤ c && c ≤ byte 'F')

/-- Go `unhex`, as a number below 16. -/
def unhex (c : UInt8) : Nat :=
  if byte '0' ≤ c ∧ c ≤ byte '9' then c.toNat - 48
  else if byte 'a' ≤ c ∧ c ≤ byte 'f' then c.toNat - 97 + 10
  else if byte 'A' ≤ c ∧ c ≤ byte 'F' then c.toNat - 65 + 10
  else 0

/-- The byte `unhex(a)<<4 | unhex(b)` that the escape `%ab` stands for. -/
def unhexPair (a b : UInt8) : UInt8 := (16 * unhex a + unhex b).toUInt8

/-- Go `shouldEscape`. -/
def shouldEscape (c : UInt8) (mode : encoding) : Bool :=
  if (byte 'a' ≤ c ∧ c ≤ byte 'z') ∨ (byte 'A' ≤ c ∧ c ≤ byte 'Z') ∨
      (byte '0' ≤ c ∧ c ≤ byte '9') then false
  else if (mode = .encodeHost ∨ mode = .encodeZone) ∧ c ∈ go "!$&'()*+,;=:[]<>\"" then false
  else if c ∈ go "-_.~" then false
  else if c ∈ go "$&+,/:;=?@" then
    match mode with
    | .encodePath => c = byte '?'
    | .encodePathSegment => c = byte '/' || c = byte ';' || c = byte ',' || c = byte '?'
    | .encodeUserPassword => c = byte '@' || c = byte '/' || c = byte '?' || c = byte ':'
    | .encodeQueryComponent => true
    | .encodeFragment => false
    | _ => true
  else if mode = .encodeFragment ∧ c ∈ go "!()*" then false
  else true

/-- The first loop of Go `unescape`: every `%` is followed by two hex digits, and in a
host only the escapes and bytes a host may hold occur. -/
def unescapeValid (mode : encoding) : GoString → Bool
  | [] => true
  | c :: rest =>
    if c = byte '%' then
      match rest with
      | a :: b :: rest' =>
        if !ishex a || !ishex b then false
        else if mode = .encodeHost ∧ unhex a < 8 ∧ [c, a, b] ≠ go "%25" then false
        else if mode = .encodeZone ∧ [c, a, b] ≠ go "%25" ∧ unhexPair a b ≠ byte ' ' ∧
            shouldEscape (unhexPair a b) .encodeHost = true then false
        else unescapeValid mode rest'
      | _ => false
    else if c = byte '+' then unescapeValid mode rest
    else if (mode = .encodeHost ∨ mode = .encodeZone) ∧ c < 0x80 ∧
        shouldEscape c .encodeHost = true then false
    else unescapeValid mode rest

/-- The second loop of Go `unescape`: escapes replaced by the bytes they stand for. -/
def unescapeBytes (mode : encoding) : GoString → GoString
  | [] => []
  | c :: rest =>
    if c = byte '%' then
      match rest with
      | a :: b :: rest' => unhexPair a b :: unescapeBytes mode rest'
      | _ => [c]
    else if c = byte '+' then
      (if mode = .encodeQueryComponent then byte ' ' else byte '+') :: unescapeBytes mode rest
    else c :: unescapeBytes mode rest

/-- Go `unescape`. -/
def unescape (s : GoString) (mode : encoding) : Option GoString :=
  if unescapeValid mode s then some (unescapeBytes mode s) else none

/-- One digit of Go's `upperhex` table. -/
def upperhex (n : Nat) : UInt8 := if n < 10 then (48 + n).toUInt8 else (55 + n).toUInt8

/-- Go `escape`. -/
def escape (s : GoString) (mode : encoding) : GoString :=
  s.foldr (fun c acc =>
    if c = byte ' ' ∧ mode = .encodeQueryComponent then byte '+' :: acc
    else if shouldEscape c mode then
      byte '%' :: upperhex (c.toNat / 16) :: upperhex (c.toNat % 16) :: acc
    else c :: acc) []

/-- Go `validEncoded`. -/
def validEncoded (s : GoString) (mode : encoding) : Bool :=
  s.all (fun c => c ∈ go "!$&'()*+,;=:@[]%" || !shouldEscape c mode)

/-- Go `stringContainsCTLByte`. -/
def stringContainsCTLByte (s : GoString) : Bool :=
  s.any (fun b => b < 0x20 || b = 0x7f)

/-- The loop of Go `getScheme`, at position `i` of `rawURL` with `rest` still to read. -/
def getSchemeLoop (rawURL : GoString) : Nat → GoString → Option (GoString × GoString)
  | _, [] => some ([], rawURL)
  | i, c :: rest =>
    if (byte 'a' ≤ c ∧ c ≤ byte 'z') ∨ (byte 'A' ≤ c ∧ c ≤ byte 'Z') then
      getSchemeLoop rawURL (i + 1) rest
    else if (byte '0' ≤ c ∧ c ≤ byte '9') ∨ c = byte '+' ∨ c = byte '-' ∨ c = byte '.' then
      if i = 0 then some ([], rawURL) else getSchemeLoop rawURL (i + 1) rest
    else if c = byte ':' then
      if i = 0 then none else some (rawURL.take i, rest)
    else some ([], rawURL)

/-- Go `getScheme`: the scheme and what follows its colon; `none` is the error
`missing protocol scheme`. -/
def getScheme (rawURL : GoString) : Option (GoString × GoString) :=
  getSchemeLoop rawURL 0 rawURL

/-- Go `validOptionalPort`. -/
def validOptionalPort (port : GoString) : Bool :=
  match port with
  | [] => true
  | c :: digits => c = byte ':' && digits.all (fun b => byte '0' ≤ b && b ≤ byte '9')

/-- Go `validUserinfo`. -/
def validUserinfo (s : GoString) : Bool :=
  s.all (fun r =>
    (byte 'A' ≤ r && r ≤ byte 'Z') || (byte 'a' ≤ r && r ≤ byte 'z') ||
    (byte '0' ≤ r && r ≤ byte '9') || r ∈ go "-._:~!$&'()*+,;=%@")

/-- Go `parseHost`. -/
def parseHost (host : GoString) : Option GoString :=
  if HasPrefix host (go "[") then
    match LastIndexByte (byte ']') host with
    | none => none
    | some i =>
      if !validOptionalPort (host.drop (i + 1)) then none
      else
        match Index (go "%25") (host.take i) with
        | some zone =>
          match unescape (host.take zone) .encodeHost,
                unescape ((host.take i).drop zone) .encodeZone,
                unescape (host.drop i) .encodeHost with
          | some host1, some host2, some host3 => some (host1 ++ host2 ++ host3)
          | _, _, _ => none
        | none => unescape host .encodeHost
  else
    match LastIndexByte (byte ':') host with
    | some i => if !validOptionalPort (host.drop i) then none else unescape host .encodeHost
    | none => unescape host .encodeHost

/-- Go `parseAuthority`. -/
def parseAuthority (authority : GoString) : Option (Option Userinfo × GoString) :=
  match LastIndexByte (byte '@') authority with
  | none => (parseHost authority).map (fun host => (none, host))
  | some i =>
    match parseHost (authority.drop (i + 1)) with
    | none => none
    | some host =>
      let userinfo := authority.take i
      if !validUserinfo userinfo then none
      else if !Contains userinfo (go ":") then
        (unescape userinfo .encodeUserPassword).map (fun username =>
          (some { username := username, password := [], passwordSet := false }, host))
      else
        let (username, password, _) := Cut userinfo (go ":")
        match unescape username .encodeUserPassword, unescape password .encodeUserPassword with
        | some username, some password =>
          some (some { username := username, password := password, passwordSet := true }, host)
        | _, _ => none

/-- Go `(*URL).setPath`. -/
def URL.setPath (u : URL) (p : GoString) : Option URL :=
  match unescape p .encodePath with
  | none => none
  | some path =>
    some { u with Path := path, RawPath := if p = escape path .encodePath then [] else p }

/-- Go `(*URL).setFragment`. -/
def URL.setFragment (u : URL) (f : GoString) : Option URL :=
  match unescape f .encodeFragment with
  | none => none
  | some frag =>
    some { u with
      Fragment := frag, RawFragment := if f = escape frag .encodeFragment then [] else f }

/-- The second half of Go `parse` (with `viaRequest` false): authority and path, read
from `rest` into `url`. -/
def parseAuthorityAndPath (url : URL) (rest : GoString) : Option URL :=
  if (url.Scheme ≠ [] ∨ HasPrefix rest (go "///") = false) ∧ HasPrefix rest (go "//") = true then
    let authority := rest.drop 2
    let (authority, rest) :=
      match Index (go "/") authority with
      | some i => (authority.take i, authority.drop i)
      | none => (authority, [])
    match parseAuthority authority with
    | none => none
    | some (user, host) => URL.setPath { url with User := user, Host := host } rest
  else if url.Scheme ≠ [] ∧ HasPrefix rest (go "/") = true then
    URL.setPath { url with OmitHost := true } rest
  else URL.setPath url rest

/-- The query step of Go `parse`: a single trailing `?` sets `ForceQuery`, otherwise
the text after the first `?` is the raw query. Returns the URL and the text before the
query. -/
def splitQuery (url : URL) (rest : GoString) : URL × GoString :=
  if HasSuffix rest (go "?") ∧ rest.count (byte '?') = 1 then
    ({ url with ForceQuery := true }, rest.dropLast)
  else
    ({ url with RawQuery := (Cut rest (go "?")).2.1 }, (Cut rest (go "?")).1)

/-- The steps of Go `parse` (with `viaRequest` false) after the query is split off: a
rootless path after a scheme is opaque, a first segment with a colon is an error,
everything else is an authority and a path. -/
def parseHierarchy (url : URL) (rest : GoString) : Option URL :=
  if !HasPrefix rest (go "/") then
    if url.Scheme ≠ [] then some { url with Opaque := rest }
    else if Contains (Cut rest (go "/")).1 (go ":") then none
    else parseAuthorityAndPath url rest
  else parseAuthorityAndPath url rest

/-- Go `parse` with `viaRequest` false. The scheme that `getScheme` returns consists of
ASCII bytes, on which `strings.ToLower` is `asciiLower`. -/
def parse (rawURL : GoString) : Option URL :=
  if stringContainsCTLByte rawURL then none
  else if rawURL = go "*" then some { URL.zero with Path := go "*" }
  else
    match getScheme rawURL with
    | none => none
    | some (scheme, rest) =>
      parseHierarchy (splitQuery { URL.zero with Scheme := scheme.map asciiLower } rest).1
        (splitQuery { URL.zero with Scheme := scheme.map asciiLower } rest).2

/-- Go `url.Parse`. -/
def Parse (rawURL : GoString) : Option URL :=
  let (u, frag, _) := Cut rawURL (go "#")
  match parse u with
  | none => none
  | some url => if frag = [] then some url else url.setFragment frag

/-- Go `(*URL).EscapedPath`. -/
def URL.EscapedPath (u : URL) : GoString :=
  if u.RawPath ≠ [] ∧ validEncoded u.RawPath .encodePath = true ∧
      unescape u.RawPath .encodePath = some u.Path then u.RawPath
  else if u.Path = go "*" then go "*"
  else escape u.Path .encodePath

/-- Go `(*URL).EscapedFragment`. -/
def URL.EscapedFragment (u : URL) : GoString :=
  if u.RawFragment ≠ [] ∧ validEncoded u.RawFragment .encodeFragment = true ∧
      unescape u.RawFragment .encodeFragment = some u.Fragment then u.RawFragment
  else escape u.Fragment .encodeFragment

/-- Go `(*Userinfo).String`. -/
def Userinfo.String (u : Userinfo) : GoString :=
  if u.passwordSet then
    escape u.username .encodeUserPassword ++ go ":" ++ escape u.password .encodeUserPassword
  else escape u.username .encodeUserPassword

/-- The authority part that Go `(*URL).String` writes after the scheme. -/
def URL.authorityString (u : URL) : GoString :=
  if u.Scheme ≠ [] ∨ u.Host ≠ [] ∨ u.User ≠ none then
    if u.OmitHost = true ∧ u.Host = [] ∧ u.User = none then []
    else
      (if u.Host ≠ [] ∨ u.Path ≠ [] ∨ u.User ≠ none then go "//" else []) ++
      (match u.User with
        | some ui => ui.String ++ go "@"
        | none => []) ++
      (if u.Host ≠ [] then escape u.Host .encodeHost else [])
  else []

/-- Go `(*URL).String`. The buffer is assembled from its parts: scheme, then the opaque
text or authority and path, then query and fragment. -/
def URL.String (u : URL) : GoString :=
  let scheme := if u.Scheme ≠ [] then u.Scheme ++ go ":" else []
  let body :=
    if u.Opaque ≠ [] then u.Opaque
    else
      let authority := u.authorityString
      let path := u.EscapedPath
      let slash :=
        if path ≠ [] ∧ path.head? ≠ some (byte '/') ∧ u.Host ≠ [] then go "/" else []
      let dot :=
        if scheme ++ authority ++ slash = [] ∧ Contains (Cut path (go "/")).1 (go ":") = true
        then go "./" else []
      authority ++ slash ++ dot ++ path
  let query := if u.ForceQuery = true ∨ u.RawQuery ≠ [] then go "?" ++ u.RawQuery else []
  let fragment := if u.Fragment ≠ [] then go "#" ++ u.EscapedFragment else []
  scheme ++ body ++ query ++ fragment

/-- Go `strings.Split(s, "/")`: the segments that the loop of `resolvePath` cuts off
one after the other. -/
def splitSlash : GoString → List GoString
  | [] => [[]]
  | c :: cs =>
    if c = byte '/' then [] :: splitSlash cs
    else
      match splitSlash cs with
      | seg :: segs => (c :: seg) :: segs
      | [] => [[c]]

/-- One round of the loop of Go `resolvePath`, on the pair `(dst, first)`. -/
def resolveStep (acc : GoString × Bool) (elem : GoString) : GoString × Bool :=
  if elem = go "." then (acc.1, false)
  else if elem = go ".." then
    let str := acc.1.drop 1
    match LastIndexByte (byte '/') str with
    | none => (go "/", true)
    | some index => (go "/" ++ str.take index, acc.2)
  else ((if acc.2 then acc.1 else acc.1 ++ go "/") ++ elem, false)

/-- Go `resolvePath`. -/
def resolvePath (base ref : GoString) : GoString :=
  let full :=
    if ref = [] then base
    else if ref.head? ≠ some (byte '/') then
      (match LastIndexByte (byte '/') base with
        | some i => base.take (i + 1)
        | none => []) ++ ref
    else ref
  if full = [] then []
  else
    let elems := splitSlash full
    let dst := (elems.foldl resolveStep (go "/", true)).1
    let dst := if elems.getLast? = some (go ".") ∨ elems.getLast? = some (go "..")
      then dst ++ go "/" else dst
    if dst.length > 1 ∧ (dst.drop 1).head? = some (byte '/') then dst.drop 1 else dst

/-- The call `url.setPath(p)` whose error is ignored: on an error the URL is unchanged. -/
def URL.setPathIgnoringError (u : URL) (p : GoString) : URL :=
  (u.setPath p).getD u

/-- Go `(*URL).ResolveReference`: `u` is the base, `ref` the reference. -/
def URL.ResolveReference (u ref : URL) : URL :=
  let url := if ref.Scheme = [] then { ref with Scheme := u.Scheme } else ref
  if ref.Scheme ≠ [] ∨ ref.Host ≠ [] ∨ ref.User ≠ none then
    url.setPathIgnoringError (resolvePath ref.EscapedPath [])
  else if ref.Opaque ≠ [] then { url with User := none, Host := [], Path := [] }
  else
    let url :=
      if ref.Path = [] ∧ ref.ForceQuery = false ∧ ref.RawQuery = [] then
        if ref.Fragment = [] then
          { url with RawQuery := u.RawQuery, Fragment := u.Fragment, RawFragment := u.RawFragment }
        else { url with RawQuery := u.RawQuery }
      else url
    if ref.Path = [] ∧ u.Opaque ≠ [] then
      { url with Opaque := u.Opaque, User := none, Host := [], Path := [] }
    else
      URL.setPathIgnoringError { url with Host := u.Host, User := u.User }
        (resolvePath u.EscapedPath ref.EscapedPath)

end url

/-- The environment of a Go process: `net/url` and `strings.ToLower` as modelled above,
the Unicode case mapping `mapLower` and the behaviour `Head` of the network left open. -/
def goEnv {σ : Type} (mapLower : GoString → GoString)
    (Head : σ → GoString → Option Int × σ) : Env url.URL σ :=
  { Parse := url.Parse
    ResolveReference := url.URL.ResolveReference
    Host := url.URL.Host
    String := url.URL.String
    ToLower := ToLower mapLower
    Head := Head }

/-! ## The functions of `crawler.go` -/

section Functions

variable {U σ : Type}

/-- The sibling loop of `extractHTMLVersion` (lines 121-127): some node of the list is a
DOCTYPE whose lower-cased data contains `html`. -/
def hasHTMLDoctype (env : Env U σ) : List Node → Bool
  | [] => false
  | sibling :: rest =>
    if sibling.Typ = NodeType.DoctypeNode then
      if Contains (env.ToLower sibling.Data) (go "html") then true
      else hasHTMLDoctype env rest
    else hasHTMLDoctype env rest

/-- The attribute loop of `extractHTMLVersion` (lines 131-135). -/
def hasXHTMLAttr : List Attribute → Bool
  | [] => false
  | attr :: rest =>
    if attr.Key = go "xmlns" ∨ Contains attr.Val (go "xhtml") = true then true
    else hasXHTMLAttr rest

/-- Go `extractHTMLVersion`; `parent` is `n.Parent`, `none` for a nil pointer. -/
def extractHTMLVersion (env : Env U σ) (parent : Option Node) (n : Node) : GoString :=
  let doctype :=
    match parent with
    | some p => if p.Typ = NodeType.DocumentNode then hasHTMLDoctype env p.children else false
    | none => false
  if doctype then go "HTML5"
  else if hasXHTMLAttr n.Attr then go "XHTML"
  else go "HTML5"

mutual
/-- Go `extractTextContent`. -/
def extractTextContent : Node → GoString
  | .mk t d _ cs =>
    if t = NodeType.TextNode then TrimSpace d
    else TrimSpace (extractTextChildren cs)
/-- The child loop of `extractTextContent` (lines 145-148): what the builder holds. -/
def extractTextChildren : List Node → GoString
  | [] => []
  | c :: rest => extractTextContent c ++ extractTextChildren rest
end

/-- Go `isAccessibleLink`. -/
def isAccessibleLink (env : Env U σ) (linkURL : GoString) (w : World σ) : Bool × World σ :=
  if HasPrefix linkURL (go "mailto:") || HasPrefix linkURL (go "tel:") ||
      HasPrefix linkURL (go "javascript:") || HasPrefix linkURL (go "#") then
    (true, w)
  else
    match env.Head w.net linkURL with
    | (none, net) => (false, { net := net, heads := w.heads ++ [linkURL] })
    | (some code, net) => (decide (code < 400), { net := net, heads := w.heads ++ [linkURL] })

/-- The attribute loop of `analyzeLink` (lines 153-159): the value of the first `href`
attribute, the empty string when there is none. -/
def hrefOf : List Attribute → GoString
  | [] => []
  | attr :: rest => if attr.Key = go "href" then attr.Val else hrefOf rest

/-- Go `analyzeLink`. -/
def analyzeLink (env : Env U σ) (n : Node) (data : CrawlData) (baseURL : U) (w : World σ) :
    CrawlData × World σ :=
  let href := hrefOf n.Attr
  if href = [] then (data, w)
  else
    match env.Parse href with
    | none => (data, w)
    | some linkURL =>
      let resolvedURL := env.ResolveReference baseURL linkURL
      let data :=
        if env.Host resolvedURL = env.Host baseURL then
          { data with InternalLinks := data.InternalLinks + 1 }
        else
          { data with ExternalLinks := data.ExternalLinks + 1 }
      match isAccessibleLink env (env.String resolvedURL) w with
      | (true, w) => (data, w)
      | (false, w) =>
        ({ data with
            InaccessibleLinks := data.InaccessibleLinks + 1
            BrokenLinks := data.BrokenLinks ++
              [{ ID := 0, ResultID := 0, URL := env.String resolvedURL, StatusCode := 0,
                 ErrorMessage := go "Link check failed" }] }, w)

/-- The attribute loop of `checkInputs` (lines 242-249), started from
`(inputType, inputName)`: every `type` attribute overwrites the first component, every
`name` or `id` attribute overwrites the second. -/
def inputAttrs (env : Env U σ) : List Attribute → GoString × GoString → GoString × GoString
  | [], acc => acc
  | attr :: rest, (inputType, inputName) =>
    let inputType := if attr.Key = go "type" then env.ToLower attr.Val else inputType
    let inputName :=
      if attr.Key = go "name" ∨ attr.Key = go "id" then env.ToLower attr.Val else inputName
    inputAttrs env rest (inputType, inputName)

/-- Lines 240-262 of `checkInputs`: the effect of one node on the two flags
`(hasPassword, hasUsername)`. -/
def checkInput (env : Env U σ) (n : Node) (flags : Bool × Bool) : Bool × Bool :=
  if n.Typ = NodeType.ElementNode ∧ n.Data = go "input" then
    let (inputType, inputName) := inputAttrs env n.Attr ([], [])
    let hasPassword := if inputType = go "password" then true else flags.1
    let hasUsername :=
      if inputType = go "text" ∨ inputType = go "email" then
        if Contains inputName (go "user") || Contains inputName (go "email") ||
            Contains inputName (go "login") then true
        else flags.2
      else flags.2
    (hasPassword, hasUsername)
  else flags

mutual
/-- Go `checkInputs`, the two `*bool` arguments threaded as a pair. -/
def checkInputs (env : Env U σ) : Node → Bool × Bool → Bool × Bool
  | .mk t d attrs cs, flags =>
    checkInputsChildren env cs (checkInput env (.mk t d attrs cs) flags)
/-- The child loop of `checkInputs` (lines 265-267). -/
def checkInputsChildren (env : Env U σ) : List Node → Bool × Bool → Bool × Bool
  | [], flags => flags
  | c :: rest, flags => checkInputsChildren env rest (checkInputs env c flags)
end

/-- The attribute loop of `isLoginForm` (lines 222-231): some `id`, `class` or `name`
attribute has a lower-cased value containing `login`, `signin` or `auth`. -/
def formAttrHint (env : Env U σ) : List Attribute → Bool
  | [] => false
  | attr :: rest =>
    if attr.Key = go "id" ∨ attr.Key = go "class" ∨ attr.Key = go "name" then
      let lowerVal := env.ToLower attr.Val
      if Contains lowerVal (go "login") || Contains lowerVal (go "signin") ||
          Contains lowerVal (go "auth") then true
      else formAttrHint env rest
    else formAttrHint env rest

/-- Go `isLoginForm`. -/
def isLoginForm (env : Env U σ) (n : Node) : Bool :=
  if formAttrHint env n.Attr then true
  else
    let (hasPasswordField, hasUsernameField) := checkInputs env n (false, false)
    hasPasswordField && hasUsernameField

/-- Lines 88-110 of `analyzeHTML`: what is done at node `n` before its children are
visited. `parent` is `n.Parent`. -/
def analyzeNode (env : Env U σ) (baseURL : U) (parent : Option Node) (n : Node)
    (st : CrawlData × World σ) : CrawlData × World σ :=
  if n.Typ = NodeType.ElementNode then
    if n.Data = go "html" then
      ({ st.1 with HTMLVersion := extractHTMLVersion env parent n }, st.2)
    else if n.Data = go "title" then
      let title := extractTextContent n
      if title ≠ [] then ({ st.1 with Title := title }, st.2) else st
    else if n.Data = go "h1" ∨ n.Data = go "h2" ∨ n.Data = go "h3" ∨ n.Data = go "h4" ∨
        n.Data = go "h5" ∨ n.Data = go "h6" then
      ({ st.1 with HeadingCounts := st.1.HeadingCounts.incr n.Data }, st.2)
    else if n.Data = go "a" then analyzeLink env n st.1 baseURL st.2
    else if n.Data = go "form" then
      if isLoginForm env n then ({ st.1 with HasLoginForm := true }, st.2) else st
    else st
  else st

mutual
/-- Go `analyzeHTML`; `parent` is `n.Parent`. -/
def analyzeHTML (env : Env U σ) (baseURL : U) (parent : Option Node) :
    Node → CrawlData × World σ → CrawlData × World σ
  | .mk t d attrs cs, st =>
    analyzeChildren env baseURL (some (.mk t d attrs cs)) cs
      (analyzeNode env baseURL parent (.mk t d attrs cs) st)
/-- The child loop of `analyzeHTML` (lines 113-115); `parent` is the node whose
children are being visited. -/
def analyzeChildren (env : Env U σ) (baseURL : U) (parent : Option Node) :
    List Node → CrawlData × World σ → CrawlData × World σ
  | [], st => st
  | c :: rest, st => analyzeChildren env baseURL parent rest (analyzeHTML env baseURL parent c st)
end

end Functions

/-! ## The vocabulary of the specification -/

mutual
/-- The nodes of a tree in depth-first pre-order: a node before its children, the
children first to last. -/
def preorder : Node → List Node
  | .mk t d attrs cs => .mk t d attrs cs :: preorderChildren cs
/-- The pre-order of a list of sibling trees. -/
def preorderChildren : List Node → List Node
  | [] => []
  | c :: rest => preorder c ++ preorderChildren rest
end

mutual
/-- The pre-order of a tree with every node paired with its parent; `parent` is the
parent of the root. -/
def visits (parent : Option Node) : Node → List (Option Node × Node)
  | .mk t d attrs cs =>
    (parent, .mk t d attrs cs) :: visitsChildren (some (.mk t d attrs cs)) cs
/-- The pre-order of sibling trees, every node paired with its parent. -/
def visitsChildren (parent : Option Node) : List Node → List (Option Node × Node)
  | [] => []
  | c :: rest => visits parent c ++ visitsChildren parent rest
end

/-- An element node with the given tag name. -/
def isElement (tag : GoString) (n : Node) : Bool :=
  n.Typ = NodeType.ElementNode && n.Data = tag

/-- The `href` attribute of a node when it has one: the value of the first attribute
with that key. -/
def hrefAttr (n : Node) : Option GoString :=
  (n.Attr.find? (fun attr => attr.Key = go "href")).map (fun attr => attr.Val)

/-- An `a` element whose `href` attribute is present, is not empty and parses as a URL
reference. -/
def isParsedAnchor {U σ : Type} (env : Env U σ) (n : Node) : Bool :=
  isElement (go "a") n &&
    match hrefAttr n with
    | some href => href ≠ [] && (env.Parse href).isSome
    | none => false

/-- The number of anchors of the tree whose `href` parses, every occurrence counted. -/
def parsedAnchorCount {U σ : Type} (env : Env U σ) (tree : Node) : Nat :=
  ((preorder tree).filter (isParsedAnchor env)).length

/-- The text contents of the `title` elements of the tree that are not empty, in
pre-order. -/
def titleTexts (tree : Node) : List GoString :=
  (((preorder tree).filter (isElement (go "title"))).map extractTextContent).filter
    (fun t => t ≠ [])

/-- The six heading tags. -/
def headingTags : List GoString :=
  [go "h1", go "h2", go "h3", go "h4", go "h5", go "h6"]

/-- The number of element nodes of the tree with the given tag name. -/
def elementCount (tag : GoString) (tree : Node) : Nat :=
  ((preorder tree).filter (isElement tag)).length

/-- The sum `InternalLinks + ExternalLinks`. -/
def CrawlData.linkTotal (d : CrawlData) : Nat := d.InternalLinks + d.ExternalLinks

/-- The invariant `InaccessibleLinks == len(BrokenLinks)`. -/
def CrawlData.lockstep (d : CrawlData) : Prop := d.InaccessibleLinks = d.BrokenLinks.length

/-- Lines 175-179 of `analyzeLink`: the record with one of the two link counters
raised, according to the host of the resolved URL. -/
def classified {U σ : Type} (env : Env U σ) (baseURL linkURL : U) (data : CrawlData) :
    CrawlData :=
  if env.Host (env.ResolveReference baseURL linkURL) = env.Host baseURL then
    { data with InternalLinks := data.InternalLinks + 1 }
  else
    { data with ExternalLinks := data.ExternalLinks + 1 }

/-! ## Example documents -/

/-- An element node with the given tag, attributes and children. -/
def element (tag : String) (attrs : List Attribute) (children : List Node) : Node :=
  .mk NodeType.ElementNode (go tag) attrs children

/-- A text node. -/
def text (s : String) : Node := .mk NodeType.TextNode (go s) [] []

/-- An attribute without a namespace. -/
def attr (key val : String) : Attribute := { Namespace := [], Key := go key, Val := go val }

/-- A document node. -/
def document (children : List Node) : Node := .mk NodeType.DocumentNode [] [] children

/-- A network on which every HEAD request fails at transport level. -/
def deadNet : Unit → GoString → Option Int × Unit := fun net _ => (none, net)

/-- A network on which every HEAD request is answered with the given status code. -/
def statusNet (code : Int) : Unit → GoString → Option Int × Unit := fun net _ => (some code, net)

/-- The Go environment on the dead network. The examples hold ASCII text only, on which
`strings.ToLower` never consults the Unicode tables. -/
def deadEnv : Env url.URL Unit := goEnv (fun s => s) deadNet

/-- The world before the first request. -/
def World.start : World Unit := { net := (), heads := [] }

/-- The base URL `https://example.com/a/`, as `url.Parse` returns it. -/
def exampleBase : url.URL :=
  { url.URL.zero with Scheme := go "https", Host := go "example.com", Path := go "/a/" }

/-- A page with six anchors, one nested in another: three of them have an `href` that
is present, not empty and parses. -/
def linkPage : Node :=
  document [element "html" [] [element "body" [] [
    element "a" [attr "href" "../b"] [text "up"],
    element "a" [attr "name" "top"] [],
    element "a" [attr "href" ""] [],
    element "a" [attr "href" "%zz"] [],
    element "p" [] [
      element "a" [attr "class" "x", attr "href" "https://other.com/x"] [
        element "a" [attr "href" "../b"] []]]]]]

/-- A page with two `title` elements that both hold text. -/
def twoTitles : Node :=
  document [element "html" [] [
    element "head" [] [element "title" [] [text "First"], element "title" [] [text "Second"]],
    element "body" [] []]]

/-- The page `<title> </title><title>Real</title>`. -/
def blankThenReal : Node :=
  document [element "html" [] [
    element "head" [] [element "title" [] [text " "], element "title" [] [text "Real"]],
    element "body" [] []]]

/-- A page with one `h1` and three `h2`, nested in an anchor, a form and each other. -/
def headingPage : Node :=
  document [element "html" [] [element "body" [] [
    element "h1" [] [element "a" [] [element "h2" [] [text "in a link"]]],
    element "form" [] [element "h2" [] [text "outer", element "h2" [] [text "inner"]]],
    element "p" [] [text "h3"]]]]

/-- A form with a password field and `<input type="email" name="user_email">`. -/
def passwordEmailForm : Node :=
  element "form" [attr "action" "/session"] [
    element "input" [attr "type" "password"] [],
    element "div" [] [element "input" [attr "type" "email", attr "name" "user_email"] []]]

/-- A form with only a password field. -/
def passwordOnlyForm : Node :=
  element "form" [attr "action" "/session"] [element "input" [attr "type" "password"] []]

/-- A form with a password field and
`<input type="text" name="username" id="field1">`. -/
def nameThenIdForm : Node :=
  element "form" [attr "action" "/session"] [
    element "input" [attr "type" "password"] [],
    element "input" [attr "type" "text", attr "name" "username", attr "id" "field1"] []]

/-- The same form with the two attributes of the text field in the other order:
`<input type="text" id="field1" name="username">`. -/
def idThenNameForm : Node :=
  element "form" [attr "action" "/session"] [
    element "input" [attr "type" "password"] [],
    element "input" [attr "type" "text", attr "id" "field1", attr "name" "username"] []]

/-- A form without fields whose `class` holds the word `Login`. -/
def hintedForm : Node :=
  element "form" [attr "method" "post", attr "class" "box Login-box"] []

/-- The field test of the specification, first half: the subtree holds an `input`
element with a `type` attribute whose lower-cased value is `password`. -/
def specHasPasswordField {U σ : Type} (env : Env U σ) (form : Node) : Bool :=
  (preorder form).any (fun n =>
    isElement (go "input") n &&
      n.Attr.any (fun a => a.Key = go "type" && env.ToLower a.Val = go "password"))

/-- The field test of the specification, second half: the subtree holds an `input`
element of type `text` or `email` with a `name` attribute or an `id` attribute whose
lower-cased value contains `user`, `email` or `login`. -/
def specHasIdentityField {U σ : Type} (env : Env U σ) (form : Node) : Bool :=
  (preorder form).any (fun n =>
    isElement (go "input") n &&
      n.Attr.any (fun a => a.Key = go "type" &&
        (env.ToLower a.Val = go "text" || env.ToLower a.Val = go "email")) &&
      n.Attr.any (fun a => (a.Key = go "name" || a.Key = go "id") &&
        (Contains (env.ToLower a.Val) (go "user") || Contains (env.ToLower a.Val) (go "email") ||
          Contains (env.ToLower a.Val) (go "login"))))

/-- An `html` element with an `xmlns` attribute. -/
def xhtmlElement : Node :=
  element "html" [attr "xmlns" "http://www.w3.org/1999/xhtml"] []

/-- A document with the doctype `html` before its `html` element. -/
def doctypeDocument : Node :=
  document [.mk NodeType.DoctypeNode (go "html") [] [], xhtmlElement]

/-- A document without a doctype. -/
def plainDocument : Node := document [xhtmlElement]

/-- The results of `extractHTMLVersion` at the `html` elements of the tree, in
pre-order; `parent` is the parent of the root. -/
def htmlVersions {U σ : Type} (env : Env U σ) (parent : Option Node) (tree : Node) :
    List GoString :=
  ((visits parent tree).filter (fun v => isElement (go "html") v.2)).map
    (fun v => extractHTMLVersion env v.1 v.2)

/-- A document without a doctype whose root `html` element has an `xmlns` attribute and
holds, further down, a second element named `html` without attributes. -/
def nestedHtml : Node :=
  document [element "html" [attr "xmlns" "http://www.w3.org/1999/xhtml"] [
    element "body" [] [element "svg" [] [element "html" [] [text "inner"]]]]]

/-- A page with a login form followed by a form that is none. -/
def loginThenSearch : Node :=
  document [element "html" [] [element "body" [] [
    element "div" [] [hintedForm],
    element "form" [attr "action" "/search"] [element "input" [attr "type" "text"] []]]]]

/-- The skip rule of the accessibility probe: the text begins with `mailto:`, `tel:`,
`javascript:` or `#`. -/
def hasSkipPrefix (s : GoString) : Bool :=
  HasPrefix s (go "mailto:") || HasPrefix s (go "tel:") || HasPrefix s (go "javascript:") ||
    HasPrefix s (go "#")

/-- The resolved URL string of an anchor whose `href` is present, not empty and parses;
`none` for every other node. -/
def resolvedLink {U σ : Type} (env : Env U σ) (baseURL : U) (n : Node) : Option GoString :=
  if isParsedAnchor env n then
    ((hrefAttr n).bind env.Parse).map
      (fun linkURL => env.String (env.ResolveReference baseURL linkURL))
  else none

/-- An answer to a HEAD request that makes the link inaccessible: a transport failure, or
a status code of 400 or more. -/
def probeFails (answer : Option Int) : Bool :=
  match answer with
  | none => true
  | some code => decide (code ≥ 400)

/-- What the specification expects at one node in the world `w`: the broken link the
node contributes, if any, and the world after its probe. A node without a resolved link,
or with one that has a skip prefix, contributes nothing and leaves the world alone; any
other link is probed once, and contributes its resolved string when the probe fails. -/
def probeNode {U σ : Type} (env : Env U σ) (baseURL : U) (n : Node) (w : World σ) :
    Option GoString × World σ :=
  match resolvedLink env baseURL n with
  | none => (none, w)
  | some s =>
    if hasSkipPrefix s then (none, w)
    else
      (if probeFails (env.Head w.net s).1 then some s else none,
       { net := (env.Head w.net s).2, heads := w.heads ++ [s] })

/-- The broken links the specification expects of a sequence of nodes visited in this
order, starting in the world `w`. -/
def expectedBroken {U σ : Type} (env : Env U σ) (baseURL : U) :
    List Node → World σ → List GoString
  | [], _ => []
  | n :: rest, w =>
    (probeNode env baseURL n w).1.toList ++
      expectedBroken env baseURL rest (probeNode env baseURL n w).2

/-- The entry `analyzeLink` appends for an inaccessible link. -/
def brokenEntry (s : GoString) : BrokenLink :=
  { ID := 0, ResultID := 0, URL := s, StatusCode := 0, ErrorMessage := go "Link check failed" }

/-- A network whose answers depend on how many requests it has seen: the first HEAD
request fails at transport level, the second is answered 200, every later one 404. -/
def flakyNet : Nat → GoString → Option Int × Nat :=
  fun seen _ =>
    (match seen with
      | 0 => none
      | 1 => some 200
      | _ => some 404, seen + 1)

/-! ## The database and `CrawlURL` -/

/-- The statements the crawler sends with `database.DB.Exec`, each with the arguments
bound to its placeholders: the `DELETE FROM crawl_results`, the `INSERT INTO
crawl_results`, the `INSERT INTO broken_links` and the `UPDATE urls SET status`. -/
inductive Stmt where
  | deleteResults (urlID : Int)
  | insertResult (urlID : Int) (title htmlVersion : GoString) (h1 h2 h3 h4 h5 h6 : Nat)
      (internalLinks externalLinks inaccessibleLinks : Nat) (hasLoginForm : Bool)
  | insertBrokenLink (resultID : Int) (url : GoString) (statusCode : Int)
      (errorMessage : GoString)
  | updateStatus (status : GoString) (urlID : Int)
  deriving DecidableEq

/-- The database as the crawler sees it: the state `db` of the server and `log`, the
statements sent so far, oldest first, each with whether `Exec` returned a nil error. -/
structure Store (δ : Type) where
  db : δ
  log : List (Stmt × Bool)

/-- Everything `CrawlURL` calls into: the library and the link probe of `Env`, and
* `Get`, `client.Get` with a thirty second timeout: `none` is an error, `some (code,
  body)` the final response;
* `ParseHTML`, `html.Parse` on a response body: `none` is an error;
* `Exec`, `database.DB.Exec`: `none` is an error, `some r` a result whose
  `LastInsertId()` is `r`, with `none` for an error of that call. -/
structure Sys (U σ δ B : Type) extends Env U σ where
  Get : σ → GoString → Option (Int × B) × σ
  ParseHTML : B → Option Node
  Exec : δ → Stmt → Option (Option Int) × δ

/-- The three errors `saveResults` returns. -/
inductive SaveError where
  | deleteFailed
  | insertFailed
  | resultIDFailed
  deriving DecidableEq

section Persistence

variable {U σ δ B : Type}

/-- One call of `database.DB.Exec`: the statement is sent and logged. -/
def exec (sys : Sys U σ δ B) (q : Stmt) (s : Store δ) : Option (Option Int) × Store δ :=
  ((sys.Exec s.db q).1,
   { db := (sys.Exec s.db q).2, log := s.log ++ [(q, (sys.Exec s.db q).1.isSome)] })

/-- Go `updateURLStatus`: the error of the update is logged and dropped. -/
def updateURLStatus (sys : Sys U σ δ B) (urlID : Int) (status : GoString) (s : Store δ) :
    Store δ :=
  (exec sys (Stmt.updateStatus status urlID) s).2

/-- The loop of `saveResults` over the broken links (lines 311-322): an insert that
fails is logged and the loop goes on. -/
def insertBrokenLinks (sys : Sys U σ δ B) (resultID : Int) :
    List BrokenLink → Store δ → Store δ
  | [], s => s
  | brokenLink :: rest, s =>
    insertBrokenLinks sys resultID rest
      (exec sys (Stmt.insertBrokenLink resultID brokenLink.URL brokenLink.StatusCode
        brokenLink.ErrorMessage) s).2

/-- The `INSERT INTO crawl_results` statement of `saveResults` with its arguments. -/
def insertResultStmt (urlID : Int) (data : CrawlData) : Stmt :=
  Stmt.insertResult urlID data.Title data.HTMLVersion
    (data.HeadingCounts.read (go "h1")) (data.HeadingCounts.read (go "h2"))
    (data.HeadingCounts.read (go "h3")) (data.HeadingCounts.read (go "h4"))
    (data.HeadingCounts.read (go "h5")) (data.HeadingCounts.read (go "h6"))
    data.InternalLinks data.ExternalLinks data.InaccessibleLinks data.HasLoginForm

/-- Go `saveResults`: `none` is the nil error. -/
def saveResults (sys : Sys U σ δ B) (urlID : Int) (data : CrawlData) (s : Store δ) :
    Option SaveError × Store δ :=
  match exec sys (Stmt.deleteResults urlID) s with
  | (none, s) => (some SaveError.deleteFailed, s)
  | (some _, s) =>
    match exec sys (insertResultStmt urlID data) s with
    | (none, s) => (some SaveError.insertFailed, s)
    | (some none, s) => (some SaveError.resultIDFailed, s)
    | (some (some resultID), s) => (none, insertBrokenLinks sys resultID data.BrokenLinks s)

/-- Go `CrawlURL`. The function returns nothing; its effects are the world and the
database it leaves behind. -/
def CrawlURL (sys : Sys U σ δ B) (urlID : Int) (targetURL : GoString) (w : World σ)
    (s : Store δ) : World σ × Store δ :=
  match sys.Get w.net targetURL with
  | (none, net) => ({ w with net := net }, updateURLStatus sys urlID (go "failed") s)
  | (some (statusCode, body), net) =>
    if statusCode ≠ 200 then
      ({ w with net := net }, updateURLStatus sys urlID (go "failed") s)
    else
      match sys.ParseHTML body with
      | none => ({ w with net := net }, updateURLStatus sys urlID (go "failed") s)
      | some doc =>
        match sys.Parse targetURL with
        | none => ({ w with net := net }, updateURLStatus sys urlID (go "failed") s)
        | some baseURL =>
          match saveResults sys urlID
              (analyzeHTML sys.toEnv baseURL none doc (CrawlData.fresh, { w with net := net })).1
              s with
          | (some _, s') =>
            ((analyzeHTML sys.toEnv baseURL none doc
                (CrawlData.fresh, { w with net := net })).2,
              updateURLStatus sys urlID (go "failed") s')
          | (none, s') =>
            ((analyzeHTML sys.toEnv baseURL none doc
                (CrawlData.fresh, { w with net := net })).2,
              updateURLStatus sys urlID (go "completed") s')

end Persistence

/-- The statements sent since the store `before`: what a run has added to the log. -/
def Store.since {δ : Type} (after before : Store δ) : List (Stmt × Bool) :=
  after.log.drop before.log.length

/-- A log entry that is any statement on the tables `crawl_results` and
`broken_links`. -/
def touchesResults (entry : Stmt × Bool) : Bool :=
  match entry.1 with
  | Stmt.updateStatus _ _ => false
  | _ => true

/-- A log entry that sets the status of the job to `status`. -/
def setsStatus (status : GoString) (urlID : Int) (entry : Stmt × Bool) : Bool :=
  match entry.1 with
  | Stmt.updateStatus st id => decide (st = status ∧ id = urlID)
  | _ => false

/-- A database that answers from a script, one answer a statement, and answers
`some (some 1)` once the script is used up. -/
def scriptedDB : List (Option (Option Int)) → Stmt →
    Option (Option Int) × List (Option (Option Int))
  | [], _ => (some (some 1), [])
  | answer :: rest, _ => (answer, rest)

/-- A system whose GET is answered with the given status code and a body that parses to
the given page, on the dead network for link probes and with a scripted database. -/
def pageSys (statusCode : Int) (page : Node) :
    Sys url.URL Unit (List (Option (Option Int))) Unit :=
  { toEnv := deadEnv
    Get := fun net _ => (some (statusCode, ()), net)
    ParseHTML := fun _ => some page
    Exec := scriptedDB }

mutual
/-- The contents of the text nodes of a tree, first to last in document order; a text
node is a leaf. -/
def textNodes : Node → List GoString
  | .mk t d _ cs => if t = NodeType.TextNode then [d] else textNodesChildren cs
/-- The contents of the text nodes of a list of sibling trees. -/
def textNodesChildren : List Node → List GoString
  | [] => []
  | c :: rest => textNodes c ++ textNodesChildren rest
end

/-- The text content as the specification words it: the untrimmed contents of the
descendant text nodes concatenated in document order, and the whole trimmed. -/
def specTextContent (n : Node) : GoString := TrimSpace (textNodes n).flatten

/-- A `title` with the text node `Hello ` followed by an element that holds `World`. -/
def helloWorldTitle : Node :=
  element "title" [] [text "Hello ", element "b" [] [text "World"]]

/-- A `title` with the two text nodes `0xC2` and `0x85`: neither byte is white space,
together they are the encoding of U+0085. -/
def splitRuneTitle : Node :=
  element "title" [] [.mk NodeType.TextNode [0xC2] [] [], .mk NodeType.TextNode [0x85] [] []]

/-- A string of ASCII bytes. -/
def isASCII (s : GoString) : Prop := ∀ b ∈ s, b < 0x80

/-- A row of the table `crawl_results` that `createTables` declares, without its two
timestamps. -/
structure ResultRow where
  id : Int
  url_id : Int
  title : GoString
  html_version : GoString
  h1_count : Nat
  h2_count : Nat
  h3_count : Nat
  h4_count : Nat
  h5_count : Nat
  h6_count : Nat
  internal_links : Nat
  external_links : Nat
  inaccessible_links : Nat
  has_login_form : Bool
  deriving DecidableEq

/-- A row of the table `broken_links` that `createTables` declares, without its
timestamp. -/
structure BrokenLinkRow where
  id : Int
  result_id : Int
  url : GoString
  status_code : Int
  error_message : GoString
  deriving DecidableEq

/-- The MySQL server behind `database.DB`, as far as the crawler's four statements reach:
the `id` and `status` of the rows of `urls`, the rows of `crawl_results` and of
`broken_links`, the two `AUTO_INCREMENT` counters, and the number of statements received
so far. -/
structure MySQL where
  urls : List (Int × GoString)
  crawl_results : List ResultRow
  broken_links : List BrokenLinkRow
  nextResultID : Int
  nextBrokenLinkID : Int
  received : Nat

/-- What a statement does to the tables when the server carries it out, with the
identifier `LastInsertId()` reports: the `DELETE` removes the rows of the job and, by
`ON DELETE CASCADE`, the broken links of those rows; an `INSERT` appends one row under
the next identifier of its table; the `UPDATE` sets the status of the job. -/
def MySQL.carryOut (db : MySQL) : Stmt → Int × MySQL
  | Stmt.deleteResults urlID =>
    (0, { db with
      crawl_results := db.crawl_results.filter (fun r => decide (r.url_id ≠ urlID))
      broken_links := db.broken_links.filter (fun b =>
        !(db.crawl_results.any (fun r => decide (r.url_id = urlID ∧ r.id = b.result_id)))) })
  | Stmt.insertResult urlID title htmlVersion h1 h2 h3 h4 h5 h6 internalLinks externalLinks
      inaccessibleLinks hasLoginForm =>
    (db.nextResultID, { db with
      crawl_results := db.crawl_results ++ [{
        id := db.nextResultID, url_id := urlID, title := title, html_version := htmlVersion,
        h1_count := h1, h2_count := h2, h3_count := h3, h4_count := h4, h5_count := h5,
        h6_count := h6, internal_links := internalLinks, external_links := externalLinks,
        inaccessible_links := inaccessibleLinks, has_login_form := hasLoginForm }]
      nextResultID := db.nextResultID + 1 })
  | Stmt.insertBrokenLink resultID url statusCode errorMessage =>
    (db.nextBrokenLinkID, { db with
      broken_links := db.broken_links ++ [{
        id := db.nextBrokenLinkID, result_id := resultID, url := url,
        status_code := statusCode, error_message := errorMessage }]
      nextBrokenLinkID := db.nextBrokenLinkID + 1 })
  | Stmt.updateStatus status urlID =>
    (0, { db with
      urls := db.urls.map (fun u => if u.1 = urlID then (u.1, status) else u) })

/-- `database.DB.Exec` on the MySQL server through `github.com/go-sql-driver/mysql`, the
one driver `database.go` opens, without a transaction. `refused` is the pattern of
persistence failures: it tells, from the state of the server and the statement, whether
this `Exec` returns an error (a lost connection, a violated constraint); a statement
that is refused changes no table. A statement that is not refused is carried out, and
the `LastInsertId()` of its result returns the identifier with a nil error, as that
driver's result always does. -/
def mysqlExec (refused : MySQL → Stmt → Bool) (db : MySQL) (q : Stmt) :
    Option (Option Int) × MySQL :=
  if refused db q then (none, { db with received := db.received + 1 })
  else (some (some (db.carryOut q).1),
    { (db.carryOut q).2 with received := db.received + 1 })

/-- The system of `CrawlURL` on the MySQL server. -/
def mysqlSys {U σ B : Type} (env : Env U σ) (Get : σ → GoString → Option (Int × B) × σ)
    (ParseHTML : B → Option Node) (refused : MySQL → Stmt → Bool) : Sys U σ MySQL B :=
  { toEnv := env, Get := Get, ParseHTML := ParseHTML, Exec := mysqlExec refused }

/-- A server that holds job 7 with one earlier result row and one broken link of it,
and job 8 with one result row. -/
def exampleServer : MySQL :=
  { urls := [(7, go "running"), (8, go "completed")]
    crawl_results := [
      { id := 1, url_id := 7, title := go "Old", html_version := go "HTML5", h1_count := 1,
        h2_count := 0, h3_count := 0, h4_count := 0, h5_count := 0, h6_count := 0,
        internal_links := 2, external_links := 0, inaccessible_links := 1,
        has_login_form := false },
      { id := 2, url_id := 8, title := go "Other", html_version := go "XHTML", h1_count := 0,
        h2_count := 0, h3_count := 0, h4_count := 0, h5_count := 0, h6_count := 0,
        internal_links := 0, external_links := 0, inaccessible_links := 0,
        has_login_form := true }]
    broken_links := [
      { id := 1, result_id := 1, url := go "https://example.com/x", status_code := 0,
        error_message := go "Link check failed" }]
    nextResultID := 3
    nextBrokenLinkID := 2
    received := 0 }

/-- The failure pattern that refuses every aggregate insert. -/
def refuseInsert : MySQL → Stmt → Bool
  | _, Stmt.insertResult _ _ _ _ _ _ _ _ _ _ _ _ _ => true
  | _, _ => false

/-- The failure pattern that refuses the statement with the given number, counted from
zero over all statements the server has received. -/
def refuseNth (k : Nat) : MySQL → Stmt → Bool := fun db _ => decide (db.received = k)

/-- The system whose GET is answered 200 with a body that parses to the given page, on
the dead network for link probes and on the MySQL server with a failure pattern. -/
def mysqlPageSys (statusCode : Int) (page : Node) (refused : MySQL → Stmt → Bool) :
    Sys url.URL Unit MySQL Unit :=
  mysqlSys deadEnv (fun net _ => (some (statusCode, ()), net)) (fun _ => some page) refused

/-- A continuation byte of UTF-8, `10xxxxxx`. -/
def continuation (b : UInt8) : Bool := decide (0x80 ≤ b) && decide (b ≤ 0xBF)

/-- The second byte UTF-8 allows after the lead byte `b0` of a sequence of three or four
bytes: any continuation byte, within the narrower range after `E0`, `ED`, `F0` and `F4`
that excludes overlong forms, surrogates and runes above U+10FFFF. -/
def secondByte (b0 b1 : UInt8) : Bool :=
  if b0 = 0xE0 then decide (0xA0 ≤ b1) && decide (b1 ≤ 0xBF)
  else if b0 = 0xED then decide (0x80 ≤ b1) && decide (b1 ≤ 0x9F)
  else if b0 = 0xF0 then decide (0x90 ≤ b1) && decide (b1 ≤ 0xBF)
  else if b0 = 0xF4 then decide (0x80 ≤ b1) && decide (b1 ≤ 0x8F)
  else continuation b1

/-- Go `utf8.Valid`: the bytes are a sequence of well-formed UTF-8 encodings. -/
def utf8Valid : GoString → Bool
  | [] => true
  | b0 :: rest =>
    if b0 < 0x80 then utf8Valid rest
    else if 0xC2 ≤ b0 ∧ b0 ≤ 0xDF then
      match rest with
      | b1 :: rest1 => continuation b1 && utf8Valid rest1
      | [] => false
    else if 0xE0 ≤ b0 ∧ b0 ≤ 0xEF then
      match rest with
      | b1 :: rest1 =>
        secondByte b0 b1 &&
          (match rest1 with
            | b2 :: rest2 => continuation b2 && utf8Valid rest2
            | [] => false)
      | [] => false
    else if 0xF0 ≤ b0 ∧ b0 ≤ 0xF4 then
      match rest with
      | b1 :: rest1 =>
        secondByte b0 b1 &&
          (match rest1 with
            | b2 :: rest2 =>
              continuation b2 &&
                (match rest2 with
                  | b3 :: rest3 => continuation b3 && utf8Valid rest3
                  | [] => false)
            | [] => false)
      | [] => false
    else false

/-- A non-empty string that is the beginning or the end of the encoding of a white-space
rune. -/
def spaceFragment (p : GoString) : Bool :=
  !p.isEmpty && spaceEncodings.any (fun e => p.isPrefixOf e || p.isSuffixOf e)

/-- A string that, unless it is empty, neither begins with one of the encodings nor is
the beginning of one. -/
def apart (encs : List GoString) (x : GoString) : Prop :=
  x = [] ∨ ∀ e ∈ encs, ¬ e <+: x ∧ ¬ x <+: e

/-- A `title` with the text node ` Crème ` followed by an element that holds
` brûlée — 東京 `. -/
def cremeTitle : Node :=
  element "title" [] [text " Crème ", element "b" [] [text " brûlée — 東京 "]]

/-! ## Traversal lemmas -/

section Traversal

variable {U σ : Type}

mutual
theorem visits_map_snd (parent : Option Node) :
    ∀ n : Node, (visits parent n).map Prod.snd = preorder n
  | .mk t d attrs cs => by
    simp only [visits, preorder, List.map_cons]
    rw [visitsChildren_map_snd (some (.mk t d attrs cs)) cs]
theorem visitsChildren_map_snd (parent : Option Node) :
    ∀ cs : List Node, (visitsChildren parent cs).map Prod.snd = preorderChildren cs
  | [] => by simp [visitsChildren, preorderChildren]
  | c :: rest => by
    simp only [visitsChildren, preorderChildren, List.map_append]
    rw [visits_map_snd parent c, visitsChildren_map_snd parent rest]
end

mutual
/-- The traversal is one left fold of `analyzeNode` over the nodes in pre-order. -/
theorem analyzeHTML_eq_foldl (env : Env U σ) (baseURL : U) (parent : Option Node) :
    ∀ (n : Node) (st : CrawlData × World σ),
      analyzeHTML env baseURL parent n st =
        (visits parent n).foldl (fun acc v => analyzeNode env baseURL v.1 v.2 acc) st
  | .mk t d attrs cs, st => by
    simp only [analyzeHTML, visits, List.foldl_cons]
    exact analyzeChildren_eq_foldl env baseURL (some (.mk t d attrs cs)) cs _
theorem analyzeChildren_eq_foldl (env : Env U σ) (baseURL : U) (parent : Option Node) :
    ∀ (cs : List Node) (st : CrawlData × World σ),
      analyzeChildren env baseURL parent cs st =
        (visitsChildren parent cs).foldl (fun acc v => analyzeNode env baseURL v.1 v.2 acc) st
  | [], st => by simp [analyzeChildren, visitsChildren]
  | c :: rest, st => by
    simp only [analyzeChildren, visitsChildren, List.foldl_append]
    rw [analyzeHTML_eq_foldl env baseURL parent c st]
    exact analyzeChildren_eq_foldl env baseURL parent rest _
end

/-- A quantity that every step raises by one on the marked items and leaves alone on
the others ends up raised by the number of marked items. -/
theorem foldl_counts {α S : Type} (step : S → α → S) (m : S → Nat) (p : α → Bool)
    (h : ∀ s a, m (step s a) = m s + if p a then 1 else 0) :
    ∀ (l : List α) (s : S), m (l.foldl step s) = m s + (l.filter p).length
  | [], s => by simp
  | a :: l, s => by
    rw [List.foldl_cons, foldl_counts step m p h l, h]
    by_cases hp : p a = true
    · simp [hp]; omega
    · simp [hp]

/-- A property that every step preserves holds at the end of a fold. -/
theorem foldl_preserves {α S : Type} (step : S → α → S) (P : S → Prop)
    (h : ∀ s a, P s → P (step s a)) :
    ∀ (l : List α) (s : S), P s → P (l.foldl step s)
  | [], _, hs => hs
  | a :: l, s, hs => foldl_preserves step P h l (step s a) (h s a hs)

end Traversal

/-! ## Links -/

section Links
variable {U σ : Type}

theorem hrefOf_eq_getD (attrs : List Attribute) :
    hrefOf attrs = ((attrs.find? (fun attr => attr.Key = go "href")).map (fun attr => attr.Val)).getD [] := by
  induction attrs with
  | nil => rfl
  | cons a rest ih =>
    by_cases h : a.Key = go "href"
    · simp [hrefOf, List.find?, h]
    · simp [hrefOf, List.find?, h, ih]

/-- The node test of the specification, in terms of the string the code reads. -/
theorem isParsedAnchor_iff (env : Env U σ) (n : Node) :
    isParsedAnchor env n = true ↔
      (n.Typ = NodeType.ElementNode ∧ n.Data = go "a") ∧
        hrefOf n.Attr ≠ [] ∧ (env.Parse (hrefOf n.Attr)).isSome = true := by
  unfold isParsedAnchor isElement hrefAttr
  rw [hrefOf_eq_getD]
  cases h : (n.Attr.find? (fun attr => attr.Key = go "href")) with
  | none => simp
  | some a => simp

theorem isAccessibleLink_cases (env : Env U σ) (s : GoString) (w : World σ) :
    isAccessibleLink env s w = (true, w) ∨
      ∃ b, isAccessibleLink env s w = (b, { net := (env.Head w.net s).2, heads := w.heads ++ [s] }) := by
  unfold isAccessibleLink
  split
  · exact Or.inl rfl
  · right
    rcases h : env.Head w.net s with ⟨_ | code, net⟩
    · exact ⟨false, by simp [h]⟩
    · exact ⟨decide (code < 400), by simp [h]⟩

theorem analyzeLink_dropped (env : Env U σ) (n : Node) (data : CrawlData) (baseURL : U)
    (w : World σ) (h : hrefOf n.Attr = [] ∨ env.Parse (hrefOf n.Attr) = none) :
    analyzeLink env n data baseURL w = (data, w) := by
  unfold analyzeLink
  rcases h with h | h
  · simp [h]
  · by_cases h0 : hrefOf n.Attr = []
    · simp [h0]
    · simp [h0, h]

theorem analyzeLink_parsed (env : Env U σ) (n : Node) (data : CrawlData) (baseURL : U)
    (w : World σ) (linkURL : U) (h0 : hrefOf n.Attr ≠ [])
    (h : env.Parse (hrefOf n.Attr) = some linkURL) :
    analyzeLink env n data baseURL w =
      match isAccessibleLink env (env.String (env.ResolveReference baseURL linkURL)) w with
      | (true, w) => (classified env baseURL linkURL data, w)
      | (false, w) =>
        ({ classified env baseURL linkURL data with
            InaccessibleLinks := (classified env baseURL linkURL data).InaccessibleLinks + 1
            BrokenLinks := (classified env baseURL linkURL data).BrokenLinks ++
              [{ ID := 0, ResultID := 0, URL := env.String (env.ResolveReference baseURL linkURL),
                 StatusCode := 0, ErrorMessage := go "Link check failed" }] }, w) := by
  unfold analyzeLink classified
  simp only [h0, if_false, h]

end Links

section Links2
variable {U σ : Type}

theorem classified_linkTotal (env : Env U σ) (baseURL linkURL : U) (data : CrawlData) :
    (classified env baseURL linkURL data).linkTotal = data.linkTotal + 1 := by
  unfold classified CrawlData.linkTotal
  split <;> simp <;> omega

theorem analyzeLink_linkTotal (env : Env U σ) (n : Node) (data : CrawlData) (baseURL : U)
    (w : World σ) :
    (analyzeLink env n data baseURL w).1.linkTotal =
      data.linkTotal +
        if hrefOf n.Attr ≠ [] ∧ (env.Parse (hrefOf n.Attr)).isSome = true then 1 else 0 := by
  by_cases h0 : hrefOf n.Attr = []
  · rw [analyzeLink_dropped env n data baseURL w (Or.inl h0)]; simp [h0]
  · cases h : env.Parse (hrefOf n.Attr) with
    | none => rw [analyzeLink_dropped env n data baseURL w (Or.inr h)]; simp
    | some linkURL =>
      rw [analyzeLink_parsed env n data baseURL w linkURL h0 h]
      have hc := classified_linkTotal env baseURL linkURL data
      rcases isAccessibleLink env (env.String (env.ResolveReference baseURL linkURL)) w with
        ⟨_ | _, w1⟩
      · simp [h0, CrawlData.linkTotal] at hc ⊢; exact hc
      · simp [h0, CrawlData.linkTotal] at hc ⊢; exact hc

/-- What `analyzeNode` does at a node that is not an `a` element leaves the two link
counters, the broken links and the world alone. -/
theorem analyzeNode_not_anchor (env : Env U σ) (baseURL : U) (parent : Option Node) (n : Node)
    (st : CrawlData × World σ) (h : ¬ (n.Typ = NodeType.ElementNode ∧ n.Data = go "a")) :
    (analyzeNode env baseURL parent n st).1.InternalLinks = st.1.InternalLinks ∧
    (analyzeNode env baseURL parent n st).1.ExternalLinks = st.1.ExternalLinks ∧
    (analyzeNode env baseURL parent n st).1.InaccessibleLinks = st.1.InaccessibleLinks ∧
    (analyzeNode env baseURL parent n st).1.BrokenLinks = st.1.BrokenLinks ∧
    (analyzeNode env baseURL parent n st).2 = st.2 := by
  unfold analyzeNode
  dsimp only
  split_ifs <;> simp_all

/-- At an `a` element `analyzeNode` is `analyzeLink`. -/
theorem analyzeNode_anchor (env : Env U σ) (baseURL : U) (parent : Option Node) (n : Node)
    (st : CrawlData × World σ) (h : n.Typ = NodeType.ElementNode ∧ n.Data = go "a") :
    analyzeNode env baseURL parent n st = analyzeLink env n st.1 baseURL st.2 := by
  unfold analyzeNode
  have h1 : go "a" ≠ go "html" := by decide
  have h2 : go "a" ≠ go "title" := by decide
  have h3 : ¬ (go "a" = go "h1" ∨ go "a" = go "h2" ∨ go "a" = go "h3" ∨ go "a" = go "h4" ∨
      go "a" = go "h5" ∨ go "a" = go "h6") := by decide
  simp [h.1, h.2, h1, h2, h3]

theorem analyzeNode_linkTotal (env : Env U σ) (baseURL : U) (parent : Option Node) (n : Node)
    (st : CrawlData × World σ) :
    (analyzeNode env baseURL parent n st).1.linkTotal =
      st.1.linkTotal + if isParsedAnchor env n = true then 1 else 0 := by
  by_cases h : n.Typ = NodeType.ElementNode ∧ n.Data = go "a"
  · rw [analyzeNode_anchor env baseURL parent n st h, analyzeLink_linkTotal]
    simp only [isParsedAnchor_iff, h, true_and]
  · have hn := analyzeNode_not_anchor env baseURL parent n st h
    have hp : ¬ (isParsedAnchor env n = true) := by
      rw [isParsedAnchor_iff]; exact fun hh => h hh.1
    simp [CrawlData.linkTotal, hn.1, hn.2.1, hp]


/-- One call of `analyzeLink` either leaves the counter of inaccessible links and the
list of broken links alone, or raises the counter by one and appends one entry. -/
theorem analyzeLink_broken_step (env : Env U σ) (n : Node) (data : CrawlData) (baseURL : U)
    (w : World σ) :
    ((analyzeLink env n data baseURL w).1.InaccessibleLinks = data.InaccessibleLinks ∧
        (analyzeLink env n data baseURL w).1.BrokenLinks = data.BrokenLinks) ∨
      ((analyzeLink env n data baseURL w).1.InaccessibleLinks = data.InaccessibleLinks + 1 ∧
        ∃ b, (analyzeLink env n data baseURL w).1.BrokenLinks = data.BrokenLinks ++ [b]) := by
  by_cases h0 : hrefOf n.Attr = []
  · rw [analyzeLink_dropped env n data baseURL w (Or.inl h0)]; exact Or.inl ⟨rfl, rfl⟩
  · cases h : env.Parse (hrefOf n.Attr) with
    | none => rw [analyzeLink_dropped env n data baseURL w (Or.inr h)]; exact Or.inl ⟨rfl, rfl⟩
    | some linkURL =>
      rw [analyzeLink_parsed env n data baseURL w linkURL h0 h]
      have hc : (classified env baseURL linkURL data).InaccessibleLinks = data.InaccessibleLinks ∧
          (classified env baseURL linkURL data).BrokenLinks = data.BrokenLinks := by
        unfold classified; split <;> exact ⟨rfl, rfl⟩
      rcases isAccessibleLink env (env.String (env.ResolveReference baseURL linkURL)) w with
        ⟨_ | _, w1⟩
      · right
        exact ⟨by simp [hc.1],
          ⟨{ ID := 0, ResultID := 0, URL := env.String (env.ResolveReference baseURL linkURL),
             StatusCode := 0, ErrorMessage := go "Link check failed" }, by simp [hc.2]⟩⟩
      · left
        exact hc

theorem analyzeLink_lockstep (env : Env U σ) (n : Node) (data : CrawlData) (baseURL : U)
    (w : World σ) (h : data.lockstep) : (analyzeLink env n data baseURL w).1.lockstep := by
  unfold CrawlData.lockstep at h ⊢
  rcases analyzeLink_broken_step env n data baseURL w with ⟨h1, h2⟩ | ⟨h1, b, h2⟩
  · rw [h1, h2, h]
  · rw [h1, h2, h]; simp

theorem analyzeNode_lockstep (env : Env U σ) (baseURL : U) (parent : Option Node) (n : Node)
    (st : CrawlData × World σ) (h : st.1.lockstep) :
    (analyzeNode env baseURL parent n st).1.lockstep := by
  by_cases ha : n.Typ = NodeType.ElementNode ∧ n.Data = go "a"
  · rw [analyzeNode_anchor env baseURL parent n st ha]
    exact analyzeLink_lockstep env n st.1 baseURL st.2 h
  · have hn := analyzeNode_not_anchor env baseURL parent n st ha
    unfold CrawlData.lockstep at h ⊢
    rw [hn.2.2.1, hn.2.2.2.1, h]

theorem analyzeHTML_lockstep (env : Env U σ) (baseURL : U) (parent : Option Node) (tree : Node)
    (st : CrawlData × World σ) (h : st.1.lockstep) :
    (analyzeHTML env baseURL parent tree st).1.lockstep := by
  rw [analyzeHTML_eq_foldl]
  exact foldl_preserves
    (fun (acc : CrawlData × World σ) (v : Option Node × Node) =>
      analyzeNode env baseURL v.1 v.2 acc)
    (fun s => s.1.lockstep) (fun s v hs => analyzeNode_lockstep env baseURL v.1 v.2 s hs) _ st h

theorem analyzeHTML_linkTotal (env : Env U σ) (baseURL : U) (parent : Option Node) (tree : Node)
    (st : CrawlData × World σ) :
    (analyzeHTML env baseURL parent tree st).1.linkTotal =
      st.1.linkTotal + parsedAnchorCount env tree := by
  rw [analyzeHTML_eq_foldl,
    foldl_counts
      (fun (acc : CrawlData × World σ) (v : Option Node × Node) =>
        analyzeNode env baseURL v.1 v.2 acc)
      (fun s => s.1.linkTotal) (fun v => isParsedAnchor env v.2)
      (fun s v => analyzeNode_linkTotal env baseURL v.1 v.2 s)]
  unfold parsedAnchorCount
  rw [← visits_map_snd parent tree, List.filter_map, List.length_map]
  rfl

end Links2

/-! ## Claims about the link counters -/

set_option maxRecDepth 100000 in
/-- The base URL of the examples is what `url.Parse` makes of `https://example.com/a/`. -/
theorem exampleBase_parsed : url.Parse (go "https://example.com/a/") = some exampleBase := by
  decide

/-- C1: after `analyzeHTML` on a fresh `CrawlData`, `InternalLinks + ExternalLinks` is
the number of `a` elements of the tree, at any depth and every occurrence counted, whose
`href` attribute is present, not empty and parses as a URL reference; an anchor whose
`href` is missing, empty or does not parse changes neither counter. -/
theorem c1_link_counts_parsed_anchors {U σ : Type} (env : Env U σ) (baseURL : U)
    (parent : Option Node) (tree : Node) (w : World σ) :
    (analyzeHTML env baseURL parent tree (CrawlData.fresh, w)).1.InternalLinks +
        (analyzeHTML env baseURL parent tree (CrawlData.fresh, w)).1.ExternalLinks =
      parsedAnchorCount env tree ∧
    ∀ (n : Node) (data : CrawlData) (w' : World σ),
      (hrefAttr n = none ∨ hrefAttr n = some [] ∨
        ∃ href, hrefAttr n = some href ∧ env.Parse href = none) →
      (analyzeLink env n data baseURL w').1.InternalLinks = data.InternalLinks ∧
      (analyzeLink env n data baseURL w').1.ExternalLinks = data.ExternalLinks := by
  constructor
  · have h := analyzeHTML_linkTotal env baseURL parent tree (CrawlData.fresh, w)
    simpa [CrawlData.linkTotal, CrawlData.fresh] using h
  · intro n data w' h
    have hd : hrefOf n.Attr = [] ∨ env.Parse (hrefOf n.Attr) = none := by
      rw [hrefOf_eq_getD]
      unfold hrefAttr at h
      rcases h with h | h | ⟨href, h, hp⟩
      · left; rw [h]; rfl
      · left; rw [h]; rfl
      · right; rw [h]; exact hp
    rw [analyzeLink_dropped env n data baseURL w' hd]
    exact ⟨rfl, rfl⟩

set_option maxRecDepth 100000 in
/-- C1 at `linkPage`: six anchors, three of them counted; and the anchor with the
unparseable `href="%zz"` counted nowhere. -/
theorem c1_link_counts_witness :
    ((analyzeHTML deadEnv exampleBase none linkPage (CrawlData.fresh, World.start)).1.InternalLinks +
        (analyzeHTML deadEnv exampleBase none linkPage (CrawlData.fresh, World.start)).1.ExternalLinks
      = 3) ∧
    ((analyzeLink deadEnv (element "a" [attr "href" "%zz"] []) CrawlData.fresh exampleBase
        World.start).1.InternalLinks = 0 ∧
      (analyzeLink deadEnv (element "a" [attr "href" "%zz"] []) CrawlData.fresh exampleBase
        World.start).1.ExternalLinks = 0) :=
  ⟨(c1_link_counts_parsed_anchors deadEnv exampleBase none linkPage World.start).1.trans
      (by decide),
   (c1_link_counts_parsed_anchors deadEnv exampleBase none linkPage World.start).2
      (element "a" [attr "href" "%zz"] []) CrawlData.fresh World.start
      (Or.inr (Or.inr ⟨go "%zz", by decide, by decide⟩))⟩

/-- C2: whatever the link probe answers, the result of `analyzeHTML` on a fresh
`CrawlData` has `InaccessibleLinks == len(BrokenLinks)`; `analyzeHTML` and `analyzeLink`
keep the equality on every `CrawlData` that has it; and one call of `analyzeLink` raises
the counter by one exactly when it appends one entry. -/
theorem c2_inaccessible_equals_broken {U σ : Type} (env : Env U σ) (baseURL : U)
    (parent : Option Node) (tree : Node) (w : World σ) :
    (analyzeHTML env baseURL parent tree (CrawlData.fresh, w)).1.InaccessibleLinks =
      (analyzeHTML env baseURL parent tree (CrawlData.fresh, w)).1.BrokenLinks.length ∧
    (∀ (data : CrawlData) (w' : World σ),
      data.InaccessibleLinks = data.BrokenLinks.length →
      (analyzeHTML env baseURL parent tree (data, w')).1.InaccessibleLinks =
        (analyzeHTML env baseURL parent tree (data, w')).1.BrokenLinks.length) ∧
    (∀ (n : Node) (data : CrawlData) (w' : World σ),
      data.InaccessibleLinks = data.BrokenLinks.length →
      (analyzeLink env n data baseURL w').1.InaccessibleLinks =
        (analyzeLink env n data baseURL w').1.BrokenLinks.length) ∧
    (∀ (n : Node) (data : CrawlData) (w' : World σ),
      ((analyzeLink env n data baseURL w').1.InaccessibleLinks = data.InaccessibleLinks ∧
        (analyzeLink env n data baseURL w').1.BrokenLinks = data.BrokenLinks) ∨
      ((analyzeLink env n data baseURL w').1.InaccessibleLinks = data.InaccessibleLinks + 1 ∧
        ∃ b, (analyzeLink env n data baseURL w').1.BrokenLinks = data.BrokenLinks ++ [b])) :=
  ⟨analyzeHTML_lockstep env baseURL parent tree (CrawlData.fresh, w) rfl,
   fun data w' h => analyzeHTML_lockstep env baseURL parent tree (data, w') h,
   fun n data w' h => analyzeLink_lockstep env n data baseURL w' h,
   fun n data w' => analyzeLink_broken_step env n data baseURL w'⟩

set_option maxRecDepth 100000 in
/-- C2 at `linkPage` on the dead network: three probes fail, the counter is three and the
list has three entries; and the equality is kept from a record that starts with one
broken link. -/
theorem c2_inaccessible_equals_broken_witness :
    ((analyzeHTML deadEnv exampleBase none linkPage (CrawlData.fresh, World.start)).1.InaccessibleLinks
      = 3) ∧
    ((analyzeHTML deadEnv exampleBase none linkPage (CrawlData.fresh, World.start)).1.BrokenLinks.length
      = 3) ∧
    ((analyzeHTML deadEnv exampleBase none linkPage
        ({ CrawlData.fresh with
            InaccessibleLinks := 1
            BrokenLinks := [{ ID := 0, ResultID := 0, URL := go "https://example.com/old",
                              StatusCode := 0, ErrorMessage := go "Link check failed" }] },
          World.start)).1.InaccessibleLinks =
      (analyzeHTML deadEnv exampleBase none linkPage
        ({ CrawlData.fresh with
            InaccessibleLinks := 1
            BrokenLinks := [{ ID := 0, ResultID := 0, URL := go "https://example.com/old",
                              StatusCode := 0, ErrorMessage := go "Link check failed" }] },
          World.start)).1.BrokenLinks.length) :=
  ⟨by decide,
   (c2_inaccessible_equals_broken deadEnv exampleBase none linkPage World.start).1.symm.trans
     (by decide),
   (c2_inaccessible_equals_broken deadEnv exampleBase none linkPage World.start).2.1 _ _ rfl⟩

/-! ## Claims about the title and the headings -/

section Title

variable {U σ : Type}

/-- A component that every step either overwrites with a value read off the item or
leaves alone ends up as the value of the last item that has one. -/
theorem foldl_last {α S T : Type} (step : S → α → S) (m : S → T) (g : α → Option T)
    (h : ∀ s a, m (step s a) = (g a).getD (m s)) :
    ∀ (l : List α) (s : S), m (l.foldl step s) = ((l.filterMap g).getLast?).getD (m s)
  | [], s => by simp
  | a :: l, s => by
    rw [List.foldl_cons, foldl_last step m g h l, h]
    cases hg : g a with
    | none => simp [List.filterMap_cons, hg]
    | some t =>
      simp only [List.filterMap_cons, hg, Option.getD_some]
      cases hl : (l.filterMap g).getLast? with
      | none =>
        have : l.filterMap g = [] := List.getLast?_eq_none_iff.mp hl
        simp [this]
      | some t' =>
        have : (t :: l.filterMap g).getLast? = some t' := by
          cases hl' : l.filterMap g with
          | nil => simp [hl'] at hl
          | cons b bs => rw [List.getLast?_cons_cons, ← hl']; exact hl
        simp [this]

/-- The text a node offers as the title: its text content, when it is a `title` element
and the text is not empty. -/
theorem titleTexts_eq_filterMap (tree : Node) :
    titleTexts tree =
      (preorder tree).filterMap (fun n =>
        if isElement (go "title") n = true ∧ extractTextContent n ≠ [] then
          some (extractTextContent n) else none) := by
  unfold titleTexts
  induction preorder tree with
  | nil => rfl
  | cons n l ih =>
    simp only [ne_eq, decide_not] at ih ⊢
    by_cases h1 : isElement (go "title") n = true
    · by_cases h2 : extractTextContent n = []
      · simp [List.filter_cons, List.filterMap_cons, h1, h2, ih]
      · simp [List.filter_cons, List.filterMap_cons, h1, h2, ih]
    · simp [List.filter_cons, List.filterMap_cons, h1, ih]

/-- The fields that `analyzeLink` never writes. -/
theorem analyzeLink_frame (env : Env U σ) (n : Node) (data : CrawlData) (baseURL : U)
    (w : World σ) :
    (analyzeLink env n data baseURL w).1.Title = data.Title ∧
    (analyzeLink env n data baseURL w).1.HTMLVersion = data.HTMLVersion ∧
    (analyzeLink env n data baseURL w).1.HeadingCounts = data.HeadingCounts ∧
    (analyzeLink env n data baseURL w).1.HasLoginForm = data.HasLoginForm := by
  by_cases h0 : hrefOf n.Attr = []
  · rw [analyzeLink_dropped env n data baseURL w (Or.inl h0)]; simp
  · cases h : env.Parse (hrefOf n.Attr) with
    | none => rw [analyzeLink_dropped env n data baseURL w (Or.inr h)]; simp
    | some linkURL =>
      rw [analyzeLink_parsed env n data baseURL w linkURL h0 h]
      have hc : (classified env baseURL linkURL data).Title = data.Title ∧
          (classified env baseURL linkURL data).HTMLVersion = data.HTMLVersion ∧
          (classified env baseURL linkURL data).HeadingCounts = data.HeadingCounts ∧
          (classified env baseURL linkURL data).HasLoginForm = data.HasLoginForm := by
        unfold classified; split <;> exact ⟨rfl, rfl, rfl, rfl⟩
      rcases isAccessibleLink env (env.String (env.ResolveReference baseURL linkURL)) w
        with ⟨_ | _, w1⟩
      · exact hc
      · exact hc

theorem analyzeNode_title (env : Env U σ) (baseURL : U) (parent : Option Node) (n : Node)
    (st : CrawlData × World σ) :
    (analyzeNode env baseURL parent n st).1.Title =
      (if isElement (go "title") n = true ∧ extractTextContent n ≠ [] then
          some (extractTextContent n) else none).getD st.1.Title := by
  by_cases ha : n.Typ = NodeType.ElementNode ∧ n.Data = go "a"
  · have h1 : go "a" ≠ go "title" := by decide
    rw [analyzeNode_anchor env baseURL parent n st ha,
      (analyzeLink_frame env n st.1 baseURL st.2).1]
    simp [isElement, ha.2, h1]
  · unfold analyzeNode isElement
    have h1 : go "html" ≠ go "title" := by decide
    dsimp only
    split_ifs <;> simp_all

theorem analyzeHTML_title (env : Env U σ) (baseURL : U) (parent : Option Node) (tree : Node)
    (st : CrawlData × World σ) :
    (analyzeHTML env baseURL parent tree st).1.Title =
      ((titleTexts tree).getLast?).getD st.1.Title := by
  rw [analyzeHTML_eq_foldl,
    foldl_last
      (fun (acc : CrawlData × World σ) (v : Option Node × Node) =>
        analyzeNode env baseURL v.1 v.2 acc)
      (fun s => s.1.Title)
      (fun v => if isElement (go "title") v.2 = true ∧ extractTextContent v.2 ≠ [] then
          some (extractTextContent v.2) else none)
      (fun s v => analyzeNode_title env baseURL v.1 v.2 s),
    titleTexts_eq_filterMap, ← visits_map_snd parent tree, List.filterMap_map]
  rfl

end Title

/-- C3, as stated, fails on `twoTitles`: the first `title` with text is `First`, the
title that `analyzeHTML` leaves in the record is `Second`. -/
theorem c3_first_title_counterexample :
    ((titleTexts twoTitles).head?).getD [] = go "First" ∧
    (analyzeHTML deadEnv exampleBase none twoTitles (CrawlData.fresh, World.start)).1.Title
      = go "Second" ∧
    (analyzeHTML deadEnv exampleBase none twoTitles (CrawlData.fresh, World.start)).1.Title
      ≠ ((titleTexts twoTitles).head?).getD [] := by
  decide

/-- C3, amended: the `Title` that `analyzeHTML` produces on a fresh `CrawlData` is the
text content of the last `title` element in depth-first pre-order whose text content is
not empty, and the empty string when there is none; `<title> </title><title>Real</title>`
gives `Real`. -/
theorem c3_last_title_wins {U σ : Type} (env : Env U σ) (baseURL : U) (parent : Option Node)
    (tree : Node) (w : World σ) :
    (analyzeHTML env baseURL parent tree (CrawlData.fresh, w)).1.Title =
      ((titleTexts tree).getLast?).getD [] ∧
    (analyzeHTML env baseURL parent blankThenReal (CrawlData.fresh, w)).1.Title = go "Real" := by
  refine ⟨analyzeHTML_title env baseURL parent tree (CrawlData.fresh, w), ?_⟩
  rw [analyzeHTML_title env baseURL parent blankThenReal (CrawlData.fresh, w)]
  have h : titleTexts blankThenReal = [go "Real"] := by decide
  rw [h]
  rfl

section Headings

variable {U σ : Type}

/-- A node at which the heading case of the switch is taken. -/
theorem analyzeNode_headings (env : Env U σ) (baseURL : U) (parent : Option Node) (n : Node)
    (st : CrawlData × World σ) :
    (analyzeNode env baseURL parent n st).1.HeadingCounts =
      if n.Typ = NodeType.ElementNode ∧ n.Data ∈ headingTags then
        st.1.HeadingCounts.incr n.Data else st.1.HeadingCounts := by
  by_cases ha : n.Typ = NodeType.ElementNode ∧ n.Data = go "a"
  · have h1 : go "a" ∉ headingTags := by decide
    rw [analyzeNode_anchor env baseURL parent n st ha,
      (analyzeLink_frame env n st.1 baseURL st.2).2.2.1]
    simp [ha.2, h1]
  · unfold analyzeNode
    have h1 : go "html" ∉ headingTags := by decide
    have h2 : go "title" ∉ headingTags := by decide
    have h3 : go "form" ∉ headingTags := by decide
    have h4 : ∀ d : GoString, d ∈ headingTags ↔
        (d = go "h1" ∨ d = go "h2" ∨ d = go "h3" ∨ d = go "h4" ∨ d = go "h5" ∨ d = go "h6") := by
      intro d; simp [headingTags]
    dsimp only
    split_ifs <;> simp_all

theorem foldl_headings (env : Env U σ) (baseURL : U) (key : GoString) :
    ∀ (l : List (Option Node × Node)) (st : CrawlData × World σ),
      (l.foldl (fun (acc : CrawlData × World σ) (v : Option Node × Node) =>
          analyzeNode env baseURL v.1 v.2 acc) st).1.HeadingCounts key =
        if key ∈ headingTags ∧ 0 < (l.filter (fun v => isElement key v.2)).length then
          some (st.1.HeadingCounts.read key + (l.filter (fun v => isElement key v.2)).length)
        else st.1.HeadingCounts key
  | [], st => by simp
  | v :: l, st => by
    rw [List.foldl_cons, foldl_headings env baseURL key l]
    have hn := analyzeNode_headings env baseURL v.1 v.2 st
    by_cases hk : key ∈ headingTags
    · by_cases he : isElement key v.2 = true
      · have he' : v.2.Typ = NodeType.ElementNode ∧ v.2.Data = key := by
          simpa [isElement] using he
        have hh : v.2.Typ = NodeType.ElementNode ∧ v.2.Data ∈ headingTags := ⟨he'.1, he'.2 ▸ hk⟩
        rw [hn, if_pos hh]
        simp only [hk, true_and, List.filter_cons, he, if_true, List.length_cons]
        simp only [HeadingMap.incr, HeadingMap.read, he'.2, if_true, Option.getD_some]
        split
        · rename_i h; simp; omega
        · rename_i h
          simp only [Nat.not_lt, Nat.le_zero_eq] at h
          rw [h]
          simp
      · have hkey : (analyzeNode env baseURL v.1 v.2 st).1.HeadingCounts key =
            st.1.HeadingCounts key := by
          rw [hn]
          split
          · rename_i hh
            have : key ≠ v.2.Data := by
              intro h; apply he; simp [isElement, hh.1, h]
            simp [HeadingMap.incr, this]
          · rfl
        simp only [List.filter_cons, he, HeadingMap.read, hkey]
        simp
    · have hkey : (analyzeNode env baseURL v.1 v.2 st).1.HeadingCounts key =
          st.1.HeadingCounts key := by
        rw [hn]
        split
        · rename_i hh
          have : key ≠ v.2.Data := fun h => hk (h ▸ hh.2)
          simp [HeadingMap.incr, this]
        · rfl
      simp [hk, hkey]

theorem analyzeHTML_headings (env : Env U σ) (baseURL : U) (parent : Option Node) (tree : Node)
    (st : CrawlData × World σ) (key : GoString) :
    (analyzeHTML env baseURL parent tree st).1.HeadingCounts key =
      if key ∈ headingTags ∧ 0 < elementCount key tree then
        some (st.1.HeadingCounts.read key + elementCount key tree)
      else st.1.HeadingCounts key := by
  have hc : elementCount key tree =
      ((visits parent tree).filter (fun v => isElement key v.2)).length := by
    unfold elementCount
    rw [← visits_map_snd parent tree, List.filter_map, List.length_map]
    rfl
  rw [analyzeHTML_eq_foldl, foldl_headings, hc]

end Headings

/-- C4: after `analyzeHTML` on a fresh `CrawlData` the map `HeadingCounts` holds, under
each of the keys `h1` .. `h6` that names an element of the tree, the number of element
nodes with that name, at any depth, and holds no other key; so reading `HeadingCounts[hk]`
gives the number of `hk` elements, zero when there are none. -/
theorem c4_heading_counts {U σ : Type} (env : Env U σ) (baseURL : U) (parent : Option Node)
    (tree : Node) (w : World σ) (key : GoString) :
    (analyzeHTML env baseURL parent tree (CrawlData.fresh, w)).1.HeadingCounts key =
      (if key ∈ headingTags ∧ 0 < elementCount key tree then some (elementCount key tree)
        else none) ∧
    (analyzeHTML env baseURL parent tree (CrawlData.fresh, w)).1.HeadingCounts.read key =
      (if key ∈ headingTags then elementCount key tree else 0) := by
  have h := analyzeHTML_headings env baseURL parent tree (CrawlData.fresh, w) key
  have h' : (analyzeHTML env baseURL parent tree (CrawlData.fresh, w)).1.HeadingCounts key =
      (if key ∈ headingTags ∧ 0 < elementCount key tree then some (elementCount key tree)
        else none) := by
    rw [h]; simp [CrawlData.fresh, HeadingMap.read]
  refine ⟨h', ?_⟩
  unfold HeadingMap.read
  rw [h']
  by_cases hk : key ∈ headingTags
  · by_cases hc : 0 < elementCount key tree
    · simp [hk, hc]
    · simp [hk, hc]; omega
  · simp [hk]

set_option maxRecDepth 100000 in
/-- C4 at `headingPage`: one `h1` and three `h2`, nested in an anchor, a form and one
another, give `h1 = 1`, `h2 = 3`, zero for `h3` .. `h6`, and no entry for `p`. -/
theorem c4_heading_counts_witness :
    ((analyzeHTML deadEnv exampleBase none headingPage
        (CrawlData.fresh, World.start)).1.HeadingCounts.read (go "h1") = 1) ∧
    ((analyzeHTML deadEnv exampleBase none headingPage
        (CrawlData.fresh, World.start)).1.HeadingCounts.read (go "h2") = 3) ∧
    ((analyzeHTML deadEnv exampleBase none headingPage
        (CrawlData.fresh, World.start)).1.HeadingCounts.read (go "h3") = 0) ∧
    ((analyzeHTML deadEnv exampleBase none headingPage
        (CrawlData.fresh, World.start)).1.HeadingCounts (go "p") = none) :=
  ⟨(c4_heading_counts deadEnv exampleBase none headingPage World.start (go "h1")).2.trans
      (by decide),
   (c4_heading_counts deadEnv exampleBase none headingPage World.start (go "h2")).2.trans
      (by decide),
   (c4_heading_counts deadEnv exampleBase none headingPage World.start (go "h3")).2.trans
      (by decide),
   (c4_heading_counts deadEnv exampleBase none headingPage World.start (go "p")).1.trans
      (by decide)⟩

/-! ## Claims about the classification and the probe of one link -/

/-- C5: for an anchor whose `href` is present, not empty and parses, `analyzeLink`
raises exactly one of `InternalLinks` and `ExternalLinks`, by exactly one:
`InternalLinks` when the host of the `href` resolved against the base URL is the same
byte string as the host of the base URL, `ExternalLinks` otherwise. -/
theorem c5_link_classification {U σ : Type} (env : Env U σ) (n : Node) (data : CrawlData)
    (baseURL : U) (w : World σ) (href : GoString) (linkURL : U)
    (hattr : hrefAttr n = some href) (hne : href ≠ [])
    (hparse : env.Parse href = some linkURL) :
    (env.Host (env.ResolveReference baseURL linkURL) = env.Host baseURL →
      (analyzeLink env n data baseURL w).1.InternalLinks = data.InternalLinks + 1 ∧
      (analyzeLink env n data baseURL w).1.ExternalLinks = data.ExternalLinks) ∧
    (env.Host (env.ResolveReference baseURL linkURL) ≠ env.Host baseURL →
      (analyzeLink env n data baseURL w).1.InternalLinks = data.InternalLinks ∧
      (analyzeLink env n data baseURL w).1.ExternalLinks = data.ExternalLinks + 1) := by
  have hh : hrefOf n.Attr = href := by
    rw [hrefOf_eq_getD]; unfold hrefAttr at hattr; rw [hattr]; rfl
  have h0 : hrefOf n.Attr ≠ [] := hh ▸ hne
  have hp : env.Parse (hrefOf n.Attr) = some linkURL := hh ▸ hparse
  rw [analyzeLink_parsed env n data baseURL w linkURL h0 hp]
  constructor
  · intro hhost
    have hc : (classified env baseURL linkURL data).InternalLinks = data.InternalLinks + 1 ∧
        (classified env baseURL linkURL data).ExternalLinks = data.ExternalLinks := by
      unfold classified; rw [if_pos hhost]; exact ⟨rfl, rfl⟩
    rcases isAccessibleLink env (env.String (env.ResolveReference baseURL linkURL)) w
      with ⟨_ | _, w1⟩
    · exact hc
    · exact hc
  · intro hhost
    have hc : (classified env baseURL linkURL data).InternalLinks = data.InternalLinks ∧
        (classified env baseURL linkURL data).ExternalLinks = data.ExternalLinks + 1 := by
      unfold classified; rw [if_neg hhost]; exact ⟨rfl, rfl⟩
    rcases isAccessibleLink env (env.String (env.ResolveReference baseURL linkURL)) w
      with ⟨_ | _, w1⟩
    · exact hc
    · exact hc

set_option maxRecDepth 100000 in
/-- C5 with base `https://example.com/a/`: `../b` parses, resolves to
`https://example.com/b` and is counted internal; `https://other.com/x` is counted
external; so are `https://EXAMPLE.com/` and `https://example.com:443/`, whose hosts
differ from `example.com` as byte strings. -/
theorem c5_link_classification_witness :
    (url.Parse (go "../b")).map (fun ref => (exampleBase.ResolveReference ref).String)
      = some (go "https://example.com/b") ∧
    ((analyzeLink deadEnv (element "a" [attr "href" "../b"] []) CrawlData.fresh exampleBase
        World.start).1.InternalLinks = 0 + 1 ∧
      (analyzeLink deadEnv (element "a" [attr "href" "../b"] []) CrawlData.fresh exampleBase
        World.start).1.ExternalLinks = 0) ∧
    ((analyzeLink deadEnv (element "a" [attr "href" "https://other.com/x"] []) CrawlData.fresh
        exampleBase World.start).1.InternalLinks = 0 ∧
      (analyzeLink deadEnv (element "a" [attr "href" "https://other.com/x"] []) CrawlData.fresh
        exampleBase World.start).1.ExternalLinks = 0 + 1) ∧
    (analyzeLink deadEnv (element "a" [attr "href" "https://EXAMPLE.com/"] []) CrawlData.fresh
        exampleBase World.start).1.ExternalLinks = 1 ∧
    (analyzeLink deadEnv (element "a" [attr "href" "https://example.com:443/"] [])
        CrawlData.fresh exampleBase World.start).1.ExternalLinks = 1 :=
  ⟨by decide,
   (c5_link_classification deadEnv (element "a" [attr "href" "../b"] []) CrawlData.fresh
      exampleBase World.start (go "../b")
      { url.URL.zero with Path := go "../b" }
      (by decide) (by decide) (by decide)).1 (by decide),
   (c5_link_classification deadEnv (element "a" [attr "href" "https://other.com/x"] [])
      CrawlData.fresh exampleBase World.start (go "https://other.com/x")
      { url.URL.zero with Scheme := go "https", Host := go "other.com", Path := go "/x" }
      (by decide) (by decide) (by decide)).2 (by decide),
   by decide, by decide⟩

set_option maxRecDepth 100000 in
/-- C6, the code at the failing input: with base `https://example.com/a/` the anchor
`href="#top"` resolves to `https://example.com/a/#top`, which does not begin with `#`;
`isAccessibleLink` issues a HEAD request for it, and on a network where the request
fails `analyzeLink` counts the link as inaccessible and appends it to `BrokenLinks`.
On a network that answers 200 the request is still made. -/
theorem c6_fragment_link_is_probed :
    (url.Parse (go "#top")).map (fun ref => (exampleBase.ResolveReference ref).String)
      = some (go "https://example.com/a/#top") ∧
    HasPrefix (go "https://example.com/a/#top") (go "#") = false ∧
    (analyzeLink deadEnv (element "a" [attr "href" "#top"] []) CrawlData.fresh exampleBase
        World.start).1.InaccessibleLinks = 1 ∧
    (analyzeLink deadEnv (element "a" [attr "href" "#top"] []) CrawlData.fresh exampleBase
        World.start).1.BrokenLinks =
      [{ ID := 0, ResultID := 0, URL := go "https://example.com/a/#top", StatusCode := 0,
         ErrorMessage := go "Link check failed" }] ∧
    (analyzeLink deadEnv (element "a" [attr "href" "#top"] []) CrawlData.fresh exampleBase
        World.start).2.heads = [go "https://example.com/a/#top"] ∧
    (analyzeLink (goEnv (fun s => s) (statusNet 200)) (element "a" [attr "href" "#top"] [])
        CrawlData.fresh exampleBase World.start).2.heads = [go "https://example.com/a/#top"] := by
  decide

section ParseScheme

theorem setPath_Scheme (u v : url.URL) (p : GoString) (h : u.setPath p = some v) :
    v.Scheme = u.Scheme := by
  unfold url.URL.setPath at h
  cases hu : url.unescape p url.encoding.encodePath with
  | none => simp [hu] at h
  | some path => simp [hu] at h; rw [← h]

theorem setFragment_Scheme (u v : url.URL) (f : GoString) (h : u.setFragment f = some v) :
    v.Scheme = u.Scheme := by
  unfold url.URL.setFragment at h
  cases hu : url.unescape f url.encoding.encodeFragment with
  | none => simp [hu] at h
  | some frag => simp [hu] at h; rw [← h]

theorem parseAuthorityAndPath_Scheme (u v : url.URL) (rest : GoString)
    (h : url.parseAuthorityAndPath u rest = some v) : v.Scheme = u.Scheme := by
  unfold url.parseAuthorityAndPath at h
  split at h
  · dsimp only at h
    split at h
    · exact absurd h (by simp)
    · exact (setPath_Scheme _ _ _ h).trans rfl
  · split at h
    · exact (setPath_Scheme _ _ _ h).trans rfl
    · exact setPath_Scheme _ _ _ h

theorem splitQuery_Scheme (u : url.URL) (rest : GoString) :
    (url.splitQuery u rest).1.Scheme = u.Scheme := by
  unfold url.splitQuery
  split <;> rfl

theorem parseHierarchy_Scheme (u v : url.URL) (rest : GoString)
    (h : url.parseHierarchy u rest = some v) : v.Scheme = u.Scheme := by
  unfold url.parseHierarchy at h
  split at h
  · split at h
    · simp only [Option.some.injEq] at h
      rw [← h]
    · split at h
      · exact absurd h (by simp)
      · exact parseAuthorityAndPath_Scheme _ _ _ h
  · exact parseAuthorityAndPath_Scheme _ _ _ h

/-- The scheme of a parsed URL is the lower-cased scheme that `getScheme` reads off the
text. -/
theorem parse_Scheme (rawURL : GoString) (v : url.URL) (h : url.parse rawURL = some v) :
    v.Scheme = (((url.getScheme rawURL).map (fun p => p.1.map asciiLower)).getD []) := by
  unfold url.parse at h
  split at h
  · exact absurd h (by simp)
  · split at h
    · rename_i hstar
      simp only [Option.some.injEq] at h
      rw [← h, hstar]
      decide
    · cases hg : url.getScheme rawURL with
      | none => simp [hg] at h
      | some p =>
        obtain ⟨scheme, rest⟩ := p
        simp only [hg] at h
        rw [parseHierarchy_Scheme _ _ _ h, splitQuery_Scheme]
        rfl

theorem Parse_Scheme (href : GoString) (ref : url.URL) (h : url.Parse href = some ref) :
    ref.Scheme =
      (((url.getScheme (Cut href (go "#")).1).map (fun p => p.1.map asciiLower)).getD []) := by
  unfold url.Parse at h
  dsimp only at h
  cases hp : url.parse (Cut href (go "#")).1 with
  | none => simp [hp] at h
  | some u =>
    simp only [hp] at h
    rw [← parse_Scheme _ _ hp]
    split at h
    · simp only [Option.some.injEq] at h; rw [← h]
    · exact setFragment_Scheme _ _ _ h

end ParseScheme

section SchemePrefix

theorem Cut_hash_cons (c : UInt8) (cs : GoString) (h : c ≠ byte '#') :
    (Cut (c :: cs) (go "#")).1 = c :: (Cut cs (go "#")).1 := by
  have hg : go "#" = [byte '#'] := by decide
  have hne : (byte '#' == c) = false := by
    simp only [beq_eq_false_iff_ne, ne_eq]; exact fun e => h e.symm
  unfold Cut
  rw [hg]
  simp only [Index, List.isPrefixOf, hne, Bool.false_and, Bool.false_eq_true, if_false]
  cases Index [byte '#'] cs with
  | none => rfl
  | some i => simp

theorem getScheme_mailto (t : GoString) :
    url.getScheme (go "mailto:" ++ t) = some (go "mailto", t) := by
  have hg : go "mailto:" = [109, 97, 105, 108, 116, 111, 58] := by decide
  have hm : go "mailto" = [109, 97, 105, 108, 116, 111] := by decide
  rw [hg, hm]
  simp +decide [url.getScheme, url.getSchemeLoop]

theorem getScheme_tel (t : GoString) :
    url.getScheme (go "tel:" ++ t) = some (go "tel", t) := by
  have hg : go "tel:" = [116, 101, 108, 58] := by decide
  have hm : go "tel" = [116, 101, 108] := by decide
  rw [hg, hm]
  simp +decide [url.getScheme, url.getSchemeLoop]

theorem getScheme_javascript (t : GoString) :
    url.getScheme (go "javascript:" ++ t) = some (go "javascript", t) := by
  have hg : go "javascript:" = [106, 97, 118, 97, 115, 99, 114, 105, 112, 116, 58] := by decide
  have hm : go "javascript" = [106, 97, 118, 97, 115, 99, 114, 105, 112, 116] := by decide
  rw [hg, hm]
  simp +decide [url.getScheme, url.getSchemeLoop]

theorem HasPrefix_split (s pre : GoString) (h : HasPrefix s pre = true) :
    ∃ t, s = pre ++ t := by
  unfold HasPrefix at h
  obtain ⟨t, ht⟩ := List.isPrefixOf_iff_prefix.mp h
  exact ⟨t, ht.symm⟩

/-- An `href` that begins with `mailto:`, `tel:` or `javascript:` and parses has that
scheme. -/
theorem Parse_Scheme_of_HasPrefix (href : GoString) (ref : url.URL)
    (h : url.Parse href = some ref) :
    (HasPrefix href (go "mailto:") = true → ref.Scheme = go "mailto") ∧
    (HasPrefix href (go "tel:") = true → ref.Scheme = go "tel") ∧
    (HasPrefix href (go "javascript:") = true → ref.Scheme = go "javascript") := by
  have hs := Parse_Scheme href ref h
  refine ⟨fun hp => ?_, fun hp => ?_, fun hp => ?_⟩
  · obtain ⟨t, rfl⟩ := HasPrefix_split _ _ hp
    have hg : go "mailto:" = [109, 97, 105, 108, 116, 111, 58] := by decide
    have hc : (Cut (go "mailto:" ++ t) (go "#")).1 = go "mailto:" ++ (Cut t (go "#")).1 := by
      rw [hg]
      simp only [List.cons_append, List.nil_append]
      repeat rw [Cut_hash_cons _ _ (by decide)]
    rw [hc, getScheme_mailto] at hs
    rw [hs]
    show (go "mailto").map asciiLower = go "mailto"
    decide
  · obtain ⟨t, rfl⟩ := HasPrefix_split _ _ hp
    have hg : go "tel:" = [116, 101, 108, 58] := by decide
    have hc : (Cut (go "tel:" ++ t) (go "#")).1 = go "tel:" ++ (Cut t (go "#")).1 := by
      rw [hg]
      simp only [List.cons_append, List.nil_append]
      repeat rw [Cut_hash_cons _ _ (by decide)]
    rw [hc, getScheme_tel] at hs
    rw [hs]
    show (go "tel").map asciiLower = go "tel"
    decide
  · obtain ⟨t, rfl⟩ := HasPrefix_split _ _ hp
    have hg : go "javascript:" = [106, 97, 118, 97, 115, 99, 114, 105, 112, 116, 58] := by
      decide
    have hc : (Cut (go "javascript:" ++ t) (go "#")).1 =
        go "javascript:" ++ (Cut t (go "#")).1 := by
      rw [hg]
      simp only [List.cons_append, List.nil_append]
      repeat rw [Cut_hash_cons _ _ (by decide)]
    rw [hc, getScheme_javascript] at hs
    rw [hs]
    show (go "javascript").map asciiLower = go "javascript"
    decide

end SchemePrefix

section Skip

variable {σ : Type}

/-- The text `(*URL).String` writes starts with the scheme and a colon. -/
theorem String_scheme (u : url.URL) (h : u.Scheme ≠ []) :
    ∃ rest, u.String = u.Scheme ++ go ":" ++ rest := by
  unfold url.URL.String
  simp only [h, ne_eq, not_false_eq_true, if_true, List.append_assoc]
  exact ⟨_, rfl⟩

/-- Setting the path leaves the scheme alone. -/
theorem setPathIgnoringError_Scheme (u : url.URL) (p : GoString) :
    (u.setPathIgnoringError p).Scheme = u.Scheme := by
  unfold url.URL.setPathIgnoringError url.URL.setPath
  cases url.unescape p url.encoding.encodePath <;> rfl

/-- A reference with a scheme keeps it when it is resolved. -/
theorem ResolveReference_Scheme (u ref : url.URL) (h : ref.Scheme ≠ []) :
    (u.ResolveReference ref).Scheme = ref.Scheme := by
  unfold url.URL.ResolveReference
  simp only [h, if_false, ne_eq, not_false_eq_true, true_or, if_true]
  rw [setPathIgnoringError_Scheme]

theorem HasPrefix_append (s rest : GoString) : HasPrefix (s ++ rest) s = true := by
  unfold HasPrefix
  induction s with
  | nil => simp [List.isPrefixOf]
  | cons c cs ih => simp [List.isPrefixOf, ih]

/-- A link whose text begins with one of the skipped schemes is accessible, and no
request is made for it. -/
theorem isAccessibleLink_skip {U : Type} (env : Env U σ) (s : GoString) (w : World σ)
    (h : HasPrefix s (go "mailto:") = true ∨ HasPrefix s (go "tel:") = true ∨
      HasPrefix s (go "javascript:") = true) :
    isAccessibleLink env s w = (true, w) := by
  unfold isAccessibleLink
  rcases h with h | h | h <;> simp [h]

/-- C7: an anchor whose `href` parses to a reference with scheme `mailto`, `tel` or
`javascript` (in particular every `href` that begins with `mailto:`, `tel:` or
`javascript:` and parses) is always accessible: the text of the reference resolved
against any base URL begins with the scheme and a colon, `isAccessibleLink` returns true
for it without a request, and `analyzeLink` leaves `BrokenLinks`, `InaccessibleLinks` and
the world unchanged, whatever the network would answer. -/
theorem c7_scheme_links_skipped (mapLower : GoString → GoString)
    (Head : σ → GoString → Option Int × σ) (base ref : url.URL) (n : Node) (href : GoString)
    (data : CrawlData) (w : World σ)
    (hattr : hrefAttr n = some href) (hparse : url.Parse href = some ref)
    (hscheme : (ref.Scheme = go "mailto" ∨ ref.Scheme = go "tel" ∨
        ref.Scheme = go "javascript") ∨
      (HasPrefix href (go "mailto:") = true ∨ HasPrefix href (go "tel:") = true ∨
        HasPrefix href (go "javascript:") = true)) :
    HasPrefix (base.ResolveReference ref).String (ref.Scheme ++ go ":") = true ∧
    isAccessibleLink (goEnv mapLower Head) (base.ResolveReference ref).String w = (true, w) ∧
    (analyzeLink (goEnv mapLower Head) n data base w).1.BrokenLinks = data.BrokenLinks ∧
    (analyzeLink (goEnv mapLower Head) n data base w).1.InaccessibleLinks =
      data.InaccessibleLinks ∧
    (analyzeLink (goEnv mapLower Head) n data base w).2 = w := by
  have hscheme : ref.Scheme = go "mailto" ∨ ref.Scheme = go "tel" ∨
      ref.Scheme = go "javascript" := by
    have hp := Parse_Scheme_of_HasPrefix href ref hparse
    rcases hscheme with h | h | h | h
    · exact h
    · exact Or.inl (hp.1 h)
    · exact Or.inr (Or.inl (hp.2.1 h))
    · exact Or.inr (Or.inr (hp.2.2 h))
  have hs : ref.Scheme ≠ [] := by
    rcases hscheme with h | h | h <;> rw [h] <;> decide
  obtain ⟨rest, hrest⟩ := String_scheme (base.ResolveReference ref)
    (by rw [ResolveReference_Scheme base ref hs]; exact hs)
  rw [ResolveReference_Scheme base ref hs] at hrest
  have hpre : HasPrefix (base.ResolveReference ref).String (ref.Scheme ++ go ":") = true := by
    rw [hrest]; exact HasPrefix_append _ _
  have hskip : isAccessibleLink (goEnv mapLower Head) (base.ResolveReference ref).String w
      = (true, w) := by
    apply isAccessibleLink_skip
    rcases hscheme with h | h | h
    · left; rw [h] at hpre; exact hpre
    · right; left; rw [h] at hpre; exact hpre
    · right; right; rw [h] at hpre; exact hpre
  refine ⟨hpre, hskip, ?_⟩
  have hh : hrefOf n.Attr = href := by
    rw [hrefOf_eq_getD]; unfold hrefAttr at hattr; rw [hattr]; rfl
  by_cases h0 : hrefOf n.Attr = []
  · rw [analyzeLink_dropped (goEnv mapLower Head) n data base w (Or.inl h0)]
    exact ⟨rfl, rfl, rfl⟩
  · have hp : (goEnv mapLower Head).Parse (hrefOf n.Attr) = some ref := by
      rw [hh]; exact hparse
    rw [analyzeLink_parsed (goEnv mapLower Head) n data base w ref h0 hp]
    have hskip' : isAccessibleLink (goEnv mapLower Head)
        ((goEnv mapLower Head).String ((goEnv mapLower Head).ResolveReference base ref)) w
        = (true, w) := hskip
    rw [hskip']
    refine ⟨?_, ?_, rfl⟩
    · show (classified (goEnv mapLower Head) base ref data).BrokenLinks = data.BrokenLinks
      unfold classified; split <;> rfl
    · show (classified (goEnv mapLower Head) base ref data).InaccessibleLinks
        = data.InaccessibleLinks
      unfold classified; split <;> rfl

set_option maxRecDepth 100000 in
/-- C7 with base `https://example.com/a/` on the dead network: `mailto:x@y.com` resolves
to `mailto:x@y.com`, nothing is appended and no request is made; the same holds for
`javascript:void(0)`. -/
theorem c7_scheme_links_skipped_witness :
    (HasPrefix (exampleBase.ResolveReference
          { url.URL.zero with Scheme := go "mailto", Opaque := go "x@y.com" }).String
        (go "mailto" ++ go ":") = true ∧
      isAccessibleLink deadEnv (exampleBase.ResolveReference
          { url.URL.zero with Scheme := go "mailto", Opaque := go "x@y.com" }).String
        World.start = (true, World.start) ∧
      (analyzeLink deadEnv (element "a" [attr "href" "mailto:x@y.com"] []) CrawlData.fresh
        exampleBase World.start).1.BrokenLinks = [] ∧
      (analyzeLink deadEnv (element "a" [attr "href" "mailto:x@y.com"] []) CrawlData.fresh
        exampleBase World.start).1.InaccessibleLinks = 0 ∧
      (analyzeLink deadEnv (element "a" [attr "href" "mailto:x@y.com"] []) CrawlData.fresh
        exampleBase World.start).2 = World.start) ∧
    ((analyzeLink deadEnv (element "a" [attr "href" "javascript:void(0)"] []) CrawlData.fresh
        exampleBase World.start).1.BrokenLinks = [] ∧
      (analyzeLink deadEnv (element "a" [attr "href" "javascript:void(0)"] []) CrawlData.fresh
        exampleBase World.start).1.InaccessibleLinks = 0 ∧
      (analyzeLink deadEnv (element "a" [attr "href" "javascript:void(0)"] []) CrawlData.fresh
        exampleBase World.start).2 = World.start) :=
  ⟨c7_scheme_links_skipped (fun s => s) deadNet exampleBase
      { url.URL.zero with Scheme := go "mailto", Opaque := go "x@y.com" }
      (element "a" [attr "href" "mailto:x@y.com"] []) (go "mailto:x@y.com") CrawlData.fresh
      World.start (by decide) (by decide) (Or.inr (Or.inl (by decide))),
   (c7_scheme_links_skipped (fun s => s) deadNet exampleBase
      { url.URL.zero with Scheme := go "javascript", Opaque := go "void(0)" }
      (element "a" [attr "href" "javascript:void(0)"] []) (go "javascript:void(0)")
      CrawlData.fresh World.start (by decide) (by decide)
      (Or.inl (Or.inr (Or.inr (by decide))))).2.2⟩

end Skip

/-! ## Claims about the login-form heuristic and the version heuristic -/

set_option maxRecDepth 100000 in
/-- C8, the code at the failing input: the form holds a password field and a text field
with `name="username" id="field1"`, so both field tests of the specification hold and no
attribute of the form gives a hint; `isLoginForm` returns false, because the `id`
attribute overwrites the name read from `name`. With the two attributes in the other
order it returns true. The two examples of the specification come out as stated. -/
theorem c8_name_overwritten_by_id :
    formAttrHint deadEnv nameThenIdForm.Attr = false ∧
    specHasPasswordField deadEnv nameThenIdForm = true ∧
    specHasIdentityField deadEnv nameThenIdForm = true ∧
    isLoginForm deadEnv nameThenIdForm = false ∧
    isLoginForm deadEnv idThenNameForm = true ∧
    isLoginForm deadEnv passwordEmailForm = true ∧
    isLoginForm deadEnv passwordOnlyForm = false := by
  decide

section LoginForm

variable {U σ : Type}

/-- C9: when some attribute of the form with key `id`, `class` or `name` has a value
that contains, after lower-casing, `login`, `signin` or `auth`, `isLoginForm` returns
true, whatever the form holds. -/
theorem c9_attribute_shortcut (env : Env U σ) (n : Node) (a : Attribute)
    (hmem : a ∈ n.Attr)
    (hkey : a.Key = go "id" ∨ a.Key = go "class" ∨ a.Key = go "name")
    (hval : Contains (env.ToLower a.Val) (go "login") = true ∨
      Contains (env.ToLower a.Val) (go "signin") = true ∨
      Contains (env.ToLower a.Val) (go "auth") = true) :
    isLoginForm env n = true := by
  have hhint : ∀ attrs : List Attribute, a ∈ attrs → formAttrHint env attrs = true := by
    intro attrs
    induction attrs with
    | nil => intro h; cases h
    | cons b rest ih =>
      intro h
      rcases List.mem_cons.mp h with rfl | h'
      · unfold formAttrHint
        rw [if_pos hkey]
        dsimp only
        have : (Contains (env.ToLower a.Val) (go "login") ||
            Contains (env.ToLower a.Val) (go "signin") ||
            Contains (env.ToLower a.Val) (go "auth")) = true := by
          rcases hval with h1 | h1 | h1 <;> simp [h1]
        rw [if_pos this]
      · unfold formAttrHint
        dsimp only
        split_ifs <;> first | rfl | exact ih h'
  unfold isLoginForm
  rw [if_pos (hhint n.Attr hmem)]

set_option maxRecDepth 100000 in
/-- C9 at a form without any field: `class="box Login-box"` makes it a login form. -/
theorem c9_attribute_shortcut_witness : isLoginForm deadEnv hintedForm = true :=
  c9_attribute_shortcut deadEnv hintedForm (attr "class" "box Login-box") (by decide)
    (Or.inr (Or.inl (by decide))) (Or.inl (by decide))

theorem hasHTMLDoctype_iff (env : Env U σ) (l : List Node) :
    hasHTMLDoctype env l = true ↔
      ∃ c ∈ l, c.Typ = NodeType.DoctypeNode ∧ Contains (env.ToLower c.Data) (go "html") = true := by
  induction l with
  | nil => simp [hasHTMLDoctype]
  | cons c rest ih =>
    unfold hasHTMLDoctype
    by_cases h1 : c.Typ = NodeType.DoctypeNode
    · by_cases h2 : Contains (env.ToLower c.Data) (go "html") = true
      · simp [h1, h2]
      · simp [h1, h2, ih]
    · simp [h1, ih]

theorem hasXHTMLAttr_iff (l : List Attribute) :
    hasXHTMLAttr l = true ↔
      ∃ a ∈ l, a.Key = go "xmlns" ∨ Contains a.Val (go "xhtml") = true := by
  induction l with
  | nil => simp [hasXHTMLAttr]
  | cons a rest ih =>
    unfold hasXHTMLAttr
    by_cases h : a.Key = go "xmlns" ∨ Contains a.Val (go "xhtml") = true
    · simp only [h, if_true, List.mem_cons, exists_eq_or_imp, true_or]
    · simp only [h, if_false, ih, List.mem_cons, exists_eq_or_imp, false_or]

/-- C10: `extractHTMLVersion` decides in this order. When the parent of `n` is a document
node one of whose children is a DOCTYPE with `html` in its lower-cased data, the result
is `HTML5`, whatever attributes `n` has; otherwise, when `n` has an attribute with key
`xmlns` or with `xhtml` in its value, the result is `XHTML`; otherwise it is `HTML5`.
The result is always one of the two. -/
theorem c10_html_version_priority (env : Env U σ) (parent : Option Node) (n : Node) :
    ((∃ p, parent = some p ∧ p.Typ = NodeType.DocumentNode ∧
        ∃ c ∈ p.children, c.Typ = NodeType.DoctypeNode ∧
          Contains (env.ToLower c.Data) (go "html") = true) →
      extractHTMLVersion env parent n = go "HTML5") ∧
    (¬ (∃ p, parent = some p ∧ p.Typ = NodeType.DocumentNode ∧
        ∃ c ∈ p.children, c.Typ = NodeType.DoctypeNode ∧
          Contains (env.ToLower c.Data) (go "html") = true) →
      (∃ a ∈ n.Attr, a.Key = go "xmlns" ∨ Contains a.Val (go "xhtml") = true) →
      extractHTMLVersion env parent n = go "XHTML") ∧
    (¬ (∃ p, parent = some p ∧ p.Typ = NodeType.DocumentNode ∧
        ∃ c ∈ p.children, c.Typ = NodeType.DoctypeNode ∧
          Contains (env.ToLower c.Data) (go "html") = true) →
      ¬ (∃ a ∈ n.Attr, a.Key = go "xmlns" ∨ Contains a.Val (go "xhtml") = true) →
      extractHTMLVersion env parent n = go "HTML5") ∧
    (extractHTMLVersion env parent n = go "HTML5" ∨
      extractHTMLVersion env parent n = go "XHTML") := by
  have hdoc : (match parent with
      | some p => if p.Typ = NodeType.DocumentNode then hasHTMLDoctype env p.children else false
      | none => false) = true ↔
      ∃ p, parent = some p ∧ p.Typ = NodeType.DocumentNode ∧
        ∃ c ∈ p.children, c.Typ = NodeType.DoctypeNode ∧
          Contains (env.ToLower c.Data) (go "html") = true := by
    cases parent with
    | none => simp
    | some p =>
      by_cases hp : p.Typ = NodeType.DocumentNode
      · simp [hp, hasHTMLDoctype_iff]
      · simp [hp]
  unfold extractHTMLVersion
  dsimp only
  rw [← hasXHTMLAttr_iff, ← hdoc]
  refine ⟨fun h => by rw [if_pos h], fun h1 h2 => by rw [if_neg h1, if_pos h2],
    fun h1 h2 => by rw [if_neg h1, if_neg h2], ?_⟩
  split_ifs <;> simp

end LoginForm

set_option maxRecDepth 100000 in
/-- C10 at three inputs: under a document with the doctype `html` an element with
`xmlns` is `HTML5`; under a document without a doctype it is `XHTML`; and an `html`
element without such an attribute is `HTML5`. -/
theorem c10_html_version_witness :
    extractHTMLVersion deadEnv (some doctypeDocument) xhtmlElement = go "HTML5" ∧
    extractHTMLVersion deadEnv (some plainDocument) xhtmlElement = go "XHTML" ∧
    extractHTMLVersion deadEnv (some plainDocument) (element "html" [attr "lang" "en"] [])
      = go "HTML5" :=
  ⟨(c10_html_version_priority deadEnv (some doctypeDocument) xhtmlElement).1
      ⟨doctypeDocument, rfl, by decide, .mk NodeType.DoctypeNode (go "html") [] [],
        by simp [doctypeDocument, document, Node.children], by decide, by decide⟩,
   (c10_html_version_priority deadEnv (some plainDocument) xhtmlElement).2.1
      (fun ⟨p, hp, _, c, hc, hd, _⟩ => by
        cases hp
        have hall : ∀ c ∈ plainDocument.children, c.Typ ≠ NodeType.DoctypeNode := by decide
        exact hall c hc hd)
      (by decide),
   (c10_html_version_priority deadEnv (some plainDocument)
      (element "html" [attr "lang" "en"] [])).2.2.1
      (fun ⟨p, hp, _, c, hc, hd, _⟩ => by
        cases hp
        have hall : ∀ c ∈ plainDocument.children, c.Typ ≠ NodeType.DoctypeNode := by decide
        exact hall c hc hd)
      (by decide)⟩

/-! ## Claims about the version and the login flag of the whole page -/

section Version

variable {U σ : Type}

theorem analyzeNode_version (env : Env U σ) (baseURL : U) (parent : Option Node) (n : Node)
    (st : CrawlData × World σ) :
    (analyzeNode env baseURL parent n st).1.HTMLVersion =
      (if isElement (go "html") n = true then some (extractHTMLVersion env parent n)
        else none).getD st.1.HTMLVersion := by
  by_cases ha : n.Typ = NodeType.ElementNode ∧ n.Data = go "a"
  · have h1 : go "a" ≠ go "html" := by decide
    rw [analyzeNode_anchor env baseURL parent n st ha,
      (analyzeLink_frame env n st.1 baseURL st.2).2.1]
    simp [isElement, ha.2, h1]
  · unfold analyzeNode isElement
    dsimp only
    split_ifs <;> simp_all

theorem analyzeHTML_version (env : Env U σ) (baseURL : U) (parent : Option Node) (tree : Node)
    (st : CrawlData × World σ) :
    (analyzeHTML env baseURL parent tree st).1.HTMLVersion =
      ((htmlVersions env parent tree).getLast?).getD st.1.HTMLVersion := by
  have hf : htmlVersions env parent tree =
      (visits parent tree).filterMap (fun v =>
        if isElement (go "html") v.2 = true then some (extractHTMLVersion env v.1 v.2)
        else none) := by
    unfold htmlVersions
    induction visits parent tree with
    | nil => rfl
    | cons v l ih =>
      by_cases h : isElement (go "html") v.2 = true
      · simp [List.filter_cons, List.filterMap_cons, h, ih]
      · simp [List.filter_cons, List.filterMap_cons, h, ih]
  rw [analyzeHTML_eq_foldl,
    foldl_last
      (fun (acc : CrawlData × World σ) (v : Option Node × Node) =>
        analyzeNode env baseURL v.1 v.2 acc)
      (fun s => s.1.HTMLVersion)
      (fun v => if isElement (go "html") v.2 = true then some (extractHTMLVersion env v.1 v.2)
        else none)
      (fun s v => analyzeNode_version env baseURL v.1 v.2 s),
    hf]

end Version

set_option maxRecDepth 100000 in
/-- C11, as stated, fails on `nestedHtml`: the first `html` element, under the document
and with `xmlns`, has version `XHTML`; the second, further down and without attributes,
has `HTML5`, and that is what `analyzeHTML` leaves in the record. -/
theorem c11_first_html_counterexample :
    htmlVersions deadEnv none nestedHtml = [go "XHTML", go "HTML5"] ∧
    (analyzeHTML deadEnv exampleBase none nestedHtml (CrawlData.fresh, World.start)).1.HTMLVersion
      = go "HTML5" ∧
    (analyzeHTML deadEnv exampleBase none nestedHtml (CrawlData.fresh, World.start)).1.HTMLVersion
      ≠ ((htmlVersions deadEnv none nestedHtml).head?).getD [] := by
  decide

/-- C11, amended: the `HTMLVersion` that `analyzeHTML` produces on a fresh `CrawlData` is
`extractHTMLVersion` of the last `html` element in depth-first pre-order (every `html`
element overwrites the value), and the empty string when the tree has none. -/
theorem c11_last_html_wins {U σ : Type} (env : Env U σ) (baseURL : U) (parent : Option Node)
    (tree : Node) (w : World σ) :
    (analyzeHTML env baseURL parent tree (CrawlData.fresh, w)).1.HTMLVersion =
      ((htmlVersions env parent tree).getLast?).getD [] :=
  analyzeHTML_version env baseURL parent tree (CrawlData.fresh, w)

section LoginFlag

variable {U σ : Type}

/-- A flag that every step either sets on a marked item or leaves alone ends up set
exactly when it was set before or some item is marked. -/
theorem foldl_or {α S : Type} (step : S → α → S) (m : S → Bool) (p : α → Bool)
    (h : ∀ s a, m (step s a) = (m s || p a)) :
    ∀ (l : List α) (s : S), m (l.foldl step s) = (m s || l.any p)
  | [], s => by simp
  | a :: l, s => by
    rw [List.foldl_cons, foldl_or step m p h l, h]
    simp [Bool.or_assoc]

theorem analyzeNode_login (env : Env U σ) (baseURL : U) (parent : Option Node) (n : Node)
    (st : CrawlData × World σ) :
    (analyzeNode env baseURL parent n st).1.HasLoginForm =
      (st.1.HasLoginForm || (isElement (go "form") n && isLoginForm env n)) := by
  by_cases ha : n.Typ = NodeType.ElementNode ∧ n.Data = go "a"
  · have h1 : go "a" ≠ go "form" := by decide
    rw [analyzeNode_anchor env baseURL parent n st ha,
      (analyzeLink_frame env n st.1 baseURL st.2).2.2.2]
    simp [isElement, ha.2, h1]
  · by_cases hf : n.Typ = NodeType.ElementNode ∧ n.Data = go "form"
    · have h1 : go "form" ≠ go "html" := by decide
      have h2 : go "form" ≠ go "title" := by decide
      have h3 : ¬ (go "form" = go "h1" ∨ go "form" = go "h2" ∨ go "form" = go "h3" ∨
          go "form" = go "h4" ∨ go "form" = go "h5" ∨ go "form" = go "h6") := by decide
      have h4 : go "form" ≠ go "a" := by decide
      unfold analyzeNode isElement
      by_cases hl : isLoginForm env n = true
      · simp [hf.1, hf.2, h1, h2, h3, h4, hl]
      · simp [hf.1, hf.2, h1, h2, h3, h4, hl]
    · have he : isElement (go "form") n = false := by
        unfold isElement
        by_cases ht : n.Typ = NodeType.ElementNode
        · have : n.Data ≠ go "form" := fun h => hf ⟨ht, h⟩
          simp [ht, this]
        · simp [ht]
      rw [he, Bool.false_and, Bool.or_false]
      unfold analyzeNode
      dsimp only
      split_ifs <;> simp_all

theorem analyzeHTML_login (env : Env U σ) (baseURL : U) (parent : Option Node) (tree : Node)
    (st : CrawlData × World σ) :
    (analyzeHTML env baseURL parent tree st).1.HasLoginForm =
      (st.1.HasLoginForm ||
        (preorder tree).any (fun n => isElement (go "form") n && isLoginForm env n)) := by
  rw [analyzeHTML_eq_foldl,
    foldl_or
      (fun (acc : CrawlData × World σ) (v : Option Node × Node) =>
        analyzeNode env baseURL v.1 v.2 acc)
      (fun s => s.1.HasLoginForm)
      (fun v => isElement (go "form") v.2 && isLoginForm env v.2)
      (fun s v => analyzeNode_login env baseURL v.1 v.2 s),
    ← visits_map_snd parent tree]
  congr 1
  induction visits parent tree with
  | nil => rfl
  | cons v l ih => simp [List.any_cons, ih]

end LoginFlag

/-- C17: the `HasLoginForm` that `analyzeHTML` produces on a fresh `CrawlData` is true
exactly when some `form` element of the tree, at any depth, satisfies `isLoginForm`; and
the flag is monotone: no node resets it, so a traversal that starts with the flag set
ends with it set. -/
theorem c17_login_flag {U σ : Type} (env : Env U σ) (baseURL : U) (parent : Option Node)
    (tree : Node) (w : World σ) :
    (analyzeHTML env baseURL parent tree (CrawlData.fresh, w)).1.HasLoginForm =
      (preorder tree).any (fun n => isElement (go "form") n && isLoginForm env n) ∧
    ((analyzeHTML env baseURL parent tree (CrawlData.fresh, w)).1.HasLoginForm = true ↔
      ∃ n ∈ preorder tree, isElement (go "form") n = true ∧ isLoginForm env n = true) ∧
    (∀ (p : Option Node) (n : Node) (st : CrawlData × World σ),
      st.1.HasLoginForm = true → (analyzeNode env baseURL p n st).1.HasLoginForm = true) ∧
    (∀ (st : CrawlData × World σ),
      st.1.HasLoginForm = true →
        (analyzeHTML env baseURL parent tree st).1.HasLoginForm = true) := by
  refine ⟨?_, ?_, ?_, ?_⟩
  · rw [analyzeHTML_login]
    simp [CrawlData.fresh]
  · rw [analyzeHTML_login]
    simp [CrawlData.fresh, List.any_eq_true]
  · intro p n st h
    rw [analyzeNode_login, h]; rfl
  · intro st h
    rw [analyzeHTML_login, h]; rfl

set_option maxRecDepth 100000 in
/-- C17 at `loginThenSearch`: the first form is a login form, the later search form is
none, and the flag is true at the end; on a page without a login form it is false. -/
theorem c17_login_flag_witness :
    (analyzeHTML deadEnv exampleBase none loginThenSearch
      (CrawlData.fresh, World.start)).1.HasLoginForm = true ∧
    (analyzeHTML deadEnv exampleBase none headingPage
      (CrawlData.fresh, World.start)).1.HasLoginForm = false ∧
    (analyzeHTML deadEnv exampleBase none headingPage
      ({ CrawlData.fresh with HasLoginForm := true }, World.start)).1.HasLoginForm = true :=
  ⟨(c17_login_flag deadEnv exampleBase none loginThenSearch World.start).1.trans (by decide),
   (c17_login_flag deadEnv exampleBase none headingPage World.start).1.trans (by decide),
   (c17_login_flag deadEnv exampleBase none headingPage World.start).2.2.2
      ({ CrawlData.fresh with HasLoginForm := true }, World.start) rfl⟩

/-! ## The list of broken links -/

section Broken

variable {U σ : Type}

theorem resolvedLink_none (env : Env U σ) (baseURL : U) (n : Node)
    (h : ¬ (n.Typ = NodeType.ElementNode ∧ n.Data = go "a") ∨ hrefOf n.Attr = [] ∨
      env.Parse (hrefOf n.Attr) = none) :
    resolvedLink env baseURL n = none := by
  unfold resolvedLink
  by_cases hp : isParsedAnchor env n = true
  · exfalso
    rw [isParsedAnchor_iff] at hp
    rcases h with h | h | h
    · exact h hp.1
    · exact hp.2.1 h
    · rw [h] at hp; simp at hp
  · simp [hp]

theorem resolvedLink_some (env : Env U σ) (baseURL : U) (n : Node) (linkURL : U)
    (ha : n.Typ = NodeType.ElementNode ∧ n.Data = go "a") (h0 : hrefOf n.Attr ≠ [])
    (hp : env.Parse (hrefOf n.Attr) = some linkURL) :
    resolvedLink env baseURL n = some (env.String (env.ResolveReference baseURL linkURL)) := by
  have hpa : isParsedAnchor env n = true := by
    rw [isParsedAnchor_iff]; exact ⟨ha, h0, by rw [hp]; rfl⟩
  have hattr : hrefAttr n = some (hrefOf n.Attr) := by
    have := hrefOf_eq_getD n.Attr
    unfold hrefAttr
    cases hf : (n.Attr.find? (fun attr => attr.Key = go "href")) with
    | none => rw [hf] at this; exact absurd this h0
    | some a => rw [hf] at this; simp at this ⊢; exact this.symm
  unfold resolvedLink
  rw [if_pos hpa, hattr]
  simp [hp]

/-- The effect of `analyzeLink` on the list of broken links and on the world is what
the specification expects of the node. -/
theorem analyzeLink_probeNode (env : Env U σ) (n : Node) (data : CrawlData) (baseURL : U)
    (w : World σ) (ha : n.Typ = NodeType.ElementNode ∧ n.Data = go "a") :
    (analyzeLink env n data baseURL w).1.BrokenLinks =
        data.BrokenLinks ++ (probeNode env baseURL n w).1.toList.map brokenEntry ∧
      (analyzeLink env n data baseURL w).2 = (probeNode env baseURL n w).2 := by
  by_cases h0 : hrefOf n.Attr = []
  · rw [analyzeLink_dropped env n data baseURL w (Or.inl h0)]
    unfold probeNode
    rw [resolvedLink_none env baseURL n (Or.inr (Or.inl h0))]
    simp
  · cases hp : env.Parse (hrefOf n.Attr) with
    | none =>
      rw [analyzeLink_dropped env n data baseURL w (Or.inr hp)]
      unfold probeNode
      rw [resolvedLink_none env baseURL n (Or.inr (Or.inr hp))]
      simp
    | some linkURL =>
      rw [analyzeLink_parsed env n data baseURL w linkURL h0 hp]
      unfold probeNode
      rw [resolvedLink_some env baseURL n linkURL ha h0 hp]
      have hc : (classified env baseURL linkURL data).BrokenLinks = data.BrokenLinks := by
        unfold classified; split <;> rfl
      unfold isAccessibleLink hasSkipPrefix
      dsimp only
      by_cases hs : (HasPrefix (env.String (env.ResolveReference baseURL linkURL)) (go "mailto:") ||
          HasPrefix (env.String (env.ResolveReference baseURL linkURL)) (go "tel:") ||
          HasPrefix (env.String (env.ResolveReference baseURL linkURL)) (go "javascript:") ||
          HasPrefix (env.String (env.ResolveReference baseURL linkURL)) (go "#")) = true
      · rw [if_pos hs, if_pos hs]
        simp [hc]
      · rw [if_neg hs, if_neg hs]
        rcases hh : env.Head w.net (env.String (env.ResolveReference baseURL linkURL)) with
          ⟨_ | code, net⟩
        · simp [probeFails, hc, brokenEntry]
        · by_cases hcode : code < 400
          · have : ¬ (code ≥ 400) := by omega
            simp [probeFails, hc, hcode, this]
          · have : code ≥ 400 := by omega
            simp [probeFails, hc, hcode, this, brokenEntry]

theorem analyzeNode_probeNode (env : Env U σ) (baseURL : U) (parent : Option Node) (n : Node)
    (st : CrawlData × World σ) :
    (analyzeNode env baseURL parent n st).1.BrokenLinks =
        st.1.BrokenLinks ++ (probeNode env baseURL n st.2).1.toList.map brokenEntry ∧
      (analyzeNode env baseURL parent n st).2 = (probeNode env baseURL n st.2).2 := by
  by_cases ha : n.Typ = NodeType.ElementNode ∧ n.Data = go "a"
  · rw [analyzeNode_anchor env baseURL parent n st ha]
    exact analyzeLink_probeNode env n st.1 baseURL st.2 ha
  · have hn := analyzeNode_not_anchor env baseURL parent n st ha
    unfold probeNode
    rw [resolvedLink_none env baseURL n (Or.inl ha)]
    simp [hn.2.2.2.1, hn.2.2.2.2]

theorem foldl_broken (env : Env U σ) (baseURL : U) :
    ∀ (l : List (Option Node × Node)) (st : CrawlData × World σ),
      (l.foldl (fun (acc : CrawlData × World σ) (v : Option Node × Node) =>
          analyzeNode env baseURL v.1 v.2 acc) st).1.BrokenLinks =
        st.1.BrokenLinks ++
          (expectedBroken env baseURL (l.map Prod.snd) st.2).map brokenEntry
  | [], st => by simp [expectedBroken]
  | v :: l, st => by
    rw [List.foldl_cons, foldl_broken env baseURL l]
    have hn := analyzeNode_probeNode env baseURL v.1 v.2 st
    rw [hn.1, hn.2]
    simp [expectedBroken, List.append_assoc]

/-- On a network whose answer to a HEAD request depends on the URL alone, the expected
broken links are the resolved links without a skip prefix whose answer fails. -/
theorem expectedBroken_stateless (env : Env U σ) (baseURL : U) (answer : GoString → Option Int)
    (h : ∀ net s, (env.Head net s).1 = answer s) :
    ∀ (l : List Node) (w : World σ),
      expectedBroken env baseURL l w =
        (l.filterMap (resolvedLink env baseURL)).filter
          (fun s => !hasSkipPrefix s && probeFails (answer s))
  | [], _ => by simp [expectedBroken]
  | n :: l, w => by
    rw [expectedBroken, expectedBroken_stateless env baseURL answer h l]
    unfold probeNode
    cases hr : resolvedLink env baseURL n with
    | none => simp [List.filterMap_cons, hr]
    | some s =>
      by_cases hs : hasSkipPrefix s = true
      · simp [List.filterMap_cons, hr, hs, List.filter_cons]
      · by_cases hf : probeFails (answer s) = true
        · simp [List.filterMap_cons, hr, hs, List.filter_cons, h, hf]
        · simp [List.filterMap_cons, hr, hs, List.filter_cons, h, hf]

end Broken

/-- C12: the `BrokenLinks` that `analyzeHTML` produces on a fresh `CrawlData` are, in
depth-first pre-order of the anchors, one entry with the resolved URL string for every
occurrence of an anchor (with an `href` that is present, not empty and parses) whose
resolved string has no skip prefix and whose HEAD probe, made in the state the network
is in at that moment, fails at transport level or returns a status of 400 or more; an
anchor whose probe returns less than 400 contributes nothing. On a network whose answer
depends on the URL alone the list is the filter of the resolved links by that answer. -/
theorem c12_broken_links_in_order {U σ : Type} (env : Env U σ) (baseURL : U)
    (parent : Option Node) (tree : Node) (w : World σ) :
    (analyzeHTML env baseURL parent tree (CrawlData.fresh, w)).1.BrokenLinks =
      (expectedBroken env baseURL (preorder tree) w).map brokenEntry ∧
    (∀ answer : GoString → Option Int, (∀ net s, (env.Head net s).1 = answer s) →
      (analyzeHTML env baseURL parent tree (CrawlData.fresh, w)).1.BrokenLinks.map
          (fun b => b.URL) =
        ((preorder tree).filterMap (resolvedLink env baseURL)).filter
          (fun s => !hasSkipPrefix s && probeFails (answer s))) := by
  have h1 : (analyzeHTML env baseURL parent tree (CrawlData.fresh, w)).1.BrokenLinks =
      (expectedBroken env baseURL (preorder tree) w).map brokenEntry := by
    rw [analyzeHTML_eq_foldl, foldl_broken, visits_map_snd]
    simp [CrawlData.fresh]
  refine ⟨h1, fun answer h => ?_⟩
  rw [h1, expectedBroken_stateless env baseURL answer h, List.map_map]
  have : ((fun b : BrokenLink => b.URL) ∘ brokenEntry) = id := by
    funext s; rfl
  rw [this, List.map_id]

set_option maxRecDepth 100000 in
/-- C12 at `linkPage`. On the network that fails the first request, answers the second
with 200 and the third with 404, the first and the third of the three parsed anchors are
broken, in that order. On the dead network all three are, and the list of their URLs is
the filter of the resolved links. -/
theorem c12_broken_links_witness :
    (analyzeHTML (goEnv (fun s => s) flakyNet) exampleBase none linkPage
        (CrawlData.fresh, { net := 0, heads := [] })).1.BrokenLinks =
      [brokenEntry (go "https://example.com/b"), brokenEntry (go "https://example.com/b")] ∧
    (analyzeHTML (goEnv (fun s => s) flakyNet) exampleBase none linkPage
        (CrawlData.fresh, { net := 0, heads := [] })).2.heads =
      [go "https://example.com/b", go "https://other.com/x", go "https://example.com/b"] ∧
    (analyzeHTML deadEnv exampleBase none linkPage
        (CrawlData.fresh, World.start)).1.BrokenLinks.map (fun b => b.URL) =
      [go "https://example.com/b", go "https://other.com/x", go "https://example.com/b"] :=
  ⟨(c12_broken_links_in_order (goEnv (fun s => s) flakyNet) exampleBase none linkPage
      { net := 0, heads := [] }).1.trans (by decide),
   by decide,
   ((c12_broken_links_in_order deadEnv exampleBase none linkPage World.start).2
      (fun _ => none) (fun _ _ => rfl)).trans (by decide)⟩

/-! ## Which references are internal -/

section Hosts

theorem setPath_fields (u v : url.URL) (p : GoString) (h : u.setPath p = some v) :
    v.Scheme = u.Scheme ∧ v.Opaque = u.Opaque ∧ v.User = u.User ∧ v.Host = u.Host := by
  unfold url.URL.setPath at h
  cases hu : url.unescape p url.encoding.encodePath with
  | none => simp [hu] at h
  | some path => simp [hu] at h; rw [← h]; exact ⟨rfl, rfl, rfl, rfl⟩

theorem setFragment_fields (u v : url.URL) (f : GoString) (h : u.setFragment f = some v) :
    v.Scheme = u.Scheme ∧ v.Opaque = u.Opaque ∧ v.User = u.User ∧ v.Host = u.Host := by
  unfold url.URL.setFragment at h
  cases hu : url.unescape f url.encoding.encodeFragment with
  | none => simp [hu] at h
  | some frag => simp [hu] at h; rw [← h]; exact ⟨rfl, rfl, rfl, rfl⟩

theorem setPathIgnoringError_fields (u : url.URL) (p : GoString) :
    (u.setPathIgnoringError p).Scheme = u.Scheme ∧ (u.setPathIgnoringError p).Opaque = u.Opaque ∧
      (u.setPathIgnoringError p).User = u.User ∧ (u.setPathIgnoringError p).Host = u.Host := by
  unfold url.URL.setPathIgnoringError
  cases h : u.setPath p with
  | none => exact ⟨rfl, rfl, rfl, rfl⟩
  | some v => exact setPath_fields u v p h

theorem parseAuthorityAndPath_Opaque (u v : url.URL) (rest : GoString)
    (h : url.parseAuthorityAndPath u rest = some v) : v.Opaque = u.Opaque := by
  unfold url.parseAuthorityAndPath at h
  split at h
  · dsimp only at h
    split at h
    · exact absurd h (by simp)
    · exact (setPath_fields _ _ _ h).2.1.trans rfl
  · split at h
    · exact (setPath_fields _ _ _ h).2.1.trans rfl
    · exact (setPath_fields _ _ _ h).2.1

theorem splitQuery_fields (u : url.URL) (rest : GoString) :
    (url.splitQuery u rest).1.Opaque = u.Opaque ∧ (url.splitQuery u rest).1.User = u.User ∧
      (url.splitQuery u rest).1.Host = u.Host := by
  unfold url.splitQuery
  split <;> exact ⟨rfl, rfl, rfl⟩

theorem parseHierarchy_opaque (u v : url.URL) (rest : GoString)
    (hu : u.Opaque = [] ∧ u.User = none ∧ u.Host = [])
    (h : url.parseHierarchy u rest = some v) :
    v.Opaque = [] ∨ (v.Scheme ≠ [] ∧ v.Host = [] ∧ v.User = none) := by
  unfold url.parseHierarchy at h
  split at h
  · split at h
    · rename_i hs
      simp only [Option.some.injEq] at h
      right
      rw [← h]
      exact ⟨hs, hu.2.2, hu.2.1⟩
    · split at h
      · exact absurd h (by simp)
      · left; rw [parseAuthorityAndPath_Opaque _ _ _ h]; exact hu.1
  · left; rw [parseAuthorityAndPath_Opaque _ _ _ h]; exact hu.1

/-- What `url.Parse` returns is either hierarchical, with no opaque part, or opaque, and
then it has a scheme and no authority. -/
theorem Parse_opaque (href : GoString) (ref : url.URL) (h : url.Parse href = some ref) :
    ref.Opaque = [] ∨ (ref.Scheme ≠ [] ∧ ref.Host = [] ∧ ref.User = none) := by
  have hparse : ∀ (raw : GoString) (v : url.URL), url.parse raw = some v →
      v.Opaque = [] ∨ (v.Scheme ≠ [] ∧ v.Host = [] ∧ v.User = none) := by
    intro raw v hv
    unfold url.parse at hv
    split at hv
    · exact absurd hv (by simp)
    · split at hv
      · simp only [Option.some.injEq] at hv
        left; rw [← hv]; rfl
      · cases hg : url.getScheme raw with
        | none => simp [hg] at hv
        | some p =>
          obtain ⟨scheme, rest⟩ := p
          simp only [hg] at hv
          have hf := splitQuery_fields
            { url.URL.zero with Scheme := scheme.map asciiLower } rest
          exact parseHierarchy_opaque _ _ _ ⟨hf.1.trans rfl, hf.2.1.trans rfl, hf.2.2.trans rfl⟩ hv
  unfold url.Parse at h
  dsimp only at h
  cases hp : url.parse (Cut href (go "#")).1 with
  | none => simp [hp] at h
  | some u =>
    simp only [hp] at h
    have hu := hparse _ _ hp
    split at h
    · simp only [Option.some.injEq] at h; rw [← h]; exact hu
    · have hf := setFragment_fields _ _ _ h
      rw [hf.1, hf.2.1, hf.2.2.1, hf.2.2.2]
      exact hu

/-- A reference with a scheme keeps its own host when it is resolved. -/
theorem ResolveReference_Host_of_scheme (u ref : url.URL) (h : ref.Scheme ≠ []) :
    (u.ResolveReference ref).Host = ref.Host := by
  unfold url.URL.ResolveReference
  simp only [h, if_false, ne_eq, not_false_eq_true, true_or, if_true]
  exact (setPathIgnoringError_fields _ _).2.2.2

/-- A reference without scheme, authority and opaque part takes the host of a
hierarchical base. -/
theorem ResolveReference_Host_of_relative (u ref : url.URL) (hs : ref.Scheme = [])
    (hh : ref.Host = []) (hu : ref.User = none) (ho : ref.Opaque = []) (hb : u.Opaque = []) :
    (u.ResolveReference ref).Host = u.Host := by
  unfold url.URL.ResolveReference
  simp only [hs, hh, hu, ho, hb, ne_eq, not_true_eq_false, or_self, if_false, if_true,
    and_false]
  exact (setPathIgnoringError_fields _ _).2.2.2

set_option maxRecDepth 100000 in
/-- A fragment-only `href` parses to a reference without scheme and authority. -/
theorem Parse_fragment_only (href : GoString) (ref : url.URL)
    (hpre : HasPrefix href (go "#") = true) (h : url.Parse href = some ref) :
    ref.Scheme = [] ∧ ref.Host = [] ∧ ref.User = none := by
  obtain ⟨t, rfl⟩ := HasPrefix_split _ _ hpre
  have hc : Cut (go "#" ++ t) (go "#") = ([], t, true) := by
    have hg : go "#" = [byte '#'] := by decide
    rw [hg]
    simp [Cut, Index, List.isPrefixOf]
  have hz : url.parse [] = some url.URL.zero := by decide
  unfold url.Parse at h
  rw [hc] at h
  simp only [hz] at h
  split at h
  · simp only [Option.some.injEq] at h; rw [← h]; exact ⟨rfl, rfl, rfl⟩
  · have hf := setFragment_fields _ _ _ h
    exact ⟨hf.1, hf.2.2.2, hf.2.2.1⟩

end Hosts

section Internal

variable {σ : Type}

/-- `analyzeLink` leaves the two link counters as `classified` sets them. -/
theorem analyzeLink_counts {U : Type} (env : Env U σ) (n : Node) (data : CrawlData)
    (baseURL : U) (w : World σ) (linkURL : U) (h0 : hrefOf n.Attr ≠ [])
    (hp : env.Parse (hrefOf n.Attr) = some linkURL) :
    (analyzeLink env n data baseURL w).1.InternalLinks =
        (classified env baseURL linkURL data).InternalLinks ∧
      (analyzeLink env n data baseURL w).1.ExternalLinks =
        (classified env baseURL linkURL data).ExternalLinks := by
  rw [analyzeLink_parsed env n data baseURL w linkURL h0 hp]
  rcases isAccessibleLink env (env.String (env.ResolveReference baseURL linkURL)) w
    with ⟨_ | _, w1⟩
  · exact ⟨rfl, rfl⟩
  · exact ⟨rfl, rfl⟩

/-- When the probe of the resolved link is skipped, `analyzeLink` leaves the broken
links and the world alone. -/
theorem analyzeLink_skipped {U : Type} (env : Env U σ) (n : Node) (data : CrawlData)
    (baseURL : U) (w : World σ) (linkURL : U) (h0 : hrefOf n.Attr ≠ [])
    (hp : env.Parse (hrefOf n.Attr) = some linkURL)
    (hs : isAccessibleLink env (env.String (env.ResolveReference baseURL linkURL)) w
      = (true, w)) :
    (analyzeLink env n data baseURL w).1.BrokenLinks = data.BrokenLinks ∧
      (analyzeLink env n data baseURL w).2 = w := by
  rw [analyzeLink_parsed env n data baseURL w linkURL h0 hp, hs]
  refine ⟨?_, rfl⟩
  show (classified env baseURL linkURL data).BrokenLinks = data.BrokenLinks
  unfold classified; split <;> rfl

set_option maxRecDepth 1000000 in
theorem schemeByte_lower (c : UInt8)
    (h : ((byte 'a' ≤ c ∧ c ≤ byte 'z') ∨ (byte 'A' ≤ c ∧ c ≤ byte 'Z')) ∨
      ((byte '0' ≤ c ∧ c ≤ byte '9') ∨ c = byte '+' ∨ c = byte '-' ∨ c = byte '.')) :
    asciiLower c ≠ byte ':' ∧ asciiLower c ≠ byte '#' := by
  have key : ∀ n : Fin 256,
      (((byte 'a' ≤ UInt8.ofNat n.val ∧ UInt8.ofNat n.val ≤ byte 'z') ∨
        (byte 'A' ≤ UInt8.ofNat n.val ∧ UInt8.ofNat n.val ≤ byte 'Z')) ∨
      ((byte '0' ≤ UInt8.ofNat n.val ∧ UInt8.ofNat n.val ≤ byte '9') ∨
        UInt8.ofNat n.val = byte '+' ∨ UInt8.ofNat n.val = byte '-' ∨
        UInt8.ofNat n.val = byte '.')) →
      asciiLower (UInt8.ofNat n.val) ≠ byte ':' ∧ asciiLower (UInt8.ofNat n.val) ≠ byte '#' := by
    decide
  have hc : UInt8.ofNat c.toNat = c := by
    cases c; rename_i v
    simp [UInt8.ofNat, UInt8.toNat]
  have := key ⟨c.toNat, UInt8.toNat_lt c⟩
  rw [hc] at this
  exact this h

section SchemeBytes

/-- The scheme `getScheme` returns holds letters, digits, `+`, `-` and `.` only, so that
in lower case it holds no `:` and no `#`. -/
theorem getSchemeLoop_bytes (rawURL : GoString) :
    ∀ (rest : GoString) (i : Nat) (pre : GoString), rawURL = pre ++ rest → pre.length = i →
      (∀ c ∈ pre, asciiLower c ≠ byte ':' ∧ asciiLower c ≠ byte '#') →
      ∀ sch r, url.getSchemeLoop rawURL i rest = some (sch, r) →
        ∀ c ∈ sch, asciiLower c ≠ byte ':' ∧ asciiLower c ≠ byte '#'
  | [], i, pre, _, _, _, sch, r, h => by
    simp only [url.getSchemeLoop, Option.some.injEq, Prod.mk.injEq] at h
    intro c hc; rw [← h.1] at hc; cases hc
  | c :: rest, i, pre, hraw, hlen, hpre, sch, r, h => by
    have hnext : ((byte 'a' ≤ c ∧ c ≤ byte 'z') ∨ (byte 'A' ≤ c ∧ c ≤ byte 'Z')) ∨
        ((byte '0' ≤ c ∧ c ≤ byte '9') ∨ c = byte '+' ∨ c = byte '-' ∨ c = byte '.') →
        url.getSchemeLoop rawURL (i + 1) rest = some (sch, r) →
        ∀ c ∈ sch, asciiLower c ≠ byte ':' ∧ asciiLower c ≠ byte '#' := by
      intro hc hrec
      refine getSchemeLoop_bytes rawURL rest (i + 1) (pre ++ [c]) (by simp [hraw])
        (by simp [hlen]) ?_ sch r hrec
      intro x hx
      rcases List.mem_append.mp hx with hx | hx
      · exact hpre x hx
      · simp only [List.mem_singleton] at hx
        rw [hx]; exact schemeByte_lower c hc
    unfold url.getSchemeLoop at h
    split at h
    · rename_i hl; exact hnext (Or.inl hl) h
    · split at h
      · rename_i hd
        split at h
        · simp only [Option.some.injEq, Prod.mk.injEq] at h
          intro x hx; rw [← h.1] at hx; cases hx
        · exact hnext (Or.inr hd) h
      · split at h
        · split at h
          · cases h
          · simp only [Option.some.injEq, Prod.mk.injEq] at h
            intro x hx
            rw [← h.1, hraw, ← hlen, List.take_left] at hx
            exact hpre x hx
        · simp only [Option.some.injEq, Prod.mk.injEq] at h
          intro x hx; rw [← h.1] at hx; cases hx

/-- The scheme of a parsed URL holds no `:` and no `#`. -/
theorem Parse_Scheme_bytes (href : GoString) (ref : url.URL)
    (h : url.Parse href = some ref) :
    ∀ c ∈ ref.Scheme, c ≠ byte ':' ∧ c ≠ byte '#' := by
  rw [Parse_Scheme href ref h]
  cases hg : url.getScheme (Cut href (go "#")).1 with
  | none => intro c hc; cases hc
  | some p =>
    obtain ⟨sch, r⟩ := p
    simp only [Option.map_some', Option.getD_some]
    intro c hc
    obtain ⟨x, hx, rfl⟩ := List.mem_map.mp hc
    unfold url.getScheme at hg
    exact getSchemeLoop_bytes _ _ 0 [] rfl rfl (fun _ h => (by cases h)) sch r hg x hx

/-- Two texts without a colon that are each followed by a colon at the front of the same
string are the same text. -/
theorem colon_front : ∀ (S P rest : GoString), (∀ c ∈ S, c ≠ byte ':') →
    (∀ c ∈ P, c ≠ byte ':') → HasPrefix (S ++ go ":" ++ rest) (P ++ go ":") = true → S = P
  | [], [], _, _, _, _ => rfl
  | [], p :: P, rest, _, hP, h => by
    exfalso
    have hg : go ":" = [byte ':'] := by decide
    rw [hg] at h
    simp only [HasPrefix, List.nil_append, List.cons_append, List.isPrefixOf,
      Bool.and_eq_true, beq_iff_eq] at h
    exact hP p (List.mem_cons_self _ _) h.1
  | s :: S, [], rest, hS, _, h => by
    exfalso
    have hg : go ":" = [byte ':'] := by decide
    rw [hg] at h
    simp only [HasPrefix, List.nil_append, List.cons_append, List.isPrefixOf,
      Bool.and_eq_true, beq_iff_eq] at h
    exact hS s (List.mem_cons_self _ _) h.1.symm
  | s :: S, p :: P, rest, hS, hP, h => by
    simp only [HasPrefix, List.cons_append, List.isPrefixOf, Bool.and_eq_true,
      beq_iff_eq] at h
    rw [h.1, colon_front S P rest (fun c hc => hS c (List.mem_cons_of_mem _ hc))
      (fun c hc => hP c (List.mem_cons_of_mem _ hc)) h.2]

/-- The text of a URL whose scheme is not `mailto`, `tel` or `javascript` has none of
the prefixes the probe skips. -/
theorem hasSkipPrefix_scheme (u : url.URL) (hs : u.Scheme ≠ [])
    (hbytes : ∀ c ∈ u.Scheme, c ≠ byte ':' ∧ c ≠ byte '#')
    (h1 : u.Scheme ≠ go "mailto") (h2 : u.Scheme ≠ go "tel")
    (h3 : u.Scheme ≠ go "javascript") : hasSkipPrefix u.String = false := by
  obtain ⟨rest, hrest⟩ := String_scheme u hs
  have hcolon : ∀ P : GoString, (∀ c ∈ P, c ≠ byte ':') → u.Scheme ≠ P →
      HasPrefix u.String (P ++ go ":") = false := by
    intro P hP hne
    cases hp : HasPrefix u.String (P ++ go ":") with
    | false => rfl
    | true =>
      rw [hrest] at hp
      exact absurd (colon_front u.Scheme P rest (fun c hc => (hbytes c hc).1) hP hp) hne
  have hm := hcolon (go "mailto") (by decide) h1
  have ht := hcolon (go "tel") (by decide) h2
  have hj := hcolon (go "javascript") (by decide) h3
  have hhash : HasPrefix u.String (go "#") = false := by
    rw [hrest]
    cases hsch : u.Scheme with
    | nil => exact absurd hsch hs
    | cons c t =>
      have hc : c ≠ byte '#' := (hbytes c (by rw [hsch]; exact List.mem_cons_self _ _)).2
      have hg : go "#" = [byte '#'] := by decide
      rw [hg]
      simp only [HasPrefix, List.cons_append, List.isPrefixOf, Bool.and_true,
        beq_eq_false_iff_ne, ne_eq]
      exact fun e => hc e.symm
  have e1 : go "mailto" ++ go ":" = go "mailto:" := by decide
  have e2 : go "tel" ++ go ":" = go "tel:" := by decide
  have e3 : go "javascript" ++ go ":" = go "javascript:" := by decide
  rw [e1] at hm; rw [e2] at ht; rw [e3] at hj
  unfold hasSkipPrefix
  rw [hm, ht, hj, hhash]; rfl

/-- A parsed link without a skip prefix is probed: one HEAD request for its resolved
text is sent, and the link is recorded as broken exactly when the probe fails. -/
theorem analyzeLink_probed {U σ : Type} (env : Env U σ) (n : Node) (data : CrawlData)
    (baseURL : U) (w : World σ) (linkURL : U) (h0 : hrefOf n.Attr ≠ [])
    (hp : env.Parse (hrefOf n.Attr) = some linkURL)
    (hs : hasSkipPrefix (env.String (env.ResolveReference baseURL linkURL)) = false) :
    (analyzeLink env n data baseURL w).2 =
        { net := (env.Head w.net (env.String (env.ResolveReference baseURL linkURL))).2
          heads := w.heads ++ [env.String (env.ResolveReference baseURL linkURL)] } ∧
      (analyzeLink env n data baseURL w).1.BrokenLinks =
        data.BrokenLinks ++
          if probeFails
              (env.Head w.net (env.String (env.ResolveReference baseURL linkURL))).1 then
            [brokenEntry (env.String (env.ResolveReference baseURL linkURL))]
          else [] := by
  rw [analyzeLink_parsed env n data baseURL w linkURL h0 hp]
  have hc : (classified env baseURL linkURL data).BrokenLinks = data.BrokenLinks := by
    unfold classified; split <;> rfl
  unfold hasSkipPrefix at hs
  unfold isAccessibleLink
  rw [hs]
  simp only [Bool.false_eq_true, if_false]
  rcases hh : env.Head w.net (env.String (env.ResolveReference baseURL linkURL)) with
    ⟨_ | code, net⟩
  · simp [probeFails, hc, brokenEntry]
  · by_cases hcode : code < 400
    · have : ¬ code ≥ 400 := by omega
      simp [probeFails, hc, hcode, this]
    · have : code ≥ 400 := by omega
      simp [probeFails, hc, hcode, this, brokenEntry]

end SchemeBytes

set_option maxRecDepth 100000 in
/-- C18 as stated fails: on base `https://example.com/a/` the anchors
`<a href="data:,x">` and `<a href="skype:bob?call">` carry a non-hierarchical reference
with its own scheme and no authority, resolve to an empty host and are counted in
`ExternalLinks`, yet they are not skipped by the probe: a HEAD request is sent for each
and, on the dead network, each is recorded as a broken link. And for a base URL value
that has a host together with an opaque part, the fragment-only `#top` resolves to an
empty host and is counted in `ExternalLinks`. -/
theorem c18_probed_scheme_counterexample :
    url.Parse (go "data:,x")
        = some { url.URL.zero with Scheme := go "data", Opaque := go ",x" } ∧
      (exampleBase.ResolveReference
          { url.URL.zero with Scheme := go "data", Opaque := go ",x" }).Host = [] ∧
      (analyzeLink deadEnv (element "a" [attr "href" "data:,x"] []) CrawlData.fresh
        exampleBase World.start).1.ExternalLinks = 1 ∧
      (analyzeLink deadEnv (element "a" [attr "href" "data:,x"] []) CrawlData.fresh
        exampleBase World.start).2.heads = [go "data:,x"] ∧
      (analyzeLink deadEnv (element "a" [attr "href" "data:,x"] []) CrawlData.fresh
        exampleBase World.start).1.InaccessibleLinks = 1 ∧
      (analyzeLink deadEnv (element "a" [attr "href" "data:,x"] []) CrawlData.fresh
        exampleBase World.start).1.BrokenLinks = [brokenEntry (go "data:,x")] ∧
      (analyzeLink deadEnv (element "a" [attr "href" "skype:bob?call"] []) CrawlData.fresh
        exampleBase World.start).2.heads = [go "skype:bob?call"] ∧
      (analyzeLink deadEnv (element "a" [attr "href" "skype:bob?call"] []) CrawlData.fresh
        exampleBase World.start).1.BrokenLinks = [brokenEntry (go "skype:bob?call")] ∧
      ({ exampleBase with Opaque := go "x" } : url.URL).Host = go "example.com" ∧
      (({ exampleBase with Opaque := go "x" } : url.URL).ResolveReference
          { url.URL.zero with Fragment := go "top" }).Host = [] ∧
      (analyzeLink deadEnv (element "a" [attr "href" "#top"] []) CrawlData.fresh
        { exampleBase with Opaque := go "x" } World.start).1.InternalLinks = 0 ∧
      (analyzeLink deadEnv (element "a" [attr "href" "#top"] []) CrawlData.fresh
        { exampleBase with Opaque := go "x" } World.start).1.ExternalLinks = 1 := by
  decide

/-- C18, amended: with a base URL that has a host, an anchor whose `href` parses to a
reference with its own scheme and no authority (every opaque reference such as
`mailto:x@y.com`, `tel:+123`, `javascript:void(0)`, `data:,x` is one) resolves to a URL
with an empty host and is counted in `ExternalLinks`, not in `InternalLinks`. A
reference with a scheme is skipped by the probe when the scheme is `mailto`, `tel` or
`javascript`; with any other scheme one HEAD request is sent for it, and it is recorded
as a broken link when that request fails. An anchor whose `href` is fragment-only, or
parses to a reference without scheme and authority, resolves to a URL with the host of
the base and is counted in `InternalLinks`, provided the base has no opaque part, as
every base that `url.Parse` returns with a host. -/
theorem c18_scheme_external_relative_internal (mapLower : GoString → GoString)
    (Head : σ → GoString → Option Int × σ) (target : GoString) (base ref : url.URL)
    (n : Node) (href : GoString) (data : CrawlData) (w : World σ)
    (hhost : base.Host ≠ [])
    (hattr : hrefAttr n = some href) (hne : href ≠ [])
    (hparse : url.Parse href = some ref) :
    ((ref.Opaque ≠ [] ∨ (ref.Scheme ≠ [] ∧ ref.Host = [])) →
      (base.ResolveReference ref).Host = [] ∧
      (analyzeLink (goEnv mapLower Head) n data base w).1.ExternalLinks =
        data.ExternalLinks + 1 ∧
      (analyzeLink (goEnv mapLower Head) n data base w).1.InternalLinks =
        data.InternalLinks) ∧
    ((ref.Scheme = go "mailto" ∨ ref.Scheme = go "tel" ∨ ref.Scheme = go "javascript") →
      (analyzeLink (goEnv mapLower Head) n data base w).1.BrokenLinks = data.BrokenLinks ∧
      (analyzeLink (goEnv mapLower Head) n data base w).2 = w) ∧
    ((ref.Scheme ≠ [] ∧ ref.Scheme ≠ go "mailto" ∧ ref.Scheme ≠ go "tel" ∧
        ref.Scheme ≠ go "javascript") →
      (analyzeLink (goEnv mapLower Head) n data base w).2.heads =
        w.heads ++ [(base.ResolveReference ref).String] ∧
      (analyzeLink (goEnv mapLower Head) n data base w).1.BrokenLinks =
        data.BrokenLinks ++
          if probeFails (Head w.net (base.ResolveReference ref).String).1 then
            [brokenEntry (base.ResolveReference ref).String]
          else []) ∧
    ((HasPrefix href (go "#") = true ∨
        (ref.Scheme = [] ∧ ref.Host = [] ∧ ref.User = none)) →
      (base.Opaque = [] ∨ url.Parse target = some base) →
      (base.ResolveReference ref).Host = base.Host ∧
      (analyzeLink (goEnv mapLower Head) n data base w).1.InternalLinks =
        data.InternalLinks + 1 ∧
      (analyzeLink (goEnv mapLower Head) n data base w).1.ExternalLinks =
        data.ExternalLinks) := by
  have hh : hrefOf n.Attr = href := by
    rw [hrefOf_eq_getD]; unfold hrefAttr at hattr; rw [hattr]; rfl
  have h0 : hrefOf n.Attr ≠ [] := hh ▸ hne
  have hp : (goEnv mapLower Head).Parse (hrefOf n.Attr) = some ref := by
    rw [hh]; exact hparse
  have hcount := analyzeLink_counts (goEnv mapLower Head) n data base w ref h0 hp
  refine ⟨fun hA => ?_, fun hS => ?_, fun hN => ?_, fun hB hbase => ?_⟩
  · have hsh : ref.Scheme ≠ [] ∧ ref.Host = [] := by
      rcases hA with ho | hs
      · rcases Parse_opaque href ref hparse with h | h
        · exact absurd h ho
        · exact ⟨h.1, h.2.1⟩
      · exact hs
    have hres : (base.ResolveReference ref).Host = [] := by
      rw [ResolveReference_Host_of_scheme base ref hsh.1]; exact hsh.2
    have hneq : ¬ ((goEnv mapLower Head).Host ((goEnv mapLower Head).ResolveReference base ref)
        = (goEnv mapLower Head).Host base) := by
      show ¬ ((base.ResolveReference ref).Host = base.Host)
      rw [hres]; exact fun h => hhost h.symm
    refine ⟨hres, ?_, ?_⟩
    · rw [hcount.2]; unfold classified; rw [if_neg hneq]
    · rw [hcount.1]; unfold classified; rw [if_neg hneq]
  · have hs : ref.Scheme ≠ [] := by
      rcases hS with h | h | h <;> rw [h] <;> decide
    obtain ⟨rest, hrest⟩ := String_scheme (base.ResolveReference ref)
      (by rw [ResolveReference_Scheme base ref hs]; exact hs)
    rw [ResolveReference_Scheme base ref hs] at hrest
    have hpre : HasPrefix (base.ResolveReference ref).String (ref.Scheme ++ go ":") = true := by
      rw [hrest]; exact HasPrefix_append _ _
    have hskip : isAccessibleLink (goEnv mapLower Head)
        ((goEnv mapLower Head).String ((goEnv mapLower Head).ResolveReference base ref)) w
        = (true, w) := by
      apply isAccessibleLink_skip
      show HasPrefix (base.ResolveReference ref).String (go "mailto:") = true ∨
        HasPrefix (base.ResolveReference ref).String (go "tel:") = true ∨
        HasPrefix (base.ResolveReference ref).String (go "javascript:") = true
      rcases hS with h | h | h
      · left; rw [h] at hpre; exact hpre
      · right; left; rw [h] at hpre; exact hpre
      · right; right; rw [h] at hpre; exact hpre
    exact analyzeLink_skipped (goEnv mapLower Head) n data base w ref h0 hp hskip
  · have hsk : hasSkipPrefix (base.ResolveReference ref).String = false := by
      apply hasSkipPrefix_scheme
      · rw [ResolveReference_Scheme base ref hN.1]; exact hN.1
      · rw [ResolveReference_Scheme base ref hN.1]; exact Parse_Scheme_bytes href ref hparse
      · rw [ResolveReference_Scheme base ref hN.1]; exact hN.2.1
      · rw [ResolveReference_Scheme base ref hN.1]; exact hN.2.2.1
      · rw [ResolveReference_Scheme base ref hN.1]; exact hN.2.2.2
    have := analyzeLink_probed (goEnv mapLower Head) n data base w ref h0 hp hsk
    exact ⟨by rw [this.1]; rfl, this.2⟩
  · have hrel : ref.Scheme = [] ∧ ref.Host = [] ∧ ref.User = none := by
      rcases hB with h | h
      · exact Parse_fragment_only href ref h hparse
      · exact h
    have hro : ref.Opaque = [] := by
      rcases Parse_opaque href ref hparse with h | h
      · exact h
      · exact absurd hrel.1 h.1
    have hbo : base.Opaque = [] := by
      rcases hbase with h | hbase
      · exact h
      · rcases Parse_opaque target base hbase with h | h
        · exact h
        · exact absurd h.2.1 hhost
    have hres : (base.ResolveReference ref).Host = base.Host :=
      ResolveReference_Host_of_relative base ref hrel.1 hrel.2.1 hrel.2.2 hro hbo
    have heq : (goEnv mapLower Head).Host ((goEnv mapLower Head).ResolveReference base ref)
        = (goEnv mapLower Head).Host base := hres
    refine ⟨hres, ?_, ?_⟩
    · rw [hcount.1]; unfold classified; rw [if_pos heq]
    · rw [hcount.2]; unfold classified; rw [if_pos heq]

set_option maxRecDepth 100000 in
/-- C18, amended, with base `https://example.com/a/` on the dead network:
`mailto:x@y.com` is counted external and not probed, `tel:+123` is counted external,
`data:,x` is probed and recorded as a broken link, `#top` and `../b` are counted
internal. -/
theorem c18_scheme_external_relative_internal_witness :
    ((exampleBase.ResolveReference
          { url.URL.zero with Scheme := go "mailto", Opaque := go "x@y.com" }).Host = [] ∧
      (analyzeLink deadEnv (element "a" [attr "href" "mailto:x@y.com"] []) CrawlData.fresh
        exampleBase World.start).1.ExternalLinks = 0 + 1 ∧
      (analyzeLink deadEnv (element "a" [attr "href" "mailto:x@y.com"] []) CrawlData.fresh
        exampleBase World.start).1.InternalLinks = 0) ∧
    ((analyzeLink deadEnv (element "a" [attr "href" "mailto:x@y.com"] []) CrawlData.fresh
        exampleBase World.start).1.BrokenLinks = [] ∧
      (analyzeLink deadEnv (element "a" [attr "href" "mailto:x@y.com"] []) CrawlData.fresh
        exampleBase World.start).2 = World.start) ∧
    (analyzeLink deadEnv (element "a" [attr "href" "tel:+123"] []) CrawlData.fresh
        exampleBase World.start).1.ExternalLinks = 1 ∧
    ((analyzeLink deadEnv (element "a" [attr "href" "data:,x"] []) CrawlData.fresh
        exampleBase World.start).2.heads =
        [] ++ [(exampleBase.ResolveReference
          { url.URL.zero with Scheme := go "data", Opaque := go ",x" }).String] ∧
      (analyzeLink deadEnv (element "a" [attr "href" "data:,x"] []) CrawlData.fresh
        exampleBase World.start).1.BrokenLinks =
        [] ++
          if probeFails (deadNet World.start.net (exampleBase.ResolveReference
              { url.URL.zero with Scheme := go "data", Opaque := go ",x" }).String).1 then
            [brokenEntry (exampleBase.ResolveReference
              { url.URL.zero with Scheme := go "data", Opaque := go ",x" }).String]
          else []) ∧
    (exampleBase.ResolveReference
        { url.URL.zero with Scheme := go "data", Opaque := go ",x" }).String = go "data:,x" ∧
    ((exampleBase.ResolveReference { url.URL.zero with Fragment := go "top" }).Host
        = exampleBase.Host ∧
      (analyzeLink deadEnv (element "a" [attr "href" "#top"] []) CrawlData.fresh
        exampleBase World.start).1.InternalLinks = 0 + 1 ∧
      (analyzeLink deadEnv (element "a" [attr "href" "#top"] []) CrawlData.fresh
        exampleBase World.start).1.ExternalLinks = 0) ∧
    (analyzeLink deadEnv (element "a" [attr "href" "../b"] []) CrawlData.fresh
        exampleBase World.start).1.InternalLinks = 1 :=
  ⟨(c18_scheme_external_relative_internal (fun s => s) deadNet (go "https://example.com/a/")
      exampleBase { url.URL.zero with Scheme := go "mailto", Opaque := go "x@y.com" }
      (element "a" [attr "href" "mailto:x@y.com"] []) (go "mailto:x@y.com") CrawlData.fresh
      World.start (by decide) (by decide) (by decide) (by decide)).1
      (Or.inl (by decide)),
   (c18_scheme_external_relative_internal (fun s => s) deadNet (go "https://example.com/a/")
      exampleBase { url.URL.zero with Scheme := go "mailto", Opaque := go "x@y.com" }
      (element "a" [attr "href" "mailto:x@y.com"] []) (go "mailto:x@y.com") CrawlData.fresh
      World.start (by decide) (by decide) (by decide) (by decide)).2.1
      (Or.inl (by decide)),
   by decide,
   (c18_scheme_external_relative_internal (fun s => s) deadNet (go "https://example.com/a/")
      exampleBase { url.URL.zero with Scheme := go "data", Opaque := go ",x" }
      (element "a" [attr "href" "data:,x"] []) (go "data:,x") CrawlData.fresh
      World.start (by decide) (by decide) (by decide) (by decide)).2.2.1
      ⟨by decide, by decide, by decide, by decide⟩,
   by decide,
   (c18_scheme_external_relative_internal (fun s => s) deadNet (go "https://example.com/a/")
      exampleBase { url.URL.zero with Fragment := go "top" }
      (element "a" [attr "href" "#top"] []) (go "#top") CrawlData.fresh
      World.start (by decide) (by decide) (by decide) (by decide)).2.2.2
      (Or.inl (by decide)) (Or.inr exampleBase_parsed),
   by decide⟩

end Internal

/-! ## Claims about persistence -/

section Persist

variable {U σ δ B : Type}

theorem since_append (s : Store δ) (t : Store δ) (issued : List (Stmt × Bool))
    (h : t.log = s.log ++ issued) : t.since s = issued := by
  unfold Store.since
  rw [h, List.drop_left]

theorem exec_log (sys : Sys U σ δ B) (q : Stmt) (s : Store δ) :
    (exec sys q s).2.log = s.log ++ [(q, (sys.Exec s.db q).1.isSome)] := rfl

/-- The loop over the broken links sends one insert for every element of the list, in
the order of the list, whatever the database answers. -/
theorem insertBrokenLinks_log (sys : Sys U σ δ B) (resultID : Int) :
    ∀ (l : List BrokenLink) (s : Store δ),
      ∃ issued, (insertBrokenLinks sys resultID l s).log = s.log ++ issued ∧
        issued.map Prod.fst =
          l.map (fun b => Stmt.insertBrokenLink resultID b.URL b.StatusCode b.ErrorMessage)
  | [], s => ⟨[], by simp [insertBrokenLinks], rfl⟩
  | b :: rest, s => by
    obtain ⟨issued, h1, h2⟩ := insertBrokenLinks_log sys resultID rest
      (exec sys (Stmt.insertBrokenLink resultID b.URL b.StatusCode b.ErrorMessage) s).2
    refine ⟨(Stmt.insertBrokenLink resultID b.URL b.StatusCode b.ErrorMessage,
      (sys.Exec s.db (Stmt.insertBrokenLink resultID b.URL b.StatusCode
        b.ErrorMessage)).1.isSome) :: issued, ?_, ?_⟩
    · rw [insertBrokenLinks, h1, exec_log]
      simp
    · simp [h2]

/-- C15: when the delete of the prior results, the insert of the aggregate row and the
retrieval of its identifier succeed, `saveResults` returns no error, whichever inserts of
broken links fail, and the statements it sends are the delete, the insert, and one insert
for every element of `BrokenLinks` in list order; when the delete fails it returns an
error after that one statement, and when the aggregate insert fails it returns an error
after those two, so no insert of a broken link is attempted. -/
theorem c15_save_results (sys : Sys U σ δ B) (urlID : Int) (data : CrawlData) (s : Store δ) :
    (∀ (r1 : Option Int) (db1 : δ) (resultID : Int) (db2 : δ),
      sys.Exec s.db (Stmt.deleteResults urlID) = (some r1, db1) →
      sys.Exec db1 (insertResultStmt urlID data) = (some (some resultID), db2) →
      (saveResults sys urlID data s).1 = none ∧
      ((saveResults sys urlID data s).2.since s).map Prod.fst =
        Stmt.deleteResults urlID :: insertResultStmt urlID data ::
          data.BrokenLinks.map
            (fun b => Stmt.insertBrokenLink resultID b.URL b.StatusCode b.ErrorMessage)) ∧
    (∀ (db1 : δ),
      sys.Exec s.db (Stmt.deleteResults urlID) = (none, db1) →
      (saveResults sys urlID data s).1 = some SaveError.deleteFailed ∧
      (saveResults sys urlID data s).2.since s = [(Stmt.deleteResults urlID, false)]) ∧
    (∀ (r1 : Option Int) (db1 db2 : δ),
      sys.Exec s.db (Stmt.deleteResults urlID) = (some r1, db1) →
      sys.Exec db1 (insertResultStmt urlID data) = (none, db2) →
      (saveResults sys urlID data s).1 = some SaveError.insertFailed ∧
      (saveResults sys urlID data s).2.since s =
        [(Stmt.deleteResults urlID, true), (insertResultStmt urlID data, false)]) := by
  refine ⟨?_, ?_, ?_⟩
  · intro r1 db1 resultID db2 hd hi
    obtain ⟨issued, h1, h2⟩ := insertBrokenLinks_log sys resultID data.BrokenLinks
      (exec sys (insertResultStmt urlID data) (exec sys (Stmt.deleteResults urlID) s).2).2
    have hs : saveResults sys urlID data s =
        (none, insertBrokenLinks sys resultID data.BrokenLinks
          (exec sys (insertResultStmt urlID data)
            (exec sys (Stmt.deleteResults urlID) s).2).2) := by
      simp [saveResults, exec, hd, hi]
    rw [hs]
    refine ⟨rfl, ?_⟩
    rw [since_append s _ ((Stmt.deleteResults urlID, true) ::
      (insertResultStmt urlID data, true) :: issued)
      (by rw [h1]; simp [exec, hd, hi])]
    simp [h2]
  · intro db1 hd
    have hs : saveResults sys urlID data s =
        (some SaveError.deleteFailed, (exec sys (Stmt.deleteResults urlID) s).2) := by
      simp [saveResults, exec, hd]
    rw [hs]
    exact ⟨rfl, since_append s _ _ (by simp [exec, hd])⟩
  · intro r1 db1 db2 hd hi
    have hs : saveResults sys urlID data s =
        (some SaveError.insertFailed, (exec sys (insertResultStmt urlID data)
          (exec sys (Stmt.deleteResults urlID) s).2).2) := by
      simp [saveResults, exec, hd, hi]
    rw [hs]
    exact ⟨rfl, since_append s _ _ (by simp [exec, hd, hi])⟩

end Persist

set_option maxRecDepth 100000 in
/-- C15 on a record with three broken links and a database that accepts the delete and
the aggregate insert, returns the identifier 5, and fails the first of the three inserts
of broken links: no error, and all three inserts are attempted in order. -/
theorem c15_save_results_witness :
    (saveResults (pageSys 200 linkPage) 7
        (analyzeHTML deadEnv exampleBase none linkPage (CrawlData.fresh, World.start)).1
        { db := [some (some 0), some (some 5), none], log := [] }).1 = none ∧
    ((saveResults (pageSys 200 linkPage) 7
        (analyzeHTML deadEnv exampleBase none linkPage (CrawlData.fresh, World.start)).1
        { db := [some (some 0), some (some 5), none], log := [] }).2.since
          { db := [some (some 0), some (some 5), none], log := [] }).map Prod.fst =
      (Stmt.deleteResults 7 ::
        insertResultStmt 7
          (analyzeHTML deadEnv exampleBase none linkPage (CrawlData.fresh, World.start)).1 ::
        (analyzeHTML deadEnv exampleBase none linkPage
            (CrawlData.fresh, World.start)).1.BrokenLinks.map
          (fun b => Stmt.insertBrokenLink 5 b.URL b.StatusCode b.ErrorMessage)) ∧
    ((saveResults (pageSys 200 linkPage) 7
        (analyzeHTML deadEnv exampleBase none linkPage (CrawlData.fresh, World.start)).1
        { db := [some (some 0), some (some 5), none], log := [] }).2.since
          { db := [some (some 0), some (some 5), none], log := [] }).map Prod.snd =
      [true, true, false, true, true] :=
  ⟨((c15_save_results (pageSys 200 linkPage) 7
      (analyzeHTML deadEnv exampleBase none linkPage (CrawlData.fresh, World.start)).1
      { db := [some (some 0), some (some 5), none], log := [] }).1
      (some 0) [some (some 5), none] 5 [none] rfl rfl).1,
   ((c15_save_results (pageSys 200 linkPage) 7
      (analyzeHTML deadEnv exampleBase none linkPage (CrawlData.fresh, World.start)).1
      { db := [some (some 0), some (some 5), none], log := [] }).1
      (some 0) [some (some 5), none] 5 [none] rfl rfl).2,
   by decide⟩

section Crawl

variable {U σ δ B : Type}

/-- C13: when the GET succeeds at transport level with a final status other than 200,
`CrawlURL` sends exactly one statement to the database, the update of the job's status
to `failed`: nothing is deleted from or inserted into `crawl_results` or `broken_links`,
and what the run leaves behind does not depend on the parser, so the body is not parsed
and `saveResults` is not called. -/
theorem c13_non200_only_marks_failed (sys : Sys U σ δ B) (urlID : Int) (targetURL : GoString)
    (w : World σ) (s : Store δ) (statusCode : Int) (body : B) (net : σ)
    (hget : sys.Get w.net targetURL = (some (statusCode, body), net))
    (hstatus : statusCode ≠ 200) :
    (CrawlURL sys urlID targetURL w s).2.since s =
      [(Stmt.updateStatus (go "failed") urlID,
        (sys.Exec s.db (Stmt.updateStatus (go "failed") urlID)).1.isSome)] ∧
    (CrawlURL sys urlID targetURL w s).2.db =
      (sys.Exec s.db (Stmt.updateStatus (go "failed") urlID)).2 ∧
    (CrawlURL sys urlID targetURL w s).1 = { w with net := net } ∧
    (∀ e ∈ (CrawlURL sys urlID targetURL w s).2.since s, touchesResults e = false) ∧
    (∀ parser : B → Option Node,
      CrawlURL { sys with ParseHTML := parser } urlID targetURL w s =
        CrawlURL sys urlID targetURL w s) := by
  have hrun : ∀ parser : B → Option Node,
      CrawlURL { sys with ParseHTML := parser } urlID targetURL w s =
        ({ w with net := net }, updateURLStatus sys urlID (go "failed") s) := by
    intro parser
    unfold CrawlURL
    simp only [hget, hstatus, ne_eq, not_false_eq_true, if_true]
    rfl
  have hrun' : CrawlURL sys urlID targetURL w s =
      ({ w with net := net }, updateURLStatus sys urlID (go "failed") s) := hrun sys.ParseHTML
  have hsince : (CrawlURL sys urlID targetURL w s).2.since s =
      [(Stmt.updateStatus (go "failed") urlID,
        (sys.Exec s.db (Stmt.updateStatus (go "failed") urlID)).1.isSome)] := by
    rw [hrun']
    exact since_append s _ _ rfl
  refine ⟨hsince, by rw [hrun']; rfl, by rw [hrun'], ?_, fun parser => by rw [hrun parser, hrun']⟩
  intro e he
  rw [hsince] at he
  simp only [List.mem_singleton] at he
  rw [he]
  rfl

end Crawl

set_option maxRecDepth 100000 in
/-- C13 on a GET answered 404: one statement, the update to `failed`. -/
theorem c13_non200_witness :
    (CrawlURL (pageSys 404 linkPage) 7 (go "https://example.com/a/") World.start
        { db := [], log := [] }).2.since { db := [], log := [] } =
      [(Stmt.updateStatus (go "failed") 7, true)] :=
  (c13_non200_only_marks_failed (pageSys 404 linkPage) 7 (go "https://example.com/a/")
    World.start { db := [], log := [] } 404 () () rfl (by decide)).1

section RunLog

variable {U σ δ B : Type}

/-- What `saveResults` sends are statements on the result tables only. -/
theorem saveResults_issued (sys : Sys U σ δ B) (urlID : Int) (data : CrawlData)
    (s : Store δ) :
    ∃ issued, (saveResults sys urlID data s).2.log = s.log ++ issued ∧
      (∀ e ∈ issued, touchesResults e = true) := by
  rcases hd : sys.Exec s.db (Stmt.deleteResults urlID) with ⟨_ | r1, db1⟩
  · refine ⟨[(Stmt.deleteResults urlID, false)], ?_, ?_⟩
    · simp [saveResults, exec, hd]
    · intro e he; simp only [List.mem_singleton] at he; rw [he]; rfl
  · rcases hi : sys.Exec db1 (insertResultStmt urlID data) with ⟨_ | _ | resultID, db2⟩
    · refine ⟨[(Stmt.deleteResults urlID, true), (insertResultStmt urlID data, false)],
        ?_, ?_⟩
      · simp [saveResults, exec, hd, hi]
      · intro e he
        simp only [List.mem_cons, List.mem_singleton, List.not_mem_nil, or_false] at he
        rcases he with he | he <;> rw [he] <;> rfl
    · refine ⟨[(Stmt.deleteResults urlID, true), (insertResultStmt urlID data, true)],
        ?_, ?_⟩
      · simp [saveResults, exec, hd, hi]
      · intro e he
        simp only [List.mem_cons, List.mem_singleton, List.not_mem_nil, or_false] at he
        rcases he with he | he <;> rw [he] <;> rfl
    · obtain ⟨issued, h1, h2⟩ := insertBrokenLinks_log sys resultID data.BrokenLinks
        (exec sys (insertResultStmt urlID data) (exec sys (Stmt.deleteResults urlID) s).2).2
      have hs : saveResults sys urlID data s =
          (none, insertBrokenLinks sys resultID data.BrokenLinks
            (exec sys (insertResultStmt urlID data)
              (exec sys (Stmt.deleteResults urlID) s).2).2) := by
        simp [saveResults, exec, hd, hi]
      refine ⟨(Stmt.deleteResults urlID, true) :: (insertResultStmt urlID data, true) :: issued,
        ?_, ?_⟩
      · rw [hs, h1]; simp [exec, hd, hi]
      · intro e he
        simp only [List.mem_cons] at he
        rcases he with he | he | he
        · rw [he]; rfl
        · rw [he]; rfl
        · have : e.1 ∈ issued.map Prod.fst := List.mem_map_of_mem Prod.fst he
          rw [h2] at this
          obtain ⟨b, _, hb⟩ := List.mem_map.mp this
          unfold touchesResults
          rw [← hb]

theorem setsStatus_of_touches (status : GoString) (urlID : Int) (e : Stmt × Bool)
    (h : touchesResults e = true) : setsStatus status urlID e = false := by
  unfold touchesResults at h
  unfold setsStatus
  cases he : e.1 <;> simp_all

theorem updateURLStatus_log (sys : Sys U σ δ B) (urlID : Int) (status : GoString)
    (s : Store δ) :
    (updateURLStatus sys urlID status s).log =
      s.log ++ [(Stmt.updateStatus status urlID,
        (sys.Exec s.db (Stmt.updateStatus status urlID)).1.isSome)] := rfl

end RunLog

/-! ## The store of a failed run -/

section CrawlCases
variable {U σ δ B : Type}

theorem CrawlURL_cases (sys : Sys U σ δ B) (urlID : Int) (targetURL : GoString)
    (w : World σ) (s : Store δ) :
    (CrawlURL sys urlID targetURL w s).2 = updateURLStatus sys urlID (go "failed") s ∨
    ∃ body net doc baseURL,
      sys.Get w.net targetURL = (some (200, body), net) ∧ sys.ParseHTML body = some doc ∧
      sys.Parse targetURL = some baseURL ∧
      (((saveResults sys urlID
          (analyzeHTML sys.toEnv baseURL none doc (CrawlData.fresh, { w with net := net })).1
          s).1 = none ∧
        (CrawlURL sys urlID targetURL w s).2 = updateURLStatus sys urlID (go "completed")
          (saveResults sys urlID
            (analyzeHTML sys.toEnv baseURL none doc
              (CrawlData.fresh, { w with net := net })).1 s).2) ∨
       ((saveResults sys urlID
          (analyzeHTML sys.toEnv baseURL none doc (CrawlData.fresh, { w with net := net })).1
          s).1 ≠ none ∧
        (CrawlURL sys urlID targetURL w s).2 = updateURLStatus sys urlID (go "failed")
          (saveResults sys urlID
            (analyzeHTML sys.toEnv baseURL none doc
              (CrawlData.fresh, { w with net := net })).1 s).2)) := by
  rcases hget : sys.Get w.net targetURL with ⟨_ | ⟨statusCode, body⟩, net⟩
  · left; simp only [CrawlURL, hget]
  · by_cases hst : statusCode = 200
    · subst hst
      cases hparse : sys.ParseHTML body with
      | none =>
        left; simp only [CrawlURL, hget, hparse, ne_eq, not_true_eq_false, if_false]
      | some doc =>
        cases hbase : sys.Parse targetURL with
        | none =>
          left
          simp only [CrawlURL, hget, hparse, hbase, ne_eq, not_true_eq_false, if_false]
        | some baseURL =>
          right
          refine ⟨body, net, doc, baseURL, rfl, hparse, rfl, ?_⟩
          rcases hsave : saveResults sys urlID
              (analyzeHTML sys.toEnv baseURL none doc
                (CrawlData.fresh, { w with net := net })).1 s with ⟨_ | err, s'⟩
          · left
            refine ⟨rfl, ?_⟩
            simp only [CrawlURL, hget, hparse, hbase, hsave, ne_eq, not_true_eq_false, if_false]
          · right
            refine ⟨by simp, ?_⟩
            simp only [CrawlURL, hget, hparse, hbase, hsave, ne_eq, not_true_eq_false, if_false]
    · left; simp only [CrawlURL, hget, hst, ne_eq, not_false_eq_true, if_true]

end CrawlCases

section MySQLStore
variable {U σ B : Type}

theorem mysqlExec_refused (refused : MySQL → Stmt → Bool) (db : MySQL) (q : Stmt)
    (h : (mysqlExec refused db q).1 = none) :
    (mysqlExec refused db q).2.crawl_results = db.crawl_results := by
  unfold mysqlExec at h ⊢
  split
  · rfl
  · rename_i hr; rw [if_neg hr] at h; cases h

theorem mysqlExec_answer (refused : MySQL → Stmt → Bool) (db : MySQL) (q : Stmt) :
    (mysqlExec refused db q).1 ≠ some none := by
  unfold mysqlExec
  split <;> simp

theorem mysqlExec_update (refused : MySQL → Stmt → Bool) (db : MySQL) (status : GoString)
    (urlID : Int) :
    (mysqlExec refused db (Stmt.updateStatus status urlID)).2.crawl_results
      = db.crawl_results := by
  unfold mysqlExec
  split <;> rfl

theorem mysqlExec_delete (refused : MySQL → Stmt → Bool) (db : MySQL) (urlID : Int)
    (r : Option Int) (h : (mysqlExec refused db (Stmt.deleteResults urlID)).1 = some r) :
    (mysqlExec refused db (Stmt.deleteResults urlID)).2.crawl_results
      = db.crawl_results.filter (fun r => decide (r.url_id ≠ urlID)) := by
  unfold mysqlExec at h ⊢
  split
  · rename_i hr; rw [if_pos hr] at h; cases h
  · rfl

theorem updateURLStatus_rows (env : Env U σ) (Get : σ → GoString → Option (Int × B) × σ)
    (ParseHTML : B → Option Node) (refused : MySQL → Stmt → Bool) (urlID : Int)
    (status : GoString) (s : Store MySQL) :
    (updateURLStatus (mysqlSys env Get ParseHTML refused) urlID status s).db.crawl_results
      = s.db.crawl_results :=
  mysqlExec_update refused s.db status urlID

/-- On the MySQL server, when `saveResults` returns an error the table `crawl_results`
is as it was, or has lost the rows of the job and gained none. -/
theorem saveResults_error_rows (env : Env U σ) (Get : σ → GoString → Option (Int × B) × σ)
    (ParseHTML : B → Option Node) (refused : MySQL → Stmt → Bool) (urlID : Int)
    (data : CrawlData) (s : Store MySQL)
    (h : (saveResults (mysqlSys env Get ParseHTML refused) urlID data s).1 ≠ none) :
    (saveResults (mysqlSys env Get ParseHTML refused) urlID data s).2.db.crawl_results
        = s.db.crawl_results ∨
    (saveResults (mysqlSys env Get ParseHTML refused) urlID data s).2.db.crawl_results
        = s.db.crawl_results.filter (fun r => decide (r.url_id ≠ urlID)) := by
  rcases hd : mysqlExec refused s.db (Stmt.deleteResults urlID) with ⟨_ | r1, db1⟩
  · have h1 := mysqlExec_refused refused s.db (Stmt.deleteResults urlID) (by rw [hd])
    rw [hd] at h1
    left
    have : (saveResults (mysqlSys env Get ParseHTML refused) urlID data s).2.db = db1 := by
      simp [saveResults, exec, mysqlSys, hd]
    rw [this]; exact h1
  · have h1 := mysqlExec_delete refused s.db urlID r1 (by rw [hd])
    rw [hd] at h1
    simp only at h1
    rcases hi : mysqlExec refused db1 (insertResultStmt urlID data) with ⟨_ | _ | resultID, db2⟩
    · have h2 := mysqlExec_refused refused db1 (insertResultStmt urlID data) (by rw [hi])
      rw [hi] at h2
      simp only at h2
      right
      have : (saveResults (mysqlSys env Get ParseHTML refused) urlID data s).2.db = db2 := by
        simp [saveResults, exec, mysqlSys, hd, hi]
      rw [this, h2, h1]
    · exact absurd (by rw [hi]) (mysqlExec_answer refused db1 (insertResultStmt urlID data))
    · exfalso; apply h
      simp [saveResults, exec, mysqlSys, hd, hi]

end MySQLStore

/-- C14: on the MySQL server, whatever the pattern of persistence failures, a run of
`CrawlURL` that sets the status of the job to `failed` has written no row: the table
`crawl_results` is as it was before the run, or has lost the rows of the job and gained
none, so every row of the job it holds was there before the run. And a run sets the
status to `completed` only when the fetch returned 200, the body parsed, the base URL
parsed and `saveResults` returned no error. -/
theorem c14_failed_run_writes_no_row {U σ B : Type} (env : Env U σ)
    (Get : σ → GoString → Option (Int × B) × σ) (ParseHTML : B → Option Node)
    (refused : MySQL → Stmt → Bool) (urlID : Int) (targetURL : GoString) (w : World σ)
    (s : Store MySQL) :
    (((CrawlURL (mysqlSys env Get ParseHTML refused) urlID targetURL w s).2.since s).any
        (setsStatus (go "failed") urlID) = true →
      ((CrawlURL (mysqlSys env Get ParseHTML refused) urlID targetURL w
            s).2.db.crawl_results = s.db.crawl_results ∨
        (CrawlURL (mysqlSys env Get ParseHTML refused) urlID targetURL w
            s).2.db.crawl_results
          = s.db.crawl_results.filter (fun r => decide (r.url_id ≠ urlID))) ∧
      ∀ row ∈ (CrawlURL (mysqlSys env Get ParseHTML refused) urlID targetURL w
          s).2.db.crawl_results,
        row.url_id = urlID → row ∈ s.db.crawl_results) ∧
    (((CrawlURL (mysqlSys env Get ParseHTML refused) urlID targetURL w s).2.since s).any
        (setsStatus (go "completed") urlID) = true →
      ∃ body net doc baseURL,
        Get w.net targetURL = (some (200, body), net) ∧ ParseHTML body = some doc ∧
        env.Parse targetURL = some baseURL ∧
        (saveResults (mysqlSys env Get ParseHTML refused) urlID
          (analyzeHTML env baseURL none doc (CrawlData.fresh, { w with net := net })).1
          s).1 = none) := by
  have hfc : go "failed" ≠ go "completed" := by decide
  have hmem : ∀ rows : List ResultRow,
      (rows = s.db.crawl_results ∨
        rows = s.db.crawl_results.filter (fun r => decide (r.url_id ≠ urlID))) →
      ∀ row ∈ rows, row.url_id = urlID → row ∈ s.db.crawl_results := by
    intro rows hrows row hrow hid
    rcases hrows with h | h
    · rw [h] at hrow; exact hrow
    · rw [h] at hrow
      simp [hid] at hrow
  rcases CrawlURL_cases (mysqlSys env Get ParseHTML refused) urlID targetURL w s with h |
    ⟨body, net, doc, baseURL, hget, hparse, hbase, hcase⟩
  · constructor
    · intro _
      have hrows : (CrawlURL (mysqlSys env Get ParseHTML refused) urlID targetURL w
          s).2.db.crawl_results = s.db.crawl_results := by
        rw [h, updateURLStatus_rows]
      exact ⟨Or.inl hrows, hmem _ (Or.inl hrows)⟩
    · intro hc
      rw [h, since_append s _ _ (updateURLStatus_log _ urlID _ s)] at hc
      simp [setsStatus, hfc] at hc
  · obtain ⟨issued, hlog, htouch⟩ := saveResults_issued
      (mysqlSys env Get ParseHTML refused) urlID
      (analyzeHTML (mysqlSys env Get ParseHTML refused).toEnv baseURL none doc
        (CrawlData.fresh, { w with net := net })).1 s
    have hnostatus : ∀ status, issued.any (setsStatus status urlID) = false := by
      intro status
      rw [List.any_eq_false]
      intro e he
      rw [setsStatus_of_touches status urlID e (htouch e he)]
      simp
    rcases hcase with ⟨hnone, hrun⟩ | ⟨hsome, hrun⟩
    · constructor
      · intro hf
        exfalso
        rw [hrun, since_append s _ (issued ++ [(Stmt.updateStatus (go "completed") urlID, _)])
          (by rw [updateURLStatus_log, hlog, List.append_assoc]),
          List.any_append, hnostatus] at hf
        simp [setsStatus, hfc.symm] at hf
      · intro _
        exact ⟨body, net, doc, baseURL, hget, hparse, hbase, hnone⟩
    · constructor
      · intro _
        have hrows := saveResults_error_rows env Get ParseHTML refused urlID _ s hsome
        rw [← updateURLStatus_rows env Get ParseHTML refused urlID (go "failed"), ← hrun]
          at hrows
        exact ⟨hrows, hmem _ hrows⟩
      · intro hc
        exfalso
        rw [hrun, since_append s _ (issued ++ [(Stmt.updateStatus (go "failed") urlID, _)])
          (by rw [updateURLStatus_log, hlog, List.append_assoc]),
          List.any_append, hnostatus] at hc
        simp [setsStatus, hfc] at hc

set_option maxRecDepth 100000 in
/-- C14 at three runs for job 7 on a server that holds an earlier row of the job: with
the aggregate insert refused the run sets `failed` and the table is left without a row
of the job; with the delete refused the run sets `failed` and the table is as it was; and
the run that sets `completed` had every step succeed, and has replaced the row of the
job by a new one. -/
theorem c14_failed_run_writes_no_row_witness :
    (CrawlURL (mysqlPageSys 200 twoTitles refuseInsert) 7
        (go "https://example.com/a/") World.start
        { db := exampleServer, log := [] }).2.log =
      [(Stmt.deleteResults 7, true),
       (Stmt.insertResult 7 (go "Second") (go "HTML5") 0 0 0 0 0 0 0 0 0 false, false),
       (Stmt.updateStatus (go "failed") 7, true)] ∧
    (∀ row ∈ (CrawlURL (mysqlPageSys 200 twoTitles refuseInsert) 7
        (go "https://example.com/a/") World.start
        { db := exampleServer, log := [] }).2.db.crawl_results,
      row.url_id = 7 → row ∈ exampleServer.crawl_results) ∧
    (CrawlURL (mysqlPageSys 200 twoTitles refuseInsert) 7
        (go "https://example.com/a/") World.start
        { db := exampleServer, log := [] }).2.db.crawl_results
      = exampleServer.crawl_results.drop 1 ∧
    (CrawlURL (mysqlPageSys 200 twoTitles (refuseNth 0)) 7
        (go "https://example.com/a/") World.start
        { db := exampleServer, log := [] }).2.log =
      [(Stmt.deleteResults 7, false), (Stmt.updateStatus (go "failed") 7, true)] ∧
    (∀ row ∈ (CrawlURL (mysqlPageSys 200 twoTitles (refuseNth 0)) 7
        (go "https://example.com/a/") World.start
        { db := exampleServer, log := [] }).2.db.crawl_results,
      row.url_id = 7 → row ∈ exampleServer.crawl_results) ∧
    (CrawlURL (mysqlPageSys 200 twoTitles (refuseNth 0)) 7
        (go "https://example.com/a/") World.start
        { db := exampleServer, log := [] }).2.db.crawl_results
      = exampleServer.crawl_results ∧
    (CrawlURL (mysqlPageSys 200 twoTitles (fun _ _ => false)) 7
        (go "https://example.com/a/") World.start
        { db := exampleServer, log := [] }).2.db.crawl_results
      = exampleServer.crawl_results.drop 1 ++ [
        { id := 3, url_id := 7, title := go "Second", html_version := go "HTML5",
          h1_count := 0, h2_count := 0, h3_count := 0, h4_count := 0, h5_count := 0,
          h6_count := 0, internal_links := 0, external_links := 0, inaccessible_links := 0,
          has_login_form := false }] ∧
    (∃ body net doc baseURL,
      (fun (net : Unit) (_ : GoString) => (some ((200 : Int), ()), net)) World.start.net
          (go "https://example.com/a/") = (some (200, body), net) ∧
      (fun (_ : Unit) => some twoTitles) body = some doc ∧
      deadEnv.Parse (go "https://example.com/a/") = some baseURL ∧
      (saveResults (mysqlSys deadEnv (fun net _ => (some (200, ()), net))
          (fun _ => some twoTitles) (fun _ _ => false)) 7
        (analyzeHTML deadEnv baseURL none doc
          (CrawlData.fresh, { World.start with net := net })).1
        { db := exampleServer, log := [] }).1 = none) :=
  ⟨by decide,
   ((c14_failed_run_writes_no_row deadEnv (fun net _ => (some (200, ()), net))
      (fun _ => some twoTitles) refuseInsert 7 (go "https://example.com/a/") World.start
      { db := exampleServer, log := [] }).1 (by decide)).2,
   by decide,
   by decide,
   ((c14_failed_run_writes_no_row deadEnv (fun net _ => (some (200, ()), net))
      (fun _ => some twoTitles) (refuseNth 0) 7 (go "https://example.com/a/") World.start
      { db := exampleServer, log := [] }).1 (by decide)).2,
   by decide,
   by decide,
   (c14_failed_run_writes_no_row deadEnv (fun net _ => (some (200, ()), net))
      (fun _ => some twoTitles) (fun _ _ => false) 7 (go "https://example.com/a/")
      World.start { db := exampleServer, log := [] }).2 (by decide)⟩

/-! ## The text content of a node -/

section Trim

theorem trimLeftSpace_of_none (encs : List GoString) (fuel : Nat) (s : GoString)
    (h : leadingSpace encs s = none) : trimLeftSpace encs fuel s = s := by
  cases fuel with
  | zero => rfl
  | succ n => simp [trimLeftSpace, h]

theorem trimLeftSpace_suffix (encs : List GoString) :
    ∀ (fuel : Nat) (s : GoString), ∃ pre, s = pre ++ trimLeftSpace encs fuel s
  | 0, s => ⟨[], rfl⟩
  | fuel + 1, s => by
    unfold trimLeftSpace
    cases h : leadingSpace encs s with
    | none => exact ⟨[], rfl⟩
    | some k =>
      by_cases hk : k = 0
      · simp only [hk, if_true]; exact ⟨[], rfl⟩
      · simp only [hk, if_false]
        obtain ⟨pre, hpre⟩ := trimLeftSpace_suffix encs fuel (s.drop k)
        refine ⟨s.take k ++ pre, ?_⟩
        rw [List.append_assoc, ← hpre, List.take_append_drop]

theorem leadingSpace_pos (encs : List GoString) (hne : ∀ e ∈ encs, e ≠ []) (s : GoString)
    (k : Nat) (h : leadingSpace encs s = some k) : 0 < k := by
  unfold leadingSpace at h
  cases hf : encs.find? (fun e => e.isPrefixOf s) with
  | none => rw [hf] at h; cases h
  | some e =>
    rw [hf] at h
    simp only [Option.map_some', Option.some.injEq] at h
    have he : e ∈ encs := List.mem_of_find?_eq_some hf
    have := hne e he
    rw [← h]
    exact List.length_pos.mpr this

theorem leadingSpace_nil (encs : List GoString) (hne : ∀ e ∈ encs, e ≠ []) :
    leadingSpace encs [] = none := by
  unfold leadingSpace
  have : encs.find? (fun e => e.isPrefixOf ([] : GoString)) = none := by
    rw [List.find?_eq_none]
    intro e he
    have := hne e he
    cases e with
    | nil => exact absurd rfl this
    | cons c rest => simp [List.isPrefixOf]
  rw [this]; rfl

/-- With fuel for every byte, trimming stops at a string that begins with no white
space. -/
theorem trimLeftSpace_done (encs : List GoString) (hne : ∀ e ∈ encs, e ≠ []) :
    ∀ (fuel : Nat) (s : GoString), s.length ≤ fuel →
      leadingSpace encs (trimLeftSpace encs fuel s) = none
  | 0, s, h => by
    have : s = [] := List.length_eq_zero.mp (Nat.le_zero.mp h)
    rw [this]
    exact leadingSpace_nil encs hne
  | fuel + 1, s, h => by
    unfold trimLeftSpace
    cases hl : leadingSpace encs s with
    | none => exact hl
    | some k =>
      have hk := leadingSpace_pos encs hne s k hl
      have hk0 : k ≠ 0 := by omega
      simp only [hk0, if_false]
      apply trimLeftSpace_done encs hne fuel
      rw [List.length_drop]
      omega

end Trim

section TrimBasics

theorem spaceEncodings_ne_nil : ∀ e ∈ spaceEncodings, e ≠ [] := by decide

theorem spaceEncodings_reverse_ne_nil : ∀ e ∈ spaceEncodings.map List.reverse, e ≠ [] := by
  decide

theorem extractTextChildren_eq (cs : List Node) :
    extractTextChildren cs = (cs.map extractTextContent).flatten := by
  induction cs with
  | nil => rfl
  | cons c rest ih => simp [extractTextChildren, ih]

end TrimBasics

section Apart

theorem leadingSpace_eq_none (encs : List GoString) (s : GoString) :
    leadingSpace encs s = none ↔ ∀ e ∈ encs, ¬ e <+: s := by
  unfold leadingSpace
  rw [Option.map_eq_none', List.find?_eq_none]
  constructor
  · intro h e he hp
    exact h e he (List.isPrefixOf_iff_prefix.mpr hp)
  · intro h e he hp
    exact h e he (List.isPrefixOf_iff_prefix.mp hp)

theorem apart_nil (encs : List GoString) : apart encs [] := Or.inl rfl

theorem apart_append (encs : List GoString) (a b : GoString) (ha : apart encs a)
    (hb : apart encs b) : apart encs (a ++ b) := by
  rcases ha with rfl | ha
  · simpa using hb
  · by_cases hnil : a = []
    · subst hnil; simpa using hb
    · right
      intro e he
      refine ⟨fun hp => ?_, fun hp => (ha e he).2 ((List.prefix_append a b).trans hp)⟩
      rcases Nat.le_total e.length a.length with hl | hl
      · exact (ha e he).1 (List.prefix_of_prefix_length_le hp (List.prefix_append a b) hl)
      · exact (ha e he).2 (List.prefix_of_prefix_length_le (List.prefix_append a b) hp hl)

theorem leadingSpace_of_apart (encs : List GoString) (hne : ∀ e ∈ encs, e ≠ [])
    (x : GoString) (h : apart encs x) : leadingSpace encs x = none := by
  rcases h with rfl | h
  · exact leadingSpace_nil encs hne
  · exact (leadingSpace_eq_none encs x).mpr (fun e he => (h e he).1)

/-- `TrimSpace` leaves a string alone that begins and ends with no white space. -/
theorem TrimSpace_of_untrimmable (x : GoString)
    (h1 : leadingSpace spaceEncodings x = none)
    (h2 : leadingSpace (spaceEncodings.map List.reverse) x.reverse = none) :
    TrimSpace x = x := by
  unfold TrimSpace
  simp only [trimLeftSpace_of_none _ _ _ h1, trimLeftSpace_of_none _ _ _ h2,
    List.reverse_reverse]

/-- The result of `TrimSpace` begins with no white space and ends with none. -/
theorem TrimSpace_trimmed (d : GoString) :
    leadingSpace spaceEncodings (TrimSpace d) = none ∧
    leadingSpace (spaceEncodings.map List.reverse) (TrimSpace d).reverse = none := by
  unfold TrimSpace
  dsimp only
  have hdone := trimLeftSpace_done spaceEncodings spaceEncodings_ne_nil d.length d (le_refl _)
  generalize trimLeftSpace spaceEncodings d.length d = l at hdone ⊢
  obtain ⟨pre', hpre'⟩ :=
    trimLeftSpace_suffix (spaceEncodings.map List.reverse) l.length l.reverse
  have hdone' := trimLeftSpace_done (spaceEncodings.map List.reverse)
    spaceEncodings_reverse_ne_nil l.length l.reverse (by simp)
  generalize trimLeftSpace (spaceEncodings.map List.reverse) l.length l.reverse = r
    at hpre' hdone' ⊢
  have hl : l = r.reverse ++ pre'.reverse := by
    have := congrArg List.reverse hpre'
    rw [List.reverse_reverse, List.reverse_append] at this
    exact this
  refine ⟨?_, by rw [List.reverse_reverse]; exact hdone'⟩
  rw [leadingSpace_eq_none] at hdone ⊢
  intro e he hp
  exact hdone e he (hp.trans (by rw [hl]; exact List.prefix_append _ _))

theorem spaceFragment_eq_false (p : GoString) (h : spaceFragment p = false) :
    p = [] ∨ ∀ e ∈ spaceEncodings, ¬ p <+: e ∧ ¬ p <:+ e := by
  unfold spaceFragment at h
  by_cases hp : p = []
  · exact Or.inl hp
  · right
    intro e he
    have hemp : p.isEmpty = false := by
      cases p with
      | nil => exact absurd rfl hp
      | cons _ _ => rfl
    rw [hemp] at h
    simp only [Bool.not_false, Bool.true_and, List.any_eq_false, Bool.or_eq_true, not_or] at h
    have := h e he
    refine ⟨fun hpre => this.1 (List.isPrefixOf_iff_prefix.mpr hpre),
      fun hsuf => this.2 (List.isSuffixOf_iff_suffix.mpr hsuf)⟩

/-- A trimmed text node that is no fragment of a white-space encoding stays apart from
the encodings at both of its ends. -/
theorem apart_TrimSpace (d : GoString) (h : spaceFragment (TrimSpace d) = false) :
    apart spaceEncodings (TrimSpace d) ∧
    apart (spaceEncodings.map List.reverse) (TrimSpace d).reverse := by
  have ht := TrimSpace_trimmed d
  rw [leadingSpace_eq_none, leadingSpace_eq_none] at ht
  rcases spaceFragment_eq_false _ h with h0 | hf
  · rw [h0]; exact ⟨Or.inl rfl, Or.inl rfl⟩
  · refine ⟨Or.inr (fun e he => ⟨ht.1 e he, (hf e he).1⟩), Or.inr (fun e he => ?_)⟩
    obtain ⟨e', he', rfl⟩ := List.mem_map.mp he
    refine ⟨ht.2 _ he, fun hp => (hf e' he').2 ?_⟩
    exact List.reverse_prefix.mp hp

end Apart

section Flat

mutual
/-- When every trimmed text node stays apart from the white-space encodings, the text
content of a node is the concatenation of its trimmed text nodes. -/
theorem extractTextContent_flat :
    ∀ n : Node, (∀ d ∈ textNodes n, apart spaceEncodings (TrimSpace d) ∧
        apart (spaceEncodings.map List.reverse) (TrimSpace d).reverse) →
      extractTextContent n = ((textNodes n).map TrimSpace).flatten ∧
        apart spaceEncodings (extractTextContent n) ∧
        apart (spaceEncodings.map List.reverse) (extractTextContent n).reverse
  | .mk t d attrs cs, h => by
    by_cases ht : t = NodeType.TextNode
    · have hd := h d (by simp [textNodes, ht])
      simp only [extractTextContent, textNodes, ht, if_true, List.map_cons, List.map_nil,
        List.flatten_cons, List.flatten_nil, List.append_nil]
      exact ⟨trivial, hd.1, hd.2⟩
    · have hcs : ∀ d ∈ textNodesChildren cs, apart spaceEncodings (TrimSpace d) ∧
          apart (spaceEncodings.map List.reverse) (TrimSpace d).reverse := by
        intro d' hd'
        exact h d' (by simpa [textNodes, ht] using hd')
      have ih := extractTextChildren_flat cs hcs
      simp only [extractTextContent, textNodes, ht, if_false]
      rw [TrimSpace_of_untrimmable _
        (leadingSpace_of_apart _ spaceEncodings_ne_nil _ ih.2.1)
        (leadingSpace_of_apart _ spaceEncodings_reverse_ne_nil _ ih.2.2)]
      exact ih
theorem extractTextChildren_flat :
    ∀ cs : List Node, (∀ d ∈ textNodesChildren cs, apart spaceEncodings (TrimSpace d) ∧
        apart (spaceEncodings.map List.reverse) (TrimSpace d).reverse) →
      extractTextChildren cs = ((textNodesChildren cs).map TrimSpace).flatten ∧
        apart spaceEncodings (extractTextChildren cs) ∧
        apart (spaceEncodings.map List.reverse) (extractTextChildren cs).reverse
  | [], _ => ⟨rfl, Or.inl rfl, Or.inl rfl⟩
  | c :: rest, h => by
    have h1 := extractTextContent_flat c (fun d hd => h d (by
      simp only [textNodesChildren, List.mem_append]; exact Or.inl hd))
    have h2 := extractTextChildren_flat rest (fun d hd => h d (by
      simp only [textNodesChildren, List.mem_append]; exact Or.inr hd))
    refine ⟨?_, ?_, ?_⟩
    · simp only [extractTextChildren, textNodesChildren, List.map_append, List.flatten_append]
      rw [h1.1, h2.1]
    · exact apart_append _ _ _ h1.2.1 h2.2.1
    · simp only [extractTextChildren, List.reverse_append]
      exact apart_append _ _ _ h2.2.2 h1.2.2
end

end Flat

theorem utf8Valid_cons (b0 : UInt8) (rest : GoString) :
    utf8Valid (b0 :: rest) =
      if b0 < 0x80 then utf8Valid rest
      else if 0xC2 ≤ b0 ∧ b0 ≤ 0xDF then
        match rest with
        | b1 :: rest1 => continuation b1 && utf8Valid rest1
        | [] => false
      else if 0xE0 ≤ b0 ∧ b0 ≤ 0xEF then
        match rest with
        | b1 :: rest1 =>
          secondByte b0 b1 &&
            (match rest1 with
              | b2 :: rest2 => continuation b2 && utf8Valid rest2
              | [] => false)
        | [] => false
      else if 0xF0 ≤ b0 ∧ b0 ≤ 0xF4 then
        match rest with
        | b1 :: rest1 =>
          secondByte b0 b1 &&
            (match rest1 with
              | b2 :: rest2 =>
                continuation b2 &&
                  (match rest2 with
                    | b3 :: rest3 => continuation b3 && utf8Valid rest3
                    | [] => false)
              | [] => false)
        | [] => false
      else false := by
  conv => lhs; unfold utf8Valid
  rfl

example (s : GoString) : utf8Valid (226 :: 128 :: 131 :: s) = utf8Valid s := by
  simp +decide [utf8Valid_cons, secondByte, continuation]

section UTF8

/-- What `trimLeftSpace` removes is a sequence of encodings. -/
theorem trimLeftSpace_peeled (encs : List GoString) :
    ∀ (fuel : Nat) (s : GoString), ∃ es : List GoString, (∀ e ∈ es, e ∈ encs) ∧
      s = es.flatten ++ trimLeftSpace encs fuel s
  | 0, s => ⟨[], fun _ h => (by cases h), rfl⟩
  | fuel + 1, s => by
    unfold trimLeftSpace
    cases h : leadingSpace encs s with
    | none => exact ⟨[], fun _ h => (by cases h), rfl⟩
    | some k =>
      by_cases hk : k = 0
      · simp only [hk, if_true]; exact ⟨[], fun _ h => (by cases h), rfl⟩
      · simp only [hk, if_false]
        unfold leadingSpace at h
        cases hf : encs.find? (fun e => e.isPrefixOf s) with
        | none => rw [hf] at h; cases h
        | some e =>
          rw [hf] at h
          simp only [Option.map_some', Option.some.injEq] at h
          have he : e ∈ encs := List.mem_of_find?_eq_some hf
          have hp : e <+: s := List.isPrefixOf_iff_prefix.mp (by
            have := List.find?_some hf
            simpa using this)
          obtain ⟨t, ht⟩ := hp
          have hdrop : s.drop k = t := by
            rw [← ht, ← h, List.drop_left]
          obtain ⟨es, hes, hrest⟩ := trimLeftSpace_peeled encs fuel (s.drop k)
          refine ⟨e :: es, ?_, ?_⟩
          · intro x hx
            rcases List.mem_cons.mp hx with rfl | hx
            · exact he
            · exact hes x hx
          · rw [List.flatten_cons, List.append_assoc, ← hrest, hdrop, ht]

set_option maxRecDepth 100000 in
/-- A white-space encoding is one well-formed sequence: it can be dropped from the front
of a string without a change of validity. -/
theorem utf8Valid_space (e : GoString) (he : e ∈ spaceEncodings) (s : GoString) :
    utf8Valid (e ++ s) = utf8Valid s := by
  simp only [spaceEncodings, List.mem_cons, List.mem_singleton, List.not_mem_nil,
    or_false] at he
  rcases he with rfl | rfl | rfl | rfl | rfl | rfl | rfl | rfl | rfl | rfl | rfl | rfl | rfl |
    rfl | rfl | rfl | rfl | rfl | rfl | rfl | rfl | rfl | rfl | rfl | rfl <;>
  simp +decide [utf8Valid_cons, secondByte, continuation]

theorem utf8Valid_spaces (es : List GoString) (hes : ∀ e ∈ es, e ∈ spaceEncodings)
    (s : GoString) : utf8Valid (es.flatten ++ s) = utf8Valid s := by
  induction es with
  | nil => rfl
  | cons e rest ih =>
    rw [List.flatten_cons, List.append_assoc,
      utf8Valid_space e (hes e (List.mem_cons_self _ _))]
    exact ih (fun x hx => hes x (List.mem_cons_of_mem _ hx))

/-- What was trimmed off the end begins, read forwards, with an encoding. -/
theorem reverse_flatten_head (es : List GoString)
    (hes : ∀ e ∈ es, e ∈ spaceEncodings.map List.reverse) :
    es.flatten.reverse = [] ∨ ∃ e ∈ spaceEncodings, ∃ t, es.flatten.reverse = e ++ t := by
  induction es with
  | nil => exact Or.inl rfl
  | cons el rest ih =>
    right
    rw [List.flatten_cons, List.reverse_append]
    rcases ih (fun x hx => hes x (List.mem_cons_of_mem _ hx)) with h | ⟨e, he, t, h⟩
    · obtain ⟨e, he, hel⟩ := List.mem_map.mp (hes el (List.mem_cons_self _ _))
      refine ⟨e, he, [], ?_⟩
      rw [h, ← hel, List.reverse_reverse]; simp
    · exact ⟨e, he, t ++ el.reverse, by rw [h, List.append_assoc]⟩

/-- A string is white space, its trimmed middle, and white space. -/
theorem TrimSpace_peeled (d : GoString) :
    ∃ (es : List GoString) (post : GoString), (∀ e ∈ es, e ∈ spaceEncodings) ∧
      d = es.flatten ++ (TrimSpace d ++ post) ∧
      (post = [] ∨ ∃ e ∈ spaceEncodings, ∃ t, post = e ++ t) := by
  unfold TrimSpace
  dsimp only
  obtain ⟨es, hes, hd⟩ := trimLeftSpace_peeled spaceEncodings d.length d
  generalize trimLeftSpace spaceEncodings d.length d = l at hd ⊢
  obtain ⟨es', hes', hl⟩ :=
    trimLeftSpace_peeled (spaceEncodings.map List.reverse) l.length l.reverse
  generalize trimLeftSpace (spaceEncodings.map List.reverse) l.length l.reverse = r
    at hl ⊢
  have hl' : l = r.reverse ++ es'.flatten.reverse := by
    have := congrArg List.reverse hl
    rw [List.reverse_reverse, List.reverse_append] at this
    exact this
  exact ⟨es, es'.flatten.reverse, hes, by rw [← hl']; exact hd,
    reverse_flatten_head es' hes'⟩

end UTF8

theorem continuation_bounds (c : UInt8) (h : continuation c = true) :
    128 ≤ c.toBitVec.toNat ∧ c.toBitVec.toNat ≤ 191 := by
  unfold continuation at h
  simp only [Bool.and_eq_true, decide_eq_true_eq] at h
  have h1 := h.1
  have h2 := h.2
  rw [UInt8.le_def, BitVec.le_def] at h1 h2
  have e1 : (UInt8.toBitVec 0x80).toNat = 128 := by decide
  have e2 : (UInt8.toBitVec 0xBF).toNat = 191 := by decide
  rw [e1] at h1; rw [e2] at h2
  exact ⟨h1, h2⟩

/-- No well-formed sequence begins with a continuation byte. -/
theorem utf8Valid_continuation (c : UInt8) (t : GoString) (h : continuation c = true) :
    utf8Valid (c :: t) = false := by
  have hb := continuation_bounds c h
  have h1 : ¬ c < 0x80 := by
    rw [UInt8.lt_def, BitVec.lt_def]
    have e : (UInt8.toBitVec 0x80).toNat = 128 := by decide
    rw [e]; omega
  have h2 : ¬ (0xC2 ≤ c ∧ c ≤ 0xDF) := by
    intro h'
    have := h'.1
    rw [UInt8.le_def, BitVec.le_def] at this
    have e : (UInt8.toBitVec 0xC2).toNat = 194 := by decide
    rw [e] at this; omega
  have h3 : ¬ (0xE0 ≤ c ∧ c ≤ 0xEF) := by
    intro h'
    have := h'.1
    rw [UInt8.le_def, BitVec.le_def] at this
    have e : (UInt8.toBitVec 0xE0).toNat = 224 := by decide
    rw [e] at this; omega
  have h4 : ¬ (0xF0 ≤ c ∧ c ≤ 0xF4) := by
    intro h'
    have := h'.1
    rw [UInt8.le_def, BitVec.le_def] at this
    have e : (UInt8.toBitVec 0xF0).toNat = 240 := by decide
    rw [e] at this; omega
  rw [utf8Valid_cons, if_neg h1, if_neg h2, if_neg h3, if_neg h4]

set_option maxRecDepth 100000 in
theorem space_prefix_cases (e : GoString) (he : e ∈ spaceEncodings) (p : GoString)
    (hp : p <+: e) (hne : p ≠ []) (hpe : p ≠ e) :
    p ∈ ([[0xC2], [0xE1], [0xE1, 0x9A], [0xE2], [0xE2, 0x80], [0xE2, 0x81], [0xE3],
      [0xE3, 0x80]] : List GoString) := by
  have key : ∀ e ∈ spaceEncodings, ∀ p ∈ e.inits, p ≠ [] → p ≠ e →
      p ∈ ([[0xC2], [0xE1], [0xE1, 0x9A], [0xE2], [0xE2, 0x80], [0xE2, 0x81], [0xE3],
        [0xE3, 0x80]] : List GoString) := by decide
  exact key e he p ((List.mem_inits _ _).mpr hp) hne hpe

set_option maxRecDepth 100000 in
theorem space_suffix_head (e : GoString) (he : e ∈ spaceEncodings) (p : GoString)
    (hp : p <:+ e) (hne : p ≠ []) (hpe : p ≠ e) :
    ∃ c t, p = c :: t ∧ continuation c = true := by
  have key : ∀ e ∈ spaceEncodings, ∀ p ∈ e.tails, p ≠ [] → p ≠ e →
      (match p with
        | c :: _ => continuation c
        | [] => false) = true := by decide
  have := key e he p ((List.mem_tails _ _).mpr hp) hne hpe
  cases p with
  | nil => exact absurd rfl hne
  | cons c t => exact ⟨c, t, rfl, this⟩

set_option maxRecDepth 100000 in
theorem space_head (e : GoString) (he : e ∈ spaceEncodings) :
    ∃ c t, e = c :: t ∧ continuation c = false := by
  have key : ∀ e ∈ spaceEncodings,
      (match e with
        | c :: _ => !continuation c
        | [] => false) = true := by decide
  have := key e he
  cases e with
  | nil => simp at this
  | cons c t => exact ⟨c, t, rfl, by simpa using this⟩

/-- The beginning of a white-space encoding, cut short, is not continued to a
well-formed sequence by nothing or by a byte that starts a sequence. -/
theorem utf8Valid_cut (p : GoString)
    (hp : p ∈ ([[0xC2], [0xE1], [0xE1, 0x9A], [0xE2], [0xE2, 0x80], [0xE2, 0x81], [0xE3],
      [0xE3, 0x80]] : List GoString))
    (post : GoString) (h : post = [] ∨ ∃ c t, post = c :: t ∧ continuation c = false) :
    utf8Valid (p ++ post) = false := by
  simp only [List.mem_cons, List.mem_singleton, List.not_mem_nil, or_false] at hp
  rcases h with rfl | ⟨c, t, rfl, hc⟩
  · rcases hp with rfl | rfl | rfl | rfl | rfl | rfl | rfl | rfl <;>
      simp +decide [utf8Valid_cons, secondByte]
  · rcases hp with rfl | rfl | rfl | rfl | rfl | rfl | rfl | rfl <;>
      simp +decide [utf8Valid_cons, secondByte, hc]

/-- Trimming a text node of valid UTF-8 never leaves a fragment of a white-space
encoding. -/
theorem spaceFragment_TrimSpace (d : GoString) (h : utf8Valid d = true) :
    spaceFragment (TrimSpace d) = false := by
  obtain ⟨es, post, hes, hd, hpost⟩ := TrimSpace_peeled d
  have hv : utf8Valid (TrimSpace d ++ post) = true := by
    rw [hd, utf8Valid_spaces es hes] at h; exact h
  have hpost' : post = [] ∨ ∃ c t, post = c :: t ∧ continuation c = false := by
    rcases hpost with h0 | ⟨e, he, t, ht⟩
    · exact Or.inl h0
    · obtain ⟨c, t', hc, hcont⟩ := space_head e he
      exact Or.inr ⟨c, t' ++ t, by rw [ht, hc]; rfl, hcont⟩
  have ht := TrimSpace_trimmed d
  rw [leadingSpace_eq_none, leadingSpace_eq_none] at ht
  generalize TrimSpace d = p at hv ht ⊢
  cases hf : spaceFragment p with
  | false => rfl
  | true =>
    exfalso
    unfold spaceFragment at hf
    simp only [Bool.and_eq_true, Bool.not_eq_true', List.any_eq_true, Bool.or_eq_true] at hf
    obtain ⟨hne, e, he, hpe⟩ := hf
    have hne' : p ≠ [] := by
      intro h0; rw [h0] at hne; cases hne
    rcases hpe with hpre | hsuf
    · have hpre' : p <+: e := List.isPrefixOf_iff_prefix.mp hpre
      have hpe' : p ≠ e := fun h0 => ht.1 e he (by rw [h0])
      rw [utf8Valid_cut p (space_prefix_cases e he p hpre' hne' hpe') post hpost'] at hv
      cases hv
    · have hsuf' : p <:+ e := List.isSuffixOf_iff_suffix.mp hsuf
      have hpe' : p ≠ e := fun h0 => ht.2 e.reverse (List.mem_map_of_mem _ he) (by rw [h0])
      obtain ⟨c, t, hc, hcont⟩ := space_suffix_head e he p hsuf' hne' hpe'
      rw [hc, List.cons_append, utf8Valid_continuation c _ hcont] at hv
      cases hv

theorem utf8Valid_of_isASCII (d : GoString) (h : isASCII d) : utf8Valid d = true := by
  induction d with
  | nil => rfl
  | cons b t ih =>
    have hb : b < 0x80 := h b (List.mem_cons_self _ _)
    rw [utf8Valid_cons, if_pos hb]
    exact ih (fun c hc => h c (List.mem_cons_of_mem _ hc))

/-- C16, as stated, fails on `helloWorldTitle`: the untrimmed text nodes `Hello ` and
`World` concatenate to `Hello World`, and `extractTextContent` returns `HelloWorld`. -/
theorem c16_interior_space_counterexample :
    specTextContent helloWorldTitle = go "Hello World" ∧
    extractTextContent helloWorldTitle = go "HelloWorld" ∧
    extractTextContent helloWorldTitle ≠ specTextContent helloWorldTitle := by
  decide

/-- C16, amended: `extractTextContent` trims every text node on its own. On a node whose
text nodes hold valid UTF-8, and more generally when no trimmed text node is the
beginning or the end of the encoding of a white-space rune, it is the concatenation, in
document order, of the trimmed contents of the descendant text nodes, so white space at
the edge of a text node is not kept: `Hello ` followed by an element with `World` gives
`HelloWorld`. For arbitrary bytes it is `TrimSpace` of the data of a text node and
`TrimSpace` of the concatenated text contents of the children of any other node; there
two text nodes can grow together into white space, as `0xC2` and `0x85` do. -/
theorem c16_text_nodes_trimmed (n : Node) :
    ((∀ d ∈ textNodes n, utf8Valid d = true ∨ spaceFragment (TrimSpace d) = false) →
      extractTextContent n = ((textNodes n).map TrimSpace).flatten) ∧
    (∀ (t : NodeType) (d : GoString) (attrs : List Attribute) (cs : List Node),
      extractTextContent (.mk t d attrs cs) =
        if t = NodeType.TextNode then TrimSpace d
        else TrimSpace ((cs.map extractTextContent).flatten)) ∧
    extractTextContent helloWorldTitle = go "HelloWorld" ∧
    (extractTextContent splitRuneTitle = [] ∧
      ((textNodes splitRuneTitle).map TrimSpace).flatten = [0xC2, 0x85]) := by
  refine ⟨fun h => (extractTextContent_flat n (fun d hd => ?_)).1, ?_, by decide, by decide⟩
  · rcases h d hd with hv | hf
    · exact apart_TrimSpace d (spaceFragment_TrimSpace d hv)
    · exact apart_TrimSpace d hf
  · intro t d attrs cs
    rw [← extractTextChildren_eq]
    simp only [extractTextContent]

set_option maxRecDepth 100000 in
/-- C16, amended, at `cremeTitle`: its text nodes ` Crème ` and ` brûlée — 東京 ` are
valid UTF-8 that is not ASCII, and the text content is the two trimmed pieces side by
side. -/
theorem c16_text_nodes_trimmed_witness :
    (∀ d ∈ textNodes cremeTitle, utf8Valid d = true ∨ spaceFragment (TrimSpace d) = false) ∧
    extractTextContent cremeTitle = [go "Crème", go "brûlée — 東京"].flatten :=
  ⟨by decide, ((c16_text_nodes_trimmed cremeTitle).1 (by decide)).trans (by decide)⟩

end Crawler
